import Mathlib

/-!
go-tun2socks: Fake-DNS engine, DNS answer cache, session registry, the TCP
and UDP relay handlers, the process lookup and the fallback resolver.

Shallow embedding of `common/dns/fakedns/fakedns.go`,
`common/dns/cache/ip_cache.go`, `common/dns/dns.go`, `common/stats/stats.go`,
`common/stats/session/session.go`, `proxy/socks/tcp.go`, `proxy/v2ray/tcp.go`,
`proxy/v2ray/udp.go`, `common/proc/proc_linux.go` and
`cmd/tun2socks/main_v2ray.go`.

Conventions.
* A Go `string` is a `List Char`, one `Char` per byte.
* A Go `uint32` is a `Nat`; every place where the Go code can overflow
  reduces explicitly modulo `2 ^ 32`.
* A Go `map[uint32]string` is an association list with at most one entry per
  key (`mapSet` removes the old entry before adding the new one).
* A Go method with a pointer receiver returns the new receiver next to its
  result.
* A run-time panic is `none`.
* Go's `int` is 64 bits wide.
* Functions of libraries outside the repository (`github.com/miekg/dns`,
  `net.IP.String`, `net.ResolveUDPAddr`, `time.Duration.String`) are
  parameters; `bufio.Scanner`, `strconv.Atoi`, `strings.Split`, `fmt`,
  `sort.Slice` and `net.JoinHostPort` are modelled after their documented
  behaviour.
* Connections, sockets and flows are numbered identities; what a handler
  does to them is the list of calls it makes, in order.  Results of reads and
  writes are inputs.
* The code runs one call at a time; interleavings of goroutines are not
  modelled.
* The content of `/proc/[pid]/stat` is the sequence of its runes, the tokens
  of `bufio.ScanRunes`.
* The loop of `GetProcessesBySocket` has no bound in the source; its model
  takes a number of turns allowed and returns `none` when they run out.
* `dns.Client.Exchange` is a function of the server and the query type, and
  `vdice.Roll` a function of its argument.
-/

namespace FakeDns

/-- Go `string`: a sequence of bytes. -/
abbrev GoString := List Char

/-- Go `net.IP`: a byte slice. -/
abbrev IP := List (Fin 256)

/-- Go `map[K]V`: an association list. -/
abbrev GoMap (κ ν : Type) := List (κ × ν)

/-- Map read `m[k]` together with the presence flag. -/
def mapGet {κ ν : Type} [DecidableEq κ] : GoMap κ ν → κ → Option ν
  | [], _ => none
  | (k', v) :: m, k => if k' = k then some v else mapGet m k

/-- Go `delete(m, k)`. -/
def mapDelete {κ ν : Type} [DecidableEq κ] (m : GoMap κ ν) (k : κ) : GoMap κ ν :=
  m.filter (fun e => e.1 ≠ k)

/-- Map write `m[k] = v`. -/
def mapSet {κ ν : Type} [DecidableEq κ] (m : GoMap κ ν) (k : κ) (v : ν) : GoMap κ ν :=
  (k, v) :: mapDelete m k

/-- The keys of a map. -/
def mapKeys {κ ν : Type} (m : GoMap κ ν) : List κ := m.map Prod.fst

/-- Go `map[uint32]string`. -/
abbrev Ip2Domain := GoMap Nat GoString

/-- The state of `simpleFakeDns` (the mutex is left out). -/
structure simpleFakeDns where
  ip2domain : Ip2Domain
  cursor : Nat
  minCursor : Nat
  maxCursor : Nat
  fakeTtl : Nat
  cacheDir : GoString
  excludeDomains : List GoString
deriving DecidableEq

/-- Go `byte(n)` for an unsigned `n`. -/
def toByte (n : Nat) : Fin 256 := ⟨n % 256, Nat.mod_lt n (by decide)⟩

/-- Go `net.IPv4(a, b, c, d)`: the 16-byte form of an IPv4 address. -/
def IPv4 (a b c d : Fin 256) : IP :=
  [0, 0, 0, 0, 0, 0, 0, 0, 0, 0, 255, 255, a, b, c, d]

/-- `uint322ip`: `net.IPv4(byte(n>>24), byte(n>>16), byte(n>>8), byte(n))`. -/
def uint322ip (n : Nat) : IP :=
  IPv4 (toByte (n / 2 ^ 24)) (toByte (n / 2 ^ 16)) (toByte (n / 2 ^ 8)) (toByte n)

/-- `ip2uint32`: `binary.BigEndian.Uint32([]byte(ip)[12:])`.  The slice
expression and the bounds check of `Uint32` panic when `ip` has fewer than
16 bytes. -/
def ip2uint32 (ip : IP) : Option Nat :=
  match ip.drop 12 with
  | b0 :: b1 :: b2 :: b3 :: _ =>
      some (b0.val * 2 ^ 24 + b1.val * 2 ^ 16 + b2.val * 2 ^ 8 + b3.val)
  | _ => none

/-- `NewSimpleFakeDns`, given the results of `net.ParseIP(minIP)` and
`net.ParseIP(maxIP)` (`none` is Go's `nil`).  The result `none` is the `nil`
engine.  `net.ParseIP` only returns 16-byte slices; for a shorter slice
`ip2uint32` panics and the result is `none` as well. -/
def NewSimpleFakeDns (parsedMinIP parsedMaxIP : Option IP) (cacheDir : GoString)
    (excludeDomains : List GoString) : Option simpleFakeDns :=
  match parsedMinIP, parsedMaxIP with
  | some pmin, some pmax =>
      match ip2uint32 pmin, ip2uint32 pmax with
      | some minFakeIPCursor, some maxFakeIPCursor =>
          some { ip2domain := []
                 cursor := minFakeIPCursor
                 minCursor := minFakeIPCursor
                 maxCursor := maxFakeIPCursor
                 fakeTtl := 0
                 cacheDir := cacheDir
                 excludeDomains := excludeDomains }
      | _, _ => none
  | _, _ => none

/-- `allocateIP`: binds the cursor slot, returns its address, advances the
cursor (a `uint32` increment) and wraps it to `minCursor` past `maxCursor`. -/
def allocateIP (f : simpleFakeDns) (domain : GoString) : IP × simpleFakeDns :=
  let ip2domain := mapSet f.ip2domain f.cursor domain
  let ip := uint322ip f.cursor
  let cursor := (f.cursor + 1) % 2 ^ 32
  let cursor := if cursor > f.maxCursor then f.minCursor else cursor
  (ip, { f with ip2domain := ip2domain, cursor := cursor })

/-- `QueryDomain`: the domain bound to `ip`, or the empty string. -/
def QueryDomain (f : simpleFakeDns) (ip : IP) : Option (GoString × simpleFakeDns) :=
  match ip2uint32 ip with
  | none => none
  | some c =>
      match mapGet f.ip2domain c with
      | some domain => some (domain, f)
      | none => some ([], f)

/-- `IsFakeIP`: membership of `ip` in `[minCursor, maxCursor]`. -/
def IsFakeIP (f : simpleFakeDns) (ip : IP) : Option Bool :=
  match ip2uint32 ip with
  | none => none
  | some c => if c ≥ f.minCursor ∧ c ≤ f.maxCursor then some true else some false

/-- A sequence of `allocateIP` calls: the addresses returned, in order, and
the final state. -/
def allocateAll : simpleFakeDns → List GoString → List IP × simpleFakeDns
  | f, [] => ([], f)
  | f, d :: ds =>
      let r := allocateIP f d
      let rs := allocateAll r.2 ds
      (r.1 :: rs.1, rs.2)


/-! ### Persistence -/

/-- The errors the engine returns. -/
inductive Error where
  | openFailed
  | invalidCacheContent
  | ErrTooLong
  | cannotHandleDnsRequest
  | unexpectedQtype
  | failedToPack
deriving DecidableEq

/-- The decimal digit `d` as a byte. -/
def digitChar (d : Nat) : Char := Char.ofNat (48 + d)

/-- The decimal digits of `n`, most significant first; `fuel` bounds the
number of digits. -/
def formatDigits : Nat → Nat → GoString
  | 0, _ => []
  | fuel + 1, n =>
      if n < 10 then [digitChar n] else formatDigits fuel (n / 10) ++ [digitChar (n % 10)]

/-- The text `fmt` prints for an unsigned integer under `%d` (and
`Fprintln`). -/
def formatUint (n : Nat) : GoString := formatDigits (n + 1) n

/-- The value of a run of decimal digits, `none` when a byte is not a
digit. -/
def parseDigits : GoString → Nat → Option Nat
  | [], acc => some acc
  | c :: cs, acc => if c.isDigit then parseDigits cs (acc * 10 + (c.toNat - 48)) else none

/-- Go `strconv.Atoi` with a 64-bit `int`: an optional sign, then one or
more decimal digits, the value within the range of `int64`. -/
def Atoi (s : GoString) : Option Int :=
  match s with
  | [] => none
  | c :: cs =>
      let body := if c = '-' ∨ c = '+' then cs else s
      if body = [] then none
      else
        match parseDigits body 0 with
        | none => none
        | some n =>
            let v : Int := if c = '-' then -(n : Int) else (n : Int)
            if v < -(2 : Int) ^ 63 ∨ v > (2 : Int) ^ 63 - 1 then none else some v

/-- Go conversion `uint32(i)` of an `int`. -/
def toUint32 (i : Int) : Nat := (i % (2 : Int) ^ 32).toNat

/-- Go `strings.Split(s, sep)` for a one-byte separator. -/
def splitSep (sep : Char) : GoString → List GoString
  | [] => [[]]
  | c :: cs =>
      if c = sep then [] :: splitSep sep cs
      else
        match splitSep sep cs with
        | [] => [[c]]
        | p :: ps => (c :: p) :: ps

/-- Go `bufio.MaxScanTokenSize`. -/
def MaxScanTokenSize : Nat := 64 * 1024

/-- The helper `dropCR` of `bufio.ScanLines`: removes one trailing carriage
return. -/
def dropCR (line : GoString) : GoString :=
  if line.getLast? = some '\r' then line.dropLast else line

/-- The pieces `bufio.ScanLines` cuts the input into: the text between
newlines, without a final empty piece. -/
def lineTokens (data : GoString) : List GoString :=
  let pieces := splitSep '\n' data
  if pieces.getLast? = some [] then pieces.dropLast else pieces

/-- A `bufio.Scanner` with the default split function and buffer run over
`data` (reading the file itself does not fail): the tokens of the successful
`Scan` calls, and whether the scanner stopped with `ErrTooLong`, which it
does at the first line of `MaxScanTokenSize` bytes or more. -/
def scanLines (data : GoString) : List GoString × Bool :=
  let pieces := lineTokens data
  ((pieces.takeWhile (fun p => p.length < MaxScanTokenSize)).map dropCR,
   pieces.any (fun p => ¬ p.length < MaxScanTokenSize))

/-- The loop `for scanner.Scan() { ... }` of `restoreFromCache` over the
remaining tokens; `tooLong` is the value `scanner.Err()` has after it. -/
def restoreLoop (f : simpleFakeDns) : List GoString → Bool → simpleFakeDns × Option Error
  | [], tooLong => (f, if tooLong then some Error.ErrTooLong else none)
  | line :: rest, tooLong =>
      match splitSep ',' line with
      | [p0, p1] =>
          match Atoi p0 with
          | none => (f, some Error.invalidCacheContent)
          | some cursorInt =>
              restoreLoop { f with ip2domain := mapSet f.ip2domain (toUint32 cursorInt) p1 }
                rest tooLong
      | _ => (f, some Error.invalidCacheContent)

/-- `restoreFromCache` on the content of the file at `p` (`none`: `os.Open`
fails). -/
def restoreFromCache (f : simpleFakeDns) (file : Option GoString) :
    simpleFakeDns × Option Error :=
  match file with
  | none => (f, some Error.openFailed)
  | some data =>
      let scanner := scanLines data
      let cursorStr := scanner.1.headD []
      match Atoi cursorStr with
      | none => (f, some Error.invalidCacheContent)
      | some cursorInt =>
          restoreLoop { f with cursor := toUint32 cursorInt } scanner.1.tail scanner.2

/-- What `Start` finds at the cache path. -/
inductive CacheFile where
  | absent
  | unreadable
  | content (data : GoString)

/-- `Start`. -/
def Start (f : simpleFakeDns) (file : CacheFile) : simpleFakeDns × Option Error :=
  if f.cacheDir = [] then (f, none)
  else
    match file with
    | CacheFile.absent => (f, none)
    | CacheFile.unreadable => restoreFromCache f none
    | CacheFile.content data => restoreFromCache f (some data)

/-- Go `fmt.Sprintf("%d,%s", k, v)` for the entry `e = (k, v)`. -/
def cacheEntry (e : Nat × GoString) : GoString := formatUint e.1 ++ [','] ++ e.2

/-- One line of the cache file: `fmt.Fprintln(w, fmt.Sprintf("%d,%s", k, v))`. -/
def cacheLine (e : Nat × GoString) : GoString := cacheEntry e ++ ['\n']

/-- What the loop body of `restoreFromCache` reads off a line of the form
`<number>,<domain>`: the key and the domain; `none` for any other line. -/
def parseLine (line : GoString) : Option (Nat × GoString) :=
  match splitSep ',' line with
  | [p0, p1] => (Atoi p0).map (fun i => (toUint32 i, p1))
  | _ => none

/-- The state after the bindings `es` were written one after the other. -/
def installAll (f : simpleFakeDns) (es : List (Nat × GoString)) : simpleFakeDns :=
  es.foldl (fun g e => { g with ip2domain := mapSet g.ip2domain e.1 e.2 }) f

/-- An entry the line format can carry: the domain has no comma and no
newline, does not end in a carriage return, and the line of the entry fits
the buffer of the scanner. -/
def Storable (e : Nat × GoString) : Prop :=
  ',' ∉ e.2 ∧ '\n' ∉ e.2 ∧ e.2.getLast? ≠ some '\r' ∧
    (cacheEntry e).length < MaxScanTokenSize

instance : DecidablePred Storable := fun e => by
  unfold Storable
  infer_instance

/-- `saveToCacheFile`: the text written, when the file can be created.
`order` is the order in which `range f.ip2domain` visits the entries, which
Go leaves unspecified. -/
def saveToCacheFile (f : simpleFakeDns) (order : List (Nat × GoString)) : GoString :=
  formatUint f.cursor ++ ['\n'] ++ (order.map cacheLine).flatten

/-- `Stop`: the text written to the cache file, `none` when no cache
directory is configured. -/
def Stop (f : simpleFakeDns) (order : List (Nat × GoString)) : Option GoString :=
  if f.cacheDir = [] then none else some (saveToCacheFile f order)

/-! ### DNS queries -/

/-- Go `dns.TypeA`. -/
def TypeA : Nat := 1

/-- Go `dns.TypeAAAA`. -/
def TypeAAAA : Nat := 28

/-- Go `dns.ClassINET`. -/
def ClassINET : Nat := 1

/-- Go `net.IPv4len`. -/
def IPv4len : Nat := 4

/-- Go `net.IPv6len`. -/
def IPv6len : Nat := 16

/-- Go `fakeResponseTtl`. -/
def fakeResponseTtl : Nat := 1

/-- Go `dns.Question`. -/
structure Question where
  Name : GoString
  Qtype : Nat
  Qclass : Nat
deriving DecidableEq

/-- Go `dns.Msg`, as far as the engine reads it. -/
structure Msg where
  Id : Nat
  Question : List Question
deriving DecidableEq

/-- The resource record appended to the answer section (`dns.A` or
`dns.AAAA`, told apart by `Rrtype`). -/
structure RR where
  Name : GoString
  Rrtype : Nat
  Class : Nat
  Ttl : Nat
  Rdlength : Nat
  Addr : IP
deriving DecidableEq

/-- The reply message: `resp.SetReply(req)` with its answer section. -/
structure Reply where
  req : Msg
  Answer : List RR
deriving DecidableEq

/-- The functions of `github.com/miekg/dns` the engine calls. -/
structure DnsLib where
  Unpack : List (Fin 256) → Option Msg
  IsDomainName : GoString → Bool
  PackBuffer : Reply → Option (List (Fin 256))

/-- Go `strings.Contains`. -/
def Contains (s substr : GoString) : Bool := decide (List.IsInfix substr s)

/-- `canHandleDnsQuery`.  The slice expression `fqdn[:len(fqdn)-1]` panics
on an empty name. -/
def canHandleDnsQuery (lib : DnsLib) (f : simpleFakeDns) (data : List (Fin 256)) :
    Option Bool :=
  match lib.Unpack data with
  | none => some false
  | some req =>
      match req.Question with
      | [q] =>
          if q.Qtype ≠ TypeA ∧ q.Qtype ≠ TypeAAAA then some false
          else if q.Qclass ≠ ClassINET then some false
          else
            let fqdn := q.Name
            if fqdn = [] then none
            else
              let domain := fqdn.dropLast
              if ¬ lib.IsDomainName domain then some false
              else if f.excludeDomains.any (fun filter => Contains domain filter) then some false
              else some true
      | _ => some false

/-- `GenerateFakeResponse`: the packed answer or the error, and the new
state. -/
def GenerateFakeResponse (lib : DnsLib) (f : simpleFakeDns) (request : List (Fin 256)) :
    Option (Except Error (List (Fin 256)) × simpleFakeDns) :=
  match canHandleDnsQuery lib f request with
  | none => none
  | some false => some (Except.error Error.cannotHandleDnsRequest, f)
  | some true =>
      match lib.Unpack request with
      | none => none
      | some req =>
          match req.Question with
          | [] => none
          | q :: _ =>
              let qtype := q.Qtype
              let fqdn := q.Name
              if fqdn = [] then none
              else
                let domain := fqdn.dropLast
                let r := allocateIP f domain
                let ip := r.1
                let mkReply (rrtype rdlength : Nat) : Reply :=
                  { req := req
                    Answer := [{ Name := fqdn, Rrtype := rrtype, Class := ClassINET,
                                 Ttl := fakeResponseTtl, Rdlength := rdlength, Addr := ip }] }
                let pack (resp : Reply) : Except Error (List (Fin 256)) :=
                  match lib.PackBuffer resp with
                  | none => Except.error Error.failedToPack
                  | some dnsAnswer => Except.ok dnsAnswer
                if qtype = TypeA then some (pack (mkReply TypeA IPv4len), r.2)
                else if qtype = TypeAAAA then some (pack (mkReply TypeAAAA IPv6len), r.2)
                else some (Except.error Error.unexpectedQtype, r.2)

/-- The typing of a state: cursor, bounds and keys are `uint32` values and
the table has one entry per key. -/
def WellTyped (f : simpleFakeDns) : Prop :=
  f.cursor < 2 ^ 32 ∧ f.minCursor < 2 ^ 32 ∧ f.maxCursor < 2 ^ 32 ∧
    (∀ k ∈ mapKeys f.ip2domain, k < 2 ^ 32) ∧ (mapKeys f.ip2domain).Nodup

/-- The range invariant: the cursor and every bound key lie in
`[minCursor, maxCursor]`. -/
def InRange (f : simpleFakeDns) : Prop :=
  f.minCursor ≤ f.cursor ∧ f.cursor ≤ f.maxCursor ∧
    ∀ k ∈ mapKeys f.ip2domain, f.minCursor ≤ k ∧ k ≤ f.maxCursor

/-- A stand-in for the DNS library in examples: every non-empty message is
the query `A example.com.`, every name is valid, packing yields one byte. -/
def exampleLib : DnsLib where
  Unpack := fun data =>
    if data = [] then none
    else some { Id := 0, Question := [{ Name := "example.com.".toList, Qtype := 1, Qclass := 1 }] }
  IsDomainName := fun _ => true
  PackBuffer := fun _ => some [0]

end FakeDns

/-! ## DNS answer cache (`common/dns/cache/ip_cache.go`) -/

namespace IPCache

open FakeDns (GoString IP GoMap mapGet mapSet mapDelete)

/-- Go `time.Time` on the monotonic clock, in nanoseconds.  The clock is an
input of every operation: all the `time.Now()` calls made during one call of
`Query`, `Store` or `cleanup` return the same instant `now`. -/
abbrev Time := Int

/-- Go `time.Second` as a `time.Duration`. -/
def Second : Int := 1000000000

/-- Go `ipCacheEntry`; `ips` is a slice that may be `nil`. -/
structure ipCacheEntry where
  ips : Option (List IP)
  exp : Time
deriving DecidableEq

/-- Go `simpleIPCache` (the mutex is left out).  The entries are never
mutated once stored, so the map holds them by value. -/
structure simpleIPCache where
  storage : GoMap GoString ipCacheEntry
  lastCleanup : Time
deriving DecidableEq

/-- `NewSimpleIPCache` at time `now`. -/
def NewSimpleIPCache (now : Time) : simpleIPCache :=
  { storage := [], lastCleanup := now }

/-- `cleanup` at time `now`: keeps the entries with `now.Before(entry.exp)`. -/
def cleanup (c : simpleIPCache) (now : Time) : simpleIPCache :=
  { c with storage := c.storage.filter (fun e => now < e.2.exp) }

/-- `Query` at time `now`: the result (`none` is `nil`) and the new state. -/
def Query (c : simpleIPCache) (domain : GoString) (now : Time) :
    Option (List IP) × simpleIPCache :=
  match mapGet c.storage domain with
  | none => (none, c)
  | some entry =>
      if now > entry.exp then (none, { c with storage := mapDelete c.storage domain })
      else (entry.ips, c)

/-- `Store` at time `now`.  `minCleanupInterval` is declared outside the
file and is a parameter here. -/
def Store (minCleanupInterval : Int) (c : simpleIPCache) (domain : GoString)
    (ips : Option (List IP)) (ttl : Nat) (now : Time) : simpleIPCache :=
  let c1 := { c with storage := mapSet c.storage domain { ips := ips, exp := now + (ttl : Int) * Second } }
  if now - c1.lastCleanup > minCleanupInterval then
    { cleanup c1 now with lastCleanup := now }
  else c1

end IPCache


/-! ## Session registry (`common/stats/stats.go`, `common/stats/session/session.go`) -/

namespace Stats

open FakeDns (GoString GoMap mapGet mapSet mapDelete mapKeys)

/-- Go `time.Time.Sub`: the difference of two instants (nanoseconds on one
time line), saturated to the range of `time.Duration`. -/
def timeSub (t u : Int) : Int :=
  if t - u < -(2 : Int) ^ 63 then -(2 : Int) ^ 63
  else if t - u > (2 : Int) ^ 63 - 1 then (2 : Int) ^ 63 - 1
  else t - u

/-- The `int64` value an integer wraps around to. -/
def wrapInt64 (z : Int) : Int := (z + (2 : Int) ^ 63) % (2 : Int) ^ 64 - (2 : Int) ^ 63

/-- Go `int64` addition, which wraps around. -/
def addInt64 (a b : Int) : Int := wrapInt64 (a + b)

/-- Go `stats.Session`. -/
structure Session where
  UploadBytes : Int
  DownloadBytes : Int
  Processes : List GoString
  Network : GoString
  LocalAddr : GoString
  RemoteAddr : GoString
  SessionStart : Int
  SessionEnd : Int
  Extra : GoString
  OutboundTag : GoString
  FirstChunkReceived : Bool
  FirstChunkReceive : Int
  FirstChunkDuration : GoString
deriving DecidableEq

/-- `Session.handleFirstChunk` at time `now`. -/
def Session.handleFirstChunk (s : Session) (now : Int) : Session :=
  if ¬ s.FirstChunkReceived then { s with FirstChunkReceived := true, FirstChunkReceive := now }
  else s

/-- `Session.AddUploadBytes`. -/
def Session.AddUploadBytes (s : Session) (n : Int) : Session :=
  { s with UploadBytes := addInt64 s.UploadBytes n }

/-- `Session.AddDownloadBytes` at time `now`. -/
def Session.AddDownloadBytes (s : Session) (n : Int) (now : Int) : Session :=
  let s1 := s.handleFirstChunk now
  { s1 with DownloadBytes := addInt64 s1.DownloadBytes n }

/-- Go `maxCompletedSessions`. -/
def maxCompletedSessions : Nat := 500

/-- Go `simpleSessionStater` (mutex and HTTP server left out).  The keys of
the `sync.Map` are connection identities, numbered here; it holds each
session by its current value. -/
structure simpleSessionStater where
  sessions : GoMap Nat Session
  completedSessions : List Session
deriving DecidableEq

/-- `NewSimpleSessionStater`. -/
def NewSimpleSessionStater : simpleSessionStater :=
  { sessions := [], completedSessions := [] }

/-- `AddSession`. -/
def AddSession (s : simpleSessionStater) (key : Nat) (session : Session) :
    simpleSessionStater :=
  { s with sessions := mapSet s.sessions key session }

/-- `GetSession`: the session and the receiver, which it leaves as it
is; `none` is `nil`. -/
def GetSession (s : simpleSessionStater) (key : Nat) : Option Session × simpleSessionStater :=
  (mapGet s.sessions key, s)

/-- `RemoveSession` at time `now`. -/
def RemoveSession (s : simpleSessionStater) (key : Nat) (now : Int) : simpleSessionStater :=
  let s1 :=
    match mapGet s.sessions key with
    | some sess =>
        let sess2 := { sess with SessionEnd := now }
        let completedSessions := s.completedSessions ++ [sess2]
        if completedSessions.length > maxCompletedSessions then
          { s with completedSessions := completedSessions.drop 1 }
        else { s with completedSessions := completedSessions }
    | none => s
  { s1 with sessions := mapDelete s1.sessions key }

/-- The comparison the handlers give to `sort.Slice`. -/
def lessStart (a b : Session) : Bool := decide (timeSub a.SessionStart b.SessionStart < 0)

/-- Go `sort.Slice`.  The library sort is not stable; the model is the
insertion sort, which the library itself runs on short slices, and so fixes
the order of elements that compare equal. -/
def sortSlice {α : Type} (less : α → α → Bool) (l : List α) : List α :=
  l.insertionSort (fun a b => less b a = false)

/-- The loop body of `sessionStatsJsonHandler` that fills in
`FirstChunkDuration`; `roundString d` stands for
`d.Round(time.Millisecond).String()`. -/
def setFirstChunkDuration (roundString : Int → GoString) (sess : Session) : Session :=
  let duration := timeSub sess.FirstChunkReceive sess.SessionStart
  if duration > 0 then { sess with FirstChunkDuration := roundString duration } else sess

/-- Go `StatSessions`, the value given to the JSON encoder. -/
structure StatSessions where
  ActiveSessions : List Session
  CompletedSessions : List Session
deriving DecidableEq

/-- `sessionStatsJsonHandler`: the value encoded and the registry
afterwards.  `order` is the order in which `sessions.Range` visits the
store.  The loop over `s.completedSessions` writes through pointers into the
registry's own slice, and that slice is the one handed to the encoder. -/
def sessionStatsJsonHandler (roundString : Int → GoString) (s : simpleSessionStater)
    (order : List (Nat × Session)) : StatSessions × simpleSessionStater :=
  let sessions := order.map Prod.snd
  let sessions := sortSlice lessStart sessions
  let sessions := sessions.map (setFirstChunkDuration roundString)
  let completedSessions := s.completedSessions.map (setFirstChunkDuration roundString)
  ({ ActiveSessions := sessions, CompletedSessions := completedSessions },
   { s with completedSessions := completedSessions })

/-- `sessionStatsHandler`: the two lists it prints, row by row in list
order, as the active and the completed table; it does not write to the
registry. -/
def sessionStatsHandler (s : simpleSessionStater) (order : List (Nat × Session)) :
    StatSessions × simpleSessionStater :=
  let sessions := order.map Prod.snd
  let sessions := sortSlice lessStart sessions
  ({ ActiveSessions := sessions, CompletedSessions := s.completedSessions }, s)

/-- The calls of the registry interface. -/
inductive Call where
  | add (key : Nat) (session : Session)
  | get (key : Nat)
  | remove (key : Nat) (now : Int)

/-- The registry after one call. -/
def step (s : simpleSessionStater) : Call → simpleSessionStater
  | Call.add key session => AddSession s key session
  | Call.get key => (GetSession s key).2
  | Call.remove key now => RemoveSession s key now

/-- The registry after a sequence of calls on a new one. -/
def run (calls : List Call) : simpleSessionStater :=
  calls.foldl step NewSimpleSessionStater

/-- A stand-in for `d.Round(time.Millisecond).String()` in examples; it
agrees with Go on whole milliseconds from `1ms` to `999ms`. -/
def exampleRoundString (d : Int) : GoString :=
  FakeDns.formatUint (d / 1000000).toNat ++ ['m', 's']

/-- A session that started at `start`, with no traffic yet. -/
def exampleSession (start : Int) : Session :=
  { UploadBytes := 0, DownloadBytes := 0, Processes := ["curl".toList],
    Network := "tcp".toList, LocalAddr := "10.0.0.2:5000".toList,
    RemoteAddr := "example.com:443".toList, SessionStart := start, SessionEnd := 0,
    Extra := [], OutboundTag := [], FirstChunkReceived := false, FirstChunkReceive := 0,
    FirstChunkDuration := [] }

/-- A registry whose completed list is full: 500 copies of one session. -/
def exampleFull : simpleSessionStater :=
  { sessions := [(1, exampleSession 5)],
    completedSessions := List.replicate 500 (exampleSession 0) }

end Stats


/-! ## TCP relay handlers (`proxy/socks/tcp.go`, `proxy/v2ray/tcp.go`) -/

namespace Socks

open FakeDns (GoString IP simpleFakeDns IsFakeIP QueryDomain formatUint)
open Stats (Session wrapInt64 addInt64)

/-- Go `net.TCPAddr` (the zone is left out). -/
structure TCPAddr where
  IP : IP
  Port : Int
deriving DecidableEq

/-- Go `strconv.Itoa`. -/
def Itoa (i : Int) : GoString :=
  if i < 0 then '-' :: formatUint (-i).toNat else formatUint i.toNat

/-- Go `net.JoinHostPort`: a host with a colon is put in brackets. -/
def JoinHostPort (host port : GoString) : GoString :=
  if ':' ∈ host then ['['] ++ host ++ [']', ':'] ++ port else host ++ [':'] ++ port

/-- The `dest` that `tcpHandler.Handle` of the SOCKS handler passes to
`dialer.Dial`.  `fakeDns` is the engine or `nil`; `ipString` stands for
`net.IP.String`. -/
def dialDestination (ipString : IP → GoString) (fakeDns : Option simpleFakeDns)
    (target : TCPAddr) : Option GoString :=
  let targetHost : Option GoString :=
    match fakeDns with
    | none => some (ipString target.IP)
    | some f =>
        match IsFakeIP f target.IP with
        | none => none
        | some true => (QueryDomain f target.IP).map Prod.fst
        | some false => some (ipString target.IP)
  targetHost.map (fun host => JoinHostPort host (Itoa target.Port))

/-- Go `direction`, a byte. -/
abbrev direction := Nat

/-- Go `dirUplink`. -/
def dirUplink : direction := 0

/-- Go `dirDownlink`. -/
def dirDownlink : direction := 1

/-- The errors of `io` that `statsCopy` tells apart, and any other error. -/
inductive IOError where
  | EOF
  | ErrShortWrite
  | other (code : Nat)
deriving DecidableEq

/-- One turn of the copy loop: the result of `src.Read` and the result
`dst.Write` gives if it is called in this turn. -/
structure CopyStep where
  nr : Int
  er : Option IOError
  nw : Int
  ew : Option IOError
deriving DecidableEq

/-- What `statsCopy` returns and does: `written`, `err`, the session, and
the byte counts returned by the calls of `dst.Write` it made, in order. -/
structure CopyResult where
  written : Int
  err : Option IOError
  sess : Session
  writes : List Int
deriving DecidableEq

/-- The counting of `nw` bytes in `statsCopy`: the `switch dir`. -/
def countBytes (sess : Session) (dir : direction) (nw : Int) (now : Int) : Session :=
  if dir = dirUplink then sess.AddUploadBytes nw
  else if dir = dirDownlink then sess.AddDownloadBytes nw now
  else sess

/-- The loop of `statsCopy` over the turns still to come.  A reader that has
given all its results reports `io.EOF`.  `now` is the clock reading of
`handleFirstChunk`. -/
def statsCopyLoop (dir : direction) (now : Int) :
    List CopyStep → Int → Session → List Int → CopyResult
  | [], written, sess, writes => ⟨written, none, sess, writes⟩
  | st :: rest, written, sess, writes =>
      if st.nr > 0 then
        let sess1 := if st.nw > 0 then countBytes sess dir st.nw now else sess
        let written1 := if st.nw > 0 then addInt64 written st.nw else written
        let writes1 := writes ++ [st.nw]
        if st.ew ≠ none then ⟨written1, st.ew, sess1, writes1⟩
        else if st.nr ≠ st.nw then ⟨written1, some IOError.ErrShortWrite, sess1, writes1⟩
        else if st.er ≠ none then
          ⟨written1, if st.er ≠ some IOError.EOF then st.er else none, sess1, writes1⟩
        else statsCopyLoop dir now rest written1 sess1 writes1
      else if st.er ≠ none then
        ⟨written, if st.er ≠ some IOError.EOF then st.er else none, sess, writes⟩
      else statsCopyLoop dir now rest written sess writes

/-- `statsCopy` run against the read and write results `steps`. -/
def statsCopy (steps : List CopyStep) (sess : Session) (dir : direction) (now : Int) :
    CopyResult :=
  statsCopyLoop dir now steps 0 sess []

/-- The sum of the byte counts a writer accepted: the positive results of
its `Write` calls. -/
def accepted (writes : List Int) : Int := (writes.filter (fun nw => nw > 0)).sum

/-- The calls `cls` makes on the two connections. -/
inductive ConnOp where
  | lhsCloseRead
  | lhsCloseWrite
  | lhsClose
  | rhsCloseRead
  | rhsCloseWrite
  | rhsClose
deriving DecidableEq

/-- The closure `cls` of `relay`: the calls it makes, in order.  `lhsOk` and
`rhsOk` tell whether `lhs` and `rhs` are a `duplexConn`; `none` is the panic
on an unexpected direction. -/
def cls (lhsOk rhsOk : Bool) (dir : direction) (interrupt : Bool) : Option (List ConnOp) :=
  if !interrupt && lhsOk && rhsOk then
    if dir = dirUplink then some [ConnOp.lhsCloseRead, ConnOp.rhsCloseWrite]
    else if dir = dirDownlink then some [ConnOp.lhsCloseWrite, ConnOp.rhsCloseRead]
    else none
  else some [ConnOp.lhsClose, ConnOp.rhsClose]

/-- What a copy loop of `relay` does once its copy has returned `err`. -/
def afterCopy (lhsOk rhsOk : Bool) (dir : direction) (err : Option IOError) :
    Option (List ConnOp) :=
  if err ≠ none then cls lhsOk rhsOk dir true else cls lhsOk rhsOk dir false

/-- A stand-in for `net.IP.String` in examples: dotted decimal of an IPv4
address in its 16-byte form. -/
def exampleIPString (ip : IP) : GoString :=
  match ip.drop 12 with
  | [a, b, c, d] =>
      formatUint a.val ++ ['.'] ++ formatUint b.val ++ ['.'] ++ formatUint c.val ++ ['.']
        ++ formatUint d.val
  | _ => []

end Socks

namespace V2Ray

open FakeDns (GoString IP GoMap simpleFakeDns IsFakeIP QueryDomain mapGet mapSet mapDelete)

/-- Go `vnet.Address`: an IP address or a domain name. -/
inductive Address where
  | IPAddress (ip : IP)
  | DomainAddress (domain : GoString)
deriving DecidableEq

/-- Go `vnet.Destination` of a TCP flow. -/
structure Destination where
  Address : Address
  Port : Int
deriving DecidableEq

/-- The `dest` that `tcpHandler.Handle` of the V2Ray handler passes to
`vcore.Dial`, and its flag `shouldSniffDomain`. -/
def dialDestination (fakeDns : Option simpleFakeDns) (target : Socks.TCPAddr) :
    Option (Destination × Bool) :=
  let dest : Destination := { Address := Address.IPAddress target.IP, Port := target.Port }
  match fakeDns with
  | none => some (dest, false)
  | some f =>
      match IsFakeIP f target.IP with
      | none => none
      | some false => some (dest, false)
      | some true =>
          match QueryDomain f target.IP with
          | none => none
          | some (domain, _) =>
              if domain.length = 0 then
                some ({ dest with Address := Address.IPAddress [1, 2, 3, 4] }, true)
              else some ({ dest with Address := Address.DomainAddress domain }, false)

end V2Ray


/-! ## UDP relay handler (`proxy/v2ray/udp.go`) and `ParseDNSQuery` (`common/dns/dns.go`) -/

namespace FakeDns

/-- Go `COMMON_DNS_PORT`. -/
def COMMON_DNS_PORT : Int := 53

/-- The errors of `ParseDNSQuery`. -/
inductive ParseError where
  | unpackFailed
  | multiQuestion
  | wrongQueryType
  | wrongQueryClass
  | invalidDomain
deriving DecidableEq

/-- `ParseDNSQuery`: the query type and the domain, or the error.  The slice
expression `fqdn[:len(fqdn)-1]` panics on an empty name. -/
def ParseDNSQuery (lib : DnsLib) (p : List (Fin 256)) :
    Option (Except ParseError (GoString × GoString)) :=
  match lib.Unpack p with
  | none => some (Except.error ParseError.unpackFailed)
  | some req =>
      match req.Question with
      | [q] =>
          let qt : Option GoString :=
            if q.Qtype = TypeA then some "TypeA".toList
            else if q.Qtype = TypeAAAA then some "TypeAAAA".toList
            else none
          match qt with
          | none => some (Except.error ParseError.wrongQueryType)
          | some qt =>
              if q.Qclass ≠ ClassINET then some (Except.error ParseError.wrongQueryClass)
              else
                let fqdn := q.Name
                if fqdn = [] then none
                else
                  let domain := fqdn.dropLast
                  if ¬ lib.IsDomainName domain then some (Except.error ParseError.invalidDomain)
                  else some (Except.ok (qt, domain))
      | _ => some (Except.error ParseError.multiQuestion)

end FakeDns

namespace V2Ray

open FakeDns (GoString IP GoMap simpleFakeDns mapGet mapSet mapDelete DnsLib
  GenerateFakeResponse ParseDNSQuery COMMON_DNS_PORT)

/-- Go `net.UDPAddr` (the zone is left out). -/
structure UDPAddr where
  IP : IP
  Port : Int
deriving DecidableEq

/-- Go `udpConnEntry`.  `conn` is the identity of the upstream socket;
`timeout` is the interval of the activity timer behind `updater`. -/
structure udpConnEntry where
  conn : Nat
  target : UDPAddr
  timeout : Int
deriving DecidableEq

/-- Go `udpHandler` (mutex and V2Ray instance left out).  The keys of
`conns` are the identities of the virtual flows. -/
structure udpHandler where
  conns : GoMap Nat udpConnEntry
  timeout : Int
  fakeDns : Option simpleFakeDns
deriving DecidableEq

/-- The calls the handler makes on sockets and timers, in order. -/
inductive Event where
  | WriteFrom (conn : Nat) (data : List (Fin 256)) (addr : UDPAddr)
  | Close (conn : Nat)
  | upstreamClose (c : Nat)
  | upstreamWriteTo (c : Nat) (data : List (Fin 256)) (addr : UDPAddr)
  | Update (c : Nat)
  | SetTimeout (c : Nat) (d : Int)
deriving DecidableEq

/-- The errors the handler returns. -/
inductive HandlerError where
  | nilTarget
  | dialFailed
  | writeDnsAnswerFailed
  | writeRemoteFailed
  | doesNotExist
deriving DecidableEq

/-- `Connect`.  `target = none` is the `nil` target; `dial` is the socket
`vcore.DialUDP` returns, `none` when it fails. -/
def Connect (h : udpHandler) (conn : Nat) (target : Option UDPAddr) (dial : Option Nat) :
    Option HandlerError × udpHandler :=
  match target with
  | none => (some HandlerError.nilTarget, h)
  | some target =>
      match dial with
      | none => (some HandlerError.dialFailed, h)
      | some c =>
          let entry : udpConnEntry := { conn := c, target := target, timeout := h.timeout }
          (none, { h with conns := mapSet h.conns conn entry })

/-- `Close`: closes the virtual flow, closes the upstream socket of the
flow if the table has one, and deletes the flow from the table. -/
def Close (h : udpHandler) (conn : Nat) : udpHandler × List Event :=
  let found : List Event :=
    match mapGet h.conns conn with
    | some c => [Event.upstreamClose c.conn]
    | none => []
  ({ h with conns := mapDelete h.conns conn }, Event.Close conn :: found)

/-- `CloseNolog`. -/
def CloseNolog (h : udpHandler) (conn : Nat) : udpHandler × List Event :=
  let found : List Event :=
    match mapGet h.conns conn with
    | some c => [Event.upstreamClose c.conn]
    | none => []
  ({ h with conns := mapDelete h.conns conn }, Event.Close conn :: found)

/-- The results of the socket calls `ReceiveTo` may make: whether
`conn.WriteFrom` fails, and the count and failure of `c.conn.WriteTo`. -/
structure SocketResults where
  writeFromFails : Bool
  writeToN : Int
  writeToFails : Bool
deriving DecidableEq

/-- Go `8 * time.Second`, the timeout set for DNS traffic. -/
def dnsTimeout : Int := 8 * 1000000000

/-- `ReceiveTo`: the error returned (`none` is `nil`), the handler
afterwards and the calls made; the outer `none` is a panic.  The writes to
the V2Ray session objects of the flow context are left out. -/
def ReceiveTo (lib : DnsLib) (io : SocketResults) (h : udpHandler) (conn : Nat)
    (data : List (Fin 256)) (addr : UDPAddr) :
    Option (Option HandlerError × udpHandler × List Event) :=
  -- the part after the fake-DNS branch
  let relay (h : udpHandler) : Option (Option HandlerError × udpHandler × List Event) :=
    match mapGet h.conns conn with
    | some c =>
        let parsed : Option (udpHandler × List Event) :=
          if addr.Port = COMMON_DNS_PORT then
            match ParseDNSQuery lib data with
            | none => none
            | some (Except.ok _) =>
                some ({ h with conns := mapSet h.conns conn { c with timeout := dnsTimeout } },
                      [Event.SetTimeout c.conn dnsTimeout])
            | some (Except.error _) => some (h, [])
          else some (h, [])
        match parsed with
        | none => none
        | some (h1, ev1) =>
            let ev2 := ev1 ++ [Event.upstreamWriteTo c.conn data addr]
            let ev3 := if io.writeToN > 0 then ev2 ++ [Event.Update c.conn] else ev2
            if io.writeToFails then
              let r := Close h1 conn
              some (some HandlerError.writeRemoteFailed, r.1, ev3 ++ r.2)
            else some (none, h1, ev3)
    | none =>
        let r := Close h conn
        some (some HandlerError.doesNotExist, r.1, r.2)
  match h.fakeDns with
  | some f =>
      if addr.Port = COMMON_DNS_PORT then
        match GenerateFakeResponse lib f data with
        | none => none
        | some (Except.ok resp, f1) =>
            let h1 := { h with fakeDns := some f1 }
            if io.writeFromFails then
              some (some HandlerError.writeDnsAnswerFailed, h1, [Event.WriteFrom conn resp addr])
            else
              let r := CloseNolog h1 conn
              some (none, r.1, Event.WriteFrom conn resp addr :: r.2)
        | some (Except.error _, f1) => relay { h with fakeDns := some f1 }
      else relay h
  | none => relay h

/-- One turn of the receive loop: the result of `c.conn.ReadFrom` (count,
buffer content, peer address or `nil`, whether it failed) and whether the
`conn.WriteFrom` that may follow fails. -/
structure ReadStep where
  n : Int
  data : List (Fin 256)
  addr : Option UDPAddr
  readFails : Bool
  writeFromFails : Bool
deriving DecidableEq

/-- The loop of `fetchInput` over the turns still to come: the calls made,
`none` for a panic (a `nil` peer address, a negative count).  `resolve a`
stands for `net.ResolveUDPAddr("udp", a.String())`.  A socket that has given
all its results fails the next read. -/
def fetchLoop (resolve : UDPAddr → Option UDPAddr) (conn : Nat) (c : udpConnEntry) :
    List ReadStep → Option (List Event)
  | [] => some []
  | r :: rest =>
      if r.readFails ∧ r.n ≤ 0 then some []
      else
        match r.addr with
        | none => none
        | some addr =>
            match resolve addr with
            | none => some [Event.Update c.conn]
            | some resolvedAddr =>
                if r.n < 0 then none
                else
                  let ev := [Event.Update c.conn,
                    Event.WriteFrom conn (r.data.take r.n.toNat) resolvedAddr]
                  if r.writeFromFails then some ev
                  else (fetchLoop resolve conn c rest).map (fun evs => ev ++ evs)

/-- `fetchInput`: the handler afterwards and the calls made.  When the loop
returns, the deferred `h.Close(conn)` runs. -/
def fetchInput (resolve : UDPAddr → Option UDPAddr) (h : udpHandler) (conn : Nat)
    (reads : List ReadStep) : Option (udpHandler × List Event) :=
  match mapGet h.conns conn with
  | none => some (h, [])
  | some c =>
      match fetchLoop resolve conn c reads with
      | none => none
      | some evs =>
          let r := Close h conn
          some (r.1, evs ++ r.2)

/-- A stand-in for `net.ResolveUDPAddr("udp", a.String())` in examples: an
address with a literal IP resolves to itself. -/
def exampleResolve (a : UDPAddr) : Option UDPAddr := some a

end V2Ray


/-! ## Process lookup (`common/proc/proc_linux.go`) -/

namespace Proc

open FakeDns (GoString Atoi)

/-- Go `InitProcessID`. -/
def InitProcessID : Int := 1

/-- The errors of the process lookup. -/
inductive ProcError where
  | openFailed
  | commandNotFound
  | notANumber
  | notFound
  | lookupFailed (code : Nat)
deriving DecidableEq

/-- The loops of `GetPpidAndCommand` that skip a field: the runes left
after the first space. -/
def skipField : List Char → List Char
  | [] => []
  | c :: cs => if c = ' ' then cs else skipField cs

/-- The loop of `GetPpidAndCommand` that scans the command name: the name
and the runes left. -/
def scanComm : Bool → GoString → List Char → GoString × List Char
  | _, comm, [] => (comm, [])
  | scanningComm, comm, c :: cs =>
      if scanningComm = false ∧ c = ' ' then (comm, cs)
      else if c = ')' then scanComm false comm cs
      else if scanningComm then scanComm true (comm ++ [c]) cs
      else if c = '(' then scanComm true comm cs
      else scanComm scanningComm comm cs

/-- The loop of `GetPpidAndCommand` that scans the parent pid: the runes up
to the next space. -/
def scanPpid : GoString → List Char → GoString
  | ppidStr, [] => ppidStr
  | ppidStr, c :: cs => if c = ' ' then ppidStr else scanPpid (ppidStr ++ [c]) cs

/-- `GetPpidAndCommand` on the content of `/proc/[pid]/stat`, given as the
sequence of its runes (`bufio.ScanRunes`); `none` when the file cannot be
opened. -/
def GetPpidAndCommand (file : Option (List Char)) : Except ProcError (Int × GoString) :=
  match file with
  | none => Except.error ProcError.openFailed
  | some content =>
      let rest1 := skipField content
      let r := scanComm false [] rest1
      let comm := r.1
      if comm.length = 0 then Except.error ProcError.commandNotFound
      else
        let rest3 := skipField r.2
        let ppidStr := scanPpid [] rest3
        match Atoi ppidStr with
        | none => Except.error ProcError.notANumber
        | some ppid => Except.ok (ppid, comm)

/-- The loop of `GetProcessesBySocket`; `getPpidAndCommand` stands for
`GetPpidAndCommand` read as a function of the pid.  `fuel` bounds the number
of turns, `none` meaning the loop has not ended by then. -/
def processChain (getPpidAndCommand : Int → Except ProcError (Int × GoString)) :
    Nat → Int → List GoString → Option (List GoString)
  | 0, _, _ => none
  | fuel + 1, pid, processes =>
      match getPpidAndCommand pid with
      | Except.error _ => some processes
      | Except.ok (ppid, comm) =>
          if ppid = InitProcessID then some (processes ++ [comm])
          else processChain getPpidAndCommand fuel ppid (processes ++ [comm])

/-- `GetProcessesBySocket`, given the result of `GetPidBySocket`. -/
def GetProcessesBySocket (getPidBySocket : Except ProcError Int)
    (getPpidAndCommand : Int → Except ProcError (Int × GoString)) (fuel : Nat) :
    Option (Except ProcError (List GoString)) :=
  match getPidBySocket with
  | Except.error e => some (Except.error e)
  | Except.ok pid =>
      match processChain getPpidAndCommand fuel pid [] with
      | none => none
      | some processes =>
          if processes.length = 0 then some (Except.error ProcError.notFound)
          else some (Except.ok processes)

/-- The variable `processes` of `Handle` and `Connect` in the V2Ray
handlers: the sentinel, replaced by the list when the lookup succeeds. -/
def handlerProcesses (r : Except ProcError (List GoString)) : List GoString :=
  match r with
  | Except.ok list => list
  | Except.error _ => ["unknown process".toList]

/-- A process table for examples: `curl` (pid 300) under `bash` (pid 200)
under `init`. -/
def exampleTable (pid : Int) : Except ProcError (Int × GoString) :=
  if pid = 300 then Except.ok (200, "curl".toList)
  else if pid = 200 then Except.ok (1, "bash".toList)
  else Except.error (ProcError.lookupFailed 0)

end Proc

/-! ## Fallback resolver (`cmd/tun2socks/main_v2ray.go`) -/

namespace Resolver

open FakeDns (GoString IP TypeA TypeAAAA)
open IPCache (simpleIPCache Query)

/-- A record of the answer section, as far as `Resolve` tells them apart:
`*dns.A`, `*dns.AAAA`, or any other record. -/
inductive RR where
  | A (ip : IP)
  | AAAA (ip : IP)
  | other
deriving DecidableEq

/-- The reply of `dns.Client.Exchange`, as far as `Resolve` reads it. -/
structure Reply where
  Rcode : Nat
  Answer : List RR
deriving DecidableEq

/-- Go `dns.RcodeSuccess`. -/
def RcodeSuccess : Nat := 0

/-- The errors of `Resolve`. -/
inductive ResolveError where
  | exchangeFailed (err : Nat)
  | notSuccess (rcode : Nat)
  | noEligibleInReply
  | noEligibleResult
deriving DecidableEq

/-- The loop over `r.Answer`: the addresses of the records of the queried
type. -/
def eligible (t : Nat) : List RR → List IP
  | [] => []
  | RR.A ip :: rest => if t = TypeA then ip :: eligible t rest else eligible t rest
  | RR.AAAA ip :: rest => if t = TypeAAAA then ip :: eligible t rest else eligible t rest
  | RR.other :: rest => eligible t rest

/-- The pairs of server and query type in the order the two nested loops
of `Resolve` visit them. -/
def attempts (dnsServers : List GoString) : List (GoString × Nat) :=
  (dnsServers.map (fun s => [(s, TypeA), (s, TypeAAAA)])).flatten

/-- The loops of `Resolve` over the attempts still to come: the result and
the attempts made, in order.  `exchange s t` is the result of
`r.dns.Exchange` for server `s` and query type `t`. -/
def resolveLoop (exchange : GoString → Nat → Except Nat Reply) :
    List (GoString × Nat) → Option ResolveError → List (GoString × Nat) →
      Except ResolveError (List IP) × List (GoString × Nat)
  | [], lastErr, made =>
      (match lastErr with
       | some e => Except.error e
       | none => Except.error ResolveError.noEligibleResult, made)
  | (s, t) :: rest, _, made =>
      match exchange s t with
      | Except.error err =>
          resolveLoop exchange rest (some (ResolveError.exchangeFailed err)) (made ++ [(s, t)])
      | Except.ok r =>
          if r.Rcode ≠ RcodeSuccess then
            resolveLoop exchange rest (some (ResolveError.notSuccess r.Rcode)) (made ++ [(s, t)])
          else
            let ips := eligible t r.Answer
            if ips.length > 0 then (Except.ok ips, made ++ [(s, t)])
            else
              resolveLoop exchange rest (some ResolveError.noEligibleInReply) (made ++ [(s, t)])

/-- `Resolve` at time `now`: the result, the attempts made, and the cache
afterwards. -/
def Resolve (exchange : GoString → Nat → Except Nat Reply) (cache : simpleIPCache)
    (dnsServers : List GoString) (domain : GoString) (now : Int) :
    (Except ResolveError (List IP) × List (GoString × Nat)) × simpleIPCache :=
  let q := Query cache domain now
  let cached : List IP :=
    match q.1 with
    | some ips => ips
    | none => []
  if cached.length > 0 then ((Except.ok cached, []), q.2)
  else (resolveLoop exchange (attempts dnsServers) none [], q.2)

/-- The address `ResolverDialer.Dial` takes for a domain destination:
`ips[vdice.Roll(len(ips))]`; `none` is the panic of an index out of
range. -/
def dialAddress (roll : Nat → Nat) (ips : List IP) : Option IP := ips[roll ips.length]?

/-- An exchange for examples: the server `9.9.9.9` does not answer, the
server `1.1.1.1` answers type A with `93.184.216.34` and type AAAA with
nothing. -/
def exampleExchange (s : GoString) (t : Nat) : Except Nat Reply :=
  if s = "1.1.1.1".toList then
    if t = TypeA then Except.ok ⟨0, [RR.A (FakeDns.IPv4 93 184 216 34)]⟩
    else Except.ok ⟨0, []⟩
  else Except.error 1

end Resolver


namespace Socks

/-- The write of a turn of the copy loop, if the turn makes one, reports no
error and accepts as many bytes as were read. -/
def writeAccepted (st : CopyStep) : Prop := st.nr > 0 → st.ew = none ∧ st.nr = st.nw

instance (st : CopyStep) : Decidable (writeAccepted st) :=
  inferInstanceAs (Decidable (st.nr > 0 → st.ew = none ∧ st.nr = st.nw))

/-- A turn after which the copy loop takes the next turn: its write, if any,
is accepted and its read reports no error. -/
def turnContinues (st : CopyStep) : Prop := writeAccepted st ∧ st.er = none

instance (st : CopyStep) : Decidable (turnContinues st) :=
  inferInstanceAs (Decidable (writeAccepted st ∧ st.er = none))

end Socks


namespace Resolver

open FakeDns (GoString IP TypeA TypeAAAA)

/-- The body of the inner loop of `Resolve` read as a function of the
attempt: the addresses it returns with, or the error it leaves in `lastErr`
before the next attempt. -/
def attempt (exchange : GoString → Nat → Except Nat Reply) (s : GoString) (t : Nat) :
    Except ResolveError (List IP) :=
  match exchange s t with
  | Except.error err => Except.error (ResolveError.exchangeFailed err)
  | Except.ok r =>
      if r.Rcode ≠ RcodeSuccess then Except.error (ResolveError.notSuccess r.Rcode)
      else if (eligible t r.Answer).length > 0 then Except.ok (eligible t r.Answer)
      else Except.error ResolveError.noEligibleInReply

end Resolver


namespace Socks

/-- The results of the calls of `dst.Write` made in the given turns: one
call in each turn whose read returned a positive count. -/
def writeResults (turns : List CopyStep) : List Int :=
  (turns.filter (fun x => x.nr > 0)).map (fun x => x.nw)

end Socks


/-! ## Lemmas on maps -/

namespace FakeDns

section Maps

variable {κ ν : Type} [DecidableEq κ]

theorem mapGet_filter_key (m : GoMap κ ν) (p : κ → Bool) (k : κ) :
    mapGet (m.filter (fun e => p e.1)) k = if p k then mapGet m k else none := by
  induction m with
  | nil => simp [mapGet]
  | cons e m ih =>
      obtain ⟨k', v⟩ := e
      by_cases hp : p k' = true
      · rw [List.filter_cons_of_pos (by simpa using hp)]
        by_cases hk : k' = k
        · subst hk; simp [mapGet, hp]
        · simp [mapGet, hk, ih]
      · rw [List.filter_cons_of_neg (by simpa using hp)]
        by_cases hk : k' = k
        · subst hk; simp [mapGet, hp, ih]
        · simp [mapGet, hk, ih]

theorem mapGet_mapDelete (m : GoMap κ ν) (k k' : κ) :
    mapGet (mapDelete m k) k' = if k' = k then none else mapGet m k' := by
  unfold mapDelete
  have h := mapGet_filter_key m (fun x => decide (x ≠ k)) k'
  simp only [decide_not] at h ⊢
  rw [h]
  by_cases hk : k' = k <;> simp [hk]

theorem mapGet_mapSet_self (m : GoMap κ ν) (k : κ) (v : ν) :
    mapGet (mapSet m k v) k = some v := by
  simp [mapSet, mapGet]

theorem mapGet_mapSet_ne (m : GoMap κ ν) (k k' : κ) (v : ν) (h : k' ≠ k) :
    mapGet (mapSet m k v) k' = mapGet m k' := by
  simp [mapSet, mapGet, mapGet_mapDelete, h, Ne.symm h]

theorem mapGet_eq_none_iff (m : GoMap κ ν) (k : κ) :
    mapGet m k = none ↔ k ∉ mapKeys m := by
  induction m with
  | nil => simp [mapGet, mapKeys]
  | cons e m ih =>
      obtain ⟨k', v⟩ := e
      by_cases hk : k' = k
      · subst hk; simp [mapGet, mapKeys]
      · simp only [mapKeys] at ih
        simp [mapGet, mapKeys, hk, ih, Ne.symm hk]

theorem mem_mapKeys_mapDelete (m : GoMap κ ν) (k k' : κ) :
    k' ∈ mapKeys (mapDelete m k) ↔ k' ∈ mapKeys m ∧ k' ≠ k := by
  simp only [mapKeys, mapDelete, List.mem_map, List.mem_filter]
  constructor
  · rintro ⟨e, ⟨he, hne⟩, rfl⟩
    exact ⟨⟨e, he, rfl⟩, by simpa using hne⟩
  · rintro ⟨⟨e, he, rfl⟩, hne⟩
    exact ⟨e, ⟨he, by simpa using hne⟩, rfl⟩

theorem mem_mapKeys_mapSet (m : GoMap κ ν) (k k' : κ) (v : ν) :
    k' ∈ mapKeys (mapSet m k v) ↔ k' = k ∨ k' ∈ mapKeys m := by
  have h := mem_mapKeys_mapDelete m k k'
  simp only [mapKeys] at h
  simp only [mapSet, mapKeys, List.map_cons, List.mem_cons, h]
  by_cases hk : k' = k <;> simp [hk]

theorem nodup_mapKeys_mapDelete (m : GoMap κ ν) (k : κ) (h : (mapKeys m).Nodup) :
    (mapKeys (mapDelete m k)).Nodup := by
  unfold mapKeys mapDelete
  exact h.sublist ((List.filter_sublist m).map Prod.fst)

theorem nodup_mapKeys_mapSet (m : GoMap κ ν) (k : κ) (v : ν) (h : (mapKeys m).Nodup) :
    (mapKeys (mapSet m k v)).Nodup := by
  have h1 := nodup_mapKeys_mapDelete m k h
  have h2 := mem_mapKeys_mapDelete m k k
  simp only [mapKeys] at h1 h2
  simp only [mapSet, mapKeys, List.map_cons, List.nodup_cons]
  exact ⟨by simp [h2], h1⟩

theorem mapGet_of_mem (m : GoMap κ ν) (h : (mapKeys m).Nodup) (k : κ) (v : ν)
    (hm : (k, v) ∈ m) : mapGet m k = some v := by
  induction m with
  | nil => simp at hm
  | cons e m ih =>
      obtain ⟨k', v'⟩ := e
      simp only [mapKeys, List.map_cons, List.nodup_cons] at h
      rcases List.mem_cons.1 hm with heq | hmem
      · cases heq; simp [mapGet]
      · have hne : k' ≠ k := by
          intro hk; subst hk
          exact h.1 (List.mem_map.2 ⟨(k', v), hmem, rfl⟩)
        simp only [mapGet, hne, if_false]
        exact ih h.2 hmem

theorem mem_of_mapGet (m : GoMap κ ν) (k : κ) (v : ν) (hm : mapGet m k = some v) :
    (k, v) ∈ m := by
  induction m with
  | nil => simp [mapGet] at hm
  | cons e m ih =>
      obtain ⟨k', v'⟩ := e
      by_cases hk : k' = k
      · subst hk
        simp only [mapGet, if_true, Option.some.injEq] at hm
        subst hm; simp
      · simp only [mapGet, hk, if_false] at hm
        exact List.mem_cons_of_mem _ (ih hm)

end Maps

/-! ## Addresses -/

theorem ip2uint32_uint322ip (n : Nat) : ip2uint32 (uint322ip n) = some (n % 2 ^ 32) := by
  simp only [ip2uint32, uint322ip, IPv4, toByte, List.drop_succ_cons, List.drop_zero,
    Option.some.injEq]
  norm_num
  omega

theorem ip2uint32_uint322ip_of_lt (n : Nat) (h : n < 2 ^ 32) :
    ip2uint32 (uint322ip n) = some n := by
  rw [ip2uint32_uint322ip, Nat.mod_eq_of_lt h]

end FakeDns

/-! ## Allocation (`allocateIP`, `QueryDomain`, `IsFakeIP`) -/

namespace FakeDns

theorem allocateIP_minCursor (f : simpleFakeDns) (d : GoString) :
    (allocateIP f d).2.minCursor = f.minCursor := rfl

theorem allocateIP_maxCursor (f : simpleFakeDns) (d : GoString) :
    (allocateIP f d).2.maxCursor = f.maxCursor := rfl

theorem allocateAll_minCursor (f : simpleFakeDns) (ds : List GoString) :
    (allocateAll f ds).2.minCursor = f.minCursor := by
  induction ds generalizing f with
  | nil => rfl
  | cons d ds ih => simp only [allocateAll]; rw [ih, allocateIP_minCursor]

theorem allocateAll_maxCursor (f : simpleFakeDns) (ds : List GoString) :
    (allocateAll f ds).2.maxCursor = f.maxCursor := by
  induction ds generalizing f with
  | nil => rfl
  | cons d ds ih => simp only [allocateAll]; rw [ih, allocateIP_maxCursor]

/-- C1: `allocateIP d` in a state with cursor `c` returns the IPv4 address
whose big-endian value is `c`, binds `c` to `d`, leaves every other binding
unchanged, and moves the cursor to `minCursor` when `c + 1` modulo `2 ^ 32`
exceeds `maxCursor` and to `c + 1` modulo `2 ^ 32` otherwise. -/
theorem allocateIP_contract (f : simpleFakeDns) (d : GoString) (hc : f.cursor < 2 ^ 32) :
    (allocateIP f d).1 = uint322ip f.cursor ∧
    ip2uint32 (allocateIP f d).1 = some f.cursor ∧
    mapGet (allocateIP f d).2.ip2domain f.cursor = some d ∧
    (∀ k, k ≠ f.cursor →
      mapGet (allocateIP f d).2.ip2domain k = mapGet f.ip2domain k) ∧
    (allocateIP f d).2.cursor =
      (if (f.cursor + 1) % 2 ^ 32 > f.maxCursor then f.minCursor
       else (f.cursor + 1) % 2 ^ 32) ∧
    (allocateIP f d).2.minCursor = f.minCursor ∧
    (allocateIP f d).2.maxCursor = f.maxCursor ∧
    (allocateIP f d).2.excludeDomains = f.excludeDomains := by
  refine ⟨rfl, ?_, ?_, ?_, rfl, rfl, rfl, rfl⟩
  · exact ip2uint32_uint322ip_of_lt _ hc
  · exact mapGet_mapSet_self _ _ _
  · intro k hk
    exact mapGet_mapSet_ne _ _ _ _ hk

/-- Witness of C1: the state with range `172.30.0.0 .. 172.30.0.2` and the
cursor on the last slot, which holds `a.com`; allocating `d.com` returns
`172.30.0.2`, rebinds it and wraps the cursor. -/
theorem allocateIP_contract_witness :
    (allocateIP ⟨[(2887647234, "a.com".toList)], 2887647234, 2887647232, 2887647234, 0, [], []⟩
        "d.com".toList).1 = IPv4 172 30 0 2 ∧
    (allocateIP ⟨[(2887647234, "a.com".toList)], 2887647234, 2887647232, 2887647234, 0, [], []⟩
        "d.com".toList).2.cursor = 2887647232 ∧
    mapGet (allocateIP ⟨[(2887647234, "a.com".toList)], 2887647234, 2887647232, 2887647234,
        0, [], []⟩ "d.com".toList).2.ip2domain 2887647234 = some "d.com".toList := by
  have h := allocateIP_contract
    ⟨[(2887647234, "a.com".toList)], 2887647234, 2887647232, 2887647234, 0, [], []⟩
    "d.com".toList (by decide)
  exact ⟨by decide, by decide, h.2.2.1⟩

/-- C2, at the failing input: with `minIP = 255.255.255.254` and
`maxIP = 255.255.255.255` (`N = 2`) the third allocation returns `0.0.0.0`
and not `minIP`: the increment of the cursor overflows to `0`, which is not
above `maxCursor`, so the cursor is not reset to `minCursor`; `minIP` stays
bound to the first domain. -/
theorem allocateIP_wrap_overflow :
    ∃ f, NewSimpleFakeDns (some (IPv4 255 255 255 254)) (some (IPv4 255 255 255 255)) [] []
        = some f ∧
      (allocateAll f ["a.com".toList, "b.com".toList, "c.com".toList]).1 =
        [IPv4 255 255 255 254, IPv4 255 255 255 255, IPv4 0 0 0 0] ∧
      (allocateAll f ["a.com".toList, "b.com".toList, "c.com".toList]).2.cursor = 1 ∧
      QueryDomain (allocateAll f ["a.com".toList, "b.com".toList, "c.com".toList]).2
          (IPv4 255 255 255 254) =
        some ("a.com".toList,
          (allocateAll f ["a.com".toList, "b.com".toList, "c.com".toList]).2) := by
  refine ⟨_, rfl, ?_, ?_, ?_⟩ <;> decide

/-- The example of the specification: range `172.30.0.0 .. 172.30.0.2`,
domains `a.com`, `b.com`, `c.com`, `d.com`. -/
theorem allocateAll_example :
    ∃ f, NewSimpleFakeDns (some (IPv4 172 30 0 0)) (some (IPv4 172 30 0 2)) [] [] = some f ∧
      (allocateAll f ["a.com".toList, "b.com".toList, "c.com".toList, "d.com".toList]).1 =
        [IPv4 172 30 0 0, IPv4 172 30 0 1, IPv4 172 30 0 2, IPv4 172 30 0 0] ∧
      QueryDomain
          (allocateAll f ["a.com".toList, "b.com".toList, "c.com".toList, "d.com".toList]).2
          (IPv4 172 30 0 0) =
        some ("d.com".toList,
          (allocateAll f ["a.com".toList, "b.com".toList, "c.com".toList, "d.com".toList]).2) := by
  refine ⟨_, rfl, ?_, ?_⟩ <;> decide

end FakeDns

namespace FakeDns

theorem allocateIP_cursor (f : simpleFakeDns) (d : GoString) :
    (allocateIP f d).2.cursor =
      (if (f.cursor + 1) % 2 ^ 32 > f.maxCursor then f.minCursor
       else (f.cursor + 1) % 2 ^ 32) := rfl

theorem allocateIP_ip2domain (f : simpleFakeDns) (d : GoString) :
    (allocateIP f d).2.ip2domain = mapSet f.ip2domain f.cursor d := rfl

theorem allocateIP_fst (f : simpleFakeDns) (d : GoString) :
    (allocateIP f d).1 = uint322ip f.cursor := rfl

theorem allocateAll_append (f : simpleFakeDns) (xs ys : List GoString) :
    allocateAll f (xs ++ ys) =
      ((allocateAll f xs).1 ++ (allocateAll (allocateAll f xs).2 ys).1,
       (allocateAll (allocateAll f xs).2 ys).2) := by
  induction xs generalizing f with
  | nil => simp [allocateAll]
  | cons x xs ih => simp [allocateAll, ih]

theorem NewSimpleFakeDns_fresh (pmin pmax : Option IP) (dir : GoString)
    (ex : List GoString) (f : simpleFakeDns) (h : NewSimpleFakeDns pmin pmax dir ex = some f) :
    f.cursor = f.minCursor ∧ f.ip2domain = [] ∧ f.minCursor < 2 ^ 32 ∧ f.maxCursor < 2 ^ 32 ∧
      (∃ a b, pmin = some a ∧ pmax = some b ∧ ip2uint32 a = some f.minCursor ∧
        ip2uint32 b = some f.maxCursor) := by
  have hlt : ∀ (ip : IP) (n : Nat), ip2uint32 ip = some n → n < 2 ^ 32 := by
    intro ip n hn
    unfold ip2uint32 at hn
    split at hn
    · rename_i b0 b1 b2 b3 _ _
      simp only [Option.some.injEq] at hn
      have h0 := b0.isLt; have h1 := b1.isLt; have h2 := b2.isLt; have h3 := b3.isLt
      norm_num at hn ⊢
      omega
    · simp at hn
  unfold NewSimpleFakeDns at h
  split at h
  · rename_i a b
    split at h
    · rename_i lo hi hlo hhi
      simp only [Option.some.injEq] at h
      subst h
      exact ⟨rfl, rfl, hlt _ _ hlo, hlt _ _ hhi, a, b, rfl, rfl, hlo, hhi⟩
    · simp at h
  · simp at h

/-- A run of allocations that stays below the end of the range: the `i`-th
one returns the address `cursor + i`, and afterwards the cursor stands right
behind the run, or on `minCursor` when the run ended on `maxCursor`. -/
theorem allocateAll_run (f : simpleFakeDns) (ds : List GoString)
    (hcur : f.cursor ≤ f.maxCursor) (hmax : f.maxCursor + 1 < 2 ^ 32)
    (hlen : f.cursor + ds.length ≤ f.maxCursor + 1) :
    (allocateAll f ds).1 = (List.range ds.length).map (fun i => uint322ip (f.cursor + i)) ∧
    (allocateAll f ds).2.cursor =
      (if f.cursor + ds.length = f.maxCursor + 1 then f.minCursor
       else f.cursor + ds.length) ∧
    (∀ k, mapGet (allocateAll f ds).2.ip2domain k =
      if f.cursor ≤ k ∧ k < f.cursor + ds.length then ds[k - f.cursor]?
      else mapGet f.ip2domain k) := by
  induction ds generalizing f with
  | nil =>
      refine ⟨rfl, ?_, ?_⟩
      · have : ¬ f.cursor = f.maxCursor + 1 := by omega
        simp [allocateAll, this]
      · intro k
        have : ¬ (f.cursor ≤ k ∧ k < f.cursor) := by omega
        simp [allocateAll, this]
  | cons d ds ih =>
      simp only [List.length_cons] at hlen
      have hmod : (f.cursor + 1) % 2 ^ 32 = f.cursor + 1 := Nat.mod_eq_of_lt (by omega)
      by_cases hlast : f.cursor = f.maxCursor
      · -- the run ends here
        have hds : ds = [] := by
          cases ds with
          | nil => rfl
          | cons x xs => simp only [List.length_cons] at hlen; omega
        subst hds
        refine ⟨?_, ?_, ?_⟩
        · simp [allocateAll, allocateIP_fst, List.range_succ]
        · simp only [allocateAll, allocateIP_cursor, hmod, List.length_singleton]
          rw [if_pos (by omega), if_pos (by omega)]
        · intro k
          simp only [allocateAll, allocateIP_ip2domain, List.length_singleton]
          by_cases hk : k = f.cursor
          · rw [hk, mapGet_mapSet_self]
            simp
          · rw [mapGet_mapSet_ne _ _ _ _ hk]
            have : ¬ (f.cursor ≤ k ∧ k < f.cursor + 1) := by omega
            simp [this]
      · have hc' : (allocateIP f d).2.cursor = f.cursor + 1 := by
          rw [allocateIP_cursor, hmod, if_neg (by omega)]
        have hmx : (allocateIP f d).2.maxCursor = f.maxCursor := rfl
        have hmn : (allocateIP f d).2.minCursor = f.minCursor := rfl
        obtain ⟨h1, h2, h3⟩ := ih (allocateIP f d).2 (by rw [hc', hmx]; omega)
          (by rw [hmx]; exact hmax) (by rw [hc', hmx]; omega)
        refine ⟨?_, ?_, ?_⟩
        · simp only [allocateAll, h1, hc', List.length_cons, List.range_succ_eq_map,
            List.map_cons, List.map_map]
          refine congrArg₂ _ rfl ?_
          apply List.map_congr_left
          intro i _
          simp only [Function.comp, Nat.succ_eq_add_one]
          congr 1
          omega
        · simp only [allocateAll, h2, hc', hmx, hmn, List.length_cons]
          have e : f.cursor + 1 + ds.length = f.cursor + (ds.length + 1) := by omega
          rw [e]
        · intro k
          simp only [allocateAll, h3 k, hc', List.length_cons]
          by_cases hk : k = f.cursor
          · rw [hk]
            have n1 : ¬ (f.cursor + 1 ≤ f.cursor ∧ f.cursor < f.cursor + 1 + ds.length) := by
              omega
            have n2 : f.cursor ≤ f.cursor ∧ f.cursor < f.cursor + (ds.length + 1) := by omega
            simp only [n1, n2, if_false, and_self, if_true, Nat.sub_self,
              List.getElem?_cons_zero]
            exact mapGet_mapSet_self _ _ _
          · by_cases hin : f.cursor + 1 ≤ k ∧ k < f.cursor + 1 + ds.length
            · have n2 : f.cursor ≤ k ∧ k < f.cursor + (ds.length + 1) := by omega
              have e : k - f.cursor = (k - (f.cursor + 1)) + 1 := by omega
              simp only [hin, n2, and_self, if_true, e, List.getElem?_cons_succ]
            · have n2 : ¬ (f.cursor ≤ k ∧ k < f.cursor + (ds.length + 1)) := by omega
              simp only [hin, n2, if_false]
              exact mapGet_mapSet_ne _ _ _ _ hk

/-- The ring property behind C2, for a range that does not end on
`255.255.255.255`: on a fresh engine with `N = maxCursor - minCursor + 1`
slots, `N` allocations return `minIP, minIP + 1, ...` in order, the next one
returns `minIP` again, and afterwards `QueryDomain minIP` is the domain
allocated last. -/
theorem allocateAll_ring (pmin pmax : Option IP) (dir : GoString) (ex : List GoString)
    (f : simpleFakeDns) (hnew : NewSimpleFakeDns pmin pmax dir ex = some f)
    (hle : f.minCursor ≤ f.maxCursor) (hmax : f.maxCursor + 1 < 2 ^ 32)
    (ds : List GoString) (d : GoString)
    (hlen : ds.length = f.maxCursor - f.minCursor + 1) :
    (allocateAll f (ds ++ [d])).1 =
      (List.range ds.length).map (fun i => uint322ip (f.minCursor + i))
        ++ [uint322ip f.minCursor] ∧
    QueryDomain (allocateAll f (ds ++ [d])).2 (uint322ip f.minCursor) =
      some (d, (allocateAll f (ds ++ [d])).2) := by
  obtain ⟨hcur, -, hminlt, -, -⟩ := NewSimpleFakeDns_fresh _ _ _ _ _ hnew
  obtain ⟨h1, h2, -⟩ := allocateAll_run f ds (by omega) hmax (by omega)
  have hend : f.cursor + ds.length = f.maxCursor + 1 := by omega
  rw [if_pos hend] at h2
  rw [allocateAll_append]
  refine ⟨?_, ?_⟩
  · simp only [h1, hcur, allocateAll, allocateIP, h2]
  · simp only [allocateAll, QueryDomain, ip2uint32_uint322ip_of_lt _ hminlt]
    have : mapGet (allocateIP (allocateAll f ds).2 d).2.ip2domain f.minCursor = some d := by
      have := mapGet_mapSet_self (allocateAll f ds).2.ip2domain (allocateAll f ds).2.cursor d
      rw [h2] at this
      simpa [allocateIP, h2] using this
    rw [this]

/-- The ring property at the range `172.30.0.0 .. 172.30.0.2`. -/
theorem allocateAll_ring_witness :
    (allocateAll ⟨[], 2887647232, 2887647232, 2887647234, 0, [], []⟩
        (["a.com".toList, "b.com".toList, "c.com".toList] ++ ["d.com".toList])).1 =
      (List.range 3).map (fun i => uint322ip (2887647232 + i)) ++ [uint322ip 2887647232] :=
  (allocateAll_ring (some (IPv4 172 30 0 0)) (some (IPv4 172 30 0 2)) [] []
    ⟨[], 2887647232, 2887647232, 2887647234, 0, [], []⟩ (by decide) (by decide) (by decide)
    ["a.com".toList, "b.com".toList, "c.com".toList] "d.com".toList (by decide)).1

end FakeDns

namespace FakeDns

theorem IsFakeIP_congr (f g : simpleFakeDns) (ip : IP) (hmin : g.minCursor = f.minCursor)
    (hmax : g.maxCursor = f.maxCursor) : IsFakeIP g ip = IsFakeIP f ip := by
  simp only [IsFakeIP, hmin, hmax]

theorem IsFakeIP_allocateAll (f : simpleFakeDns) (ds : List GoString) (ip : IP) :
    IsFakeIP (allocateAll f ds).2 ip = IsFakeIP f ip :=
  IsFakeIP_congr _ _ _ (allocateAll_minCursor f ds) (allocateAll_maxCursor f ds)

theorem InRange_allocateIP (f : simpleFakeDns) (d : GoString) (h : InRange f)
    (hmax : f.maxCursor + 1 < 2 ^ 32) :
    InRange (allocateIP f d).2 ∧ IsFakeIP f (allocateIP f d).1 = some true := by
  obtain ⟨h1, h2, h3⟩ := h
  have hmod : (f.cursor + 1) % 2 ^ 32 = f.cursor + 1 := Nat.mod_eq_of_lt (by omega)
  refine ⟨⟨?_, ?_, ?_⟩, ?_⟩
  · rw [allocateIP_cursor, hmod, allocateIP_minCursor]
    split <;> omega
  · rw [allocateIP_cursor, hmod, allocateIP_maxCursor]
    split <;> omega
  · intro k hk
    rw [allocateIP_ip2domain, mem_mapKeys_mapSet] at hk
    rw [allocateIP_minCursor, allocateIP_maxCursor]
    rcases hk with hk | hk
    · rw [hk]; exact ⟨h1, h2⟩
    · exact h3 k hk
  · rw [allocateIP_fst]
    simp only [IsFakeIP, ip2uint32_uint322ip_of_lt f.cursor (by omega)]
    rw [if_pos ⟨h1, h2⟩]

theorem InRange_allocateAll (f : simpleFakeDns) (ds : List GoString) (h : InRange f)
    (hmax : f.maxCursor + 1 < 2 ^ 32) :
    InRange (allocateAll f ds).2 ∧ ∀ ip ∈ (allocateAll f ds).1, IsFakeIP f ip = some true := by
  induction ds generalizing f with
  | nil => exact ⟨h, by simp [allocateAll]⟩
  | cons d ds ih =>
      obtain ⟨hi, hip⟩ := InRange_allocateIP f d h hmax
      obtain ⟨hi', hips⟩ := ih (allocateIP f d).2 hi (by rw [allocateIP_maxCursor]; exact hmax)
      refine ⟨hi', ?_⟩
      intro ip hmem
      simp only [allocateAll, List.mem_cons] at hmem
      rcases hmem with rfl | hmem
      · exact hip
      · rw [← IsFakeIP_congr f (allocateIP f d).2 ip rfl rfl]
        exact hips ip hmem

/-- C3 as stated fails at two inputs.  With `minIP = 10.0.0.5` above
`maxIP = 10.0.0.1` the fresh cursor is outside `[minCursor, maxCursor]` and
the address of the first allocation is not a fake IP.  With
`maxIP = 255.255.255.255` the cursor overflows to `0`, leaves the range, and
the third allocation binds and returns `0.0.0.0`, not a fake IP. -/
theorem within_range_counterexample :
    (∃ f, NewSimpleFakeDns (some (IPv4 10 0 0 5)) (some (IPv4 10 0 0 1)) [] [] = some f ∧
      ¬ (f.minCursor ≤ f.cursor ∧ f.cursor ≤ f.maxCursor) ∧
      IsFakeIP (allocateIP f "a.com".toList).2 (allocateIP f "a.com".toList).1 = some false) ∧
    (∃ f, NewSimpleFakeDns (some (IPv4 255 255 255 254)) (some (IPv4 255 255 255 255)) [] []
        = some f ∧
      (allocateAll f ["a.com".toList, "b.com".toList]).2.cursor = 0 ∧
      ¬ (f.minCursor ≤ (allocateAll f ["a.com".toList, "b.com".toList]).2.cursor) ∧
      0 ∈ mapKeys (allocateAll f ["a.com".toList, "b.com".toList, "c.com".toList]).2.ip2domain ∧
      (allocateAll f ["a.com".toList, "b.com".toList, "c.com".toList]).1.getLast? =
        some (IPv4 0 0 0 0) ∧
      IsFakeIP (allocateAll f ["a.com".toList, "b.com".toList, "c.com".toList]).2
        (IPv4 0 0 0 0) = some false) := by
  refine ⟨⟨_, rfl, ?_, ?_⟩, ⟨_, rfl, ?_, ?_, ?_, ?_, ?_⟩⟩ <;> decide

/-- C3, amended: for an engine built by `NewSimpleFakeDns` with
`minIP ≤ maxIP` and `maxIP` below `255.255.255.255`, after every sequence of
allocations the bounds are unchanged, the cursor and every key of
`ip2domain` lie in `[minCursor, maxCursor]`, and every address an allocation
returned satisfies `IsFakeIP`. -/
theorem allocateAll_within_range (pmin pmax : Option IP) (dir : GoString)
    (ex : List GoString) (f : simpleFakeDns)
    (hnew : NewSimpleFakeDns pmin pmax dir ex = some f)
    (hle : f.minCursor ≤ f.maxCursor) (hmax : f.maxCursor + 1 < 2 ^ 32)
    (ds : List GoString) :
    (allocateAll f ds).2.minCursor = f.minCursor ∧
    (allocateAll f ds).2.maxCursor = f.maxCursor ∧
    f.minCursor ≤ (allocateAll f ds).2.cursor ∧
    (allocateAll f ds).2.cursor ≤ f.maxCursor ∧
    (∀ k ∈ mapKeys (allocateAll f ds).2.ip2domain, f.minCursor ≤ k ∧ k ≤ f.maxCursor) ∧
    (∀ ip ∈ (allocateAll f ds).1, IsFakeIP (allocateAll f ds).2 ip = some true) := by
  obtain ⟨hcur, hemp, -, -, -⟩ := NewSimpleFakeDns_fresh _ _ _ _ _ hnew
  have hin : InRange f := by
    refine ⟨by omega, by omega, ?_⟩
    intro k hk
    rw [hemp] at hk
    simp [mapKeys] at hk
  obtain ⟨⟨h1, h2, h3⟩, h4⟩ := InRange_allocateAll f ds hin hmax
  rw [allocateAll_minCursor] at h1 h3
  rw [allocateAll_maxCursor] at h2 h3
  refine ⟨allocateAll_minCursor f ds, allocateAll_maxCursor f ds, h1, h2, h3, ?_⟩
  intro ip hip
  rw [IsFakeIP_allocateAll]
  exact h4 ip hip

/-- Witness of the amended C3: range `172.30.0.0 .. 172.30.0.2` and four
allocations; the cursor ends inside the range. -/
theorem allocateAll_within_range_witness :
    2887647232 ≤ (allocateAll ⟨[], 2887647232, 2887647232, 2887647234, 0, [], []⟩
        ["a.com".toList, "b.com".toList, "c.com".toList, "d.com".toList]).2.cursor ∧
    (allocateAll ⟨[], 2887647232, 2887647232, 2887647234, 0, [], []⟩
        ["a.com".toList, "b.com".toList, "c.com".toList, "d.com".toList]).2.cursor ≤
      2887647234 :=
  ⟨(allocateAll_within_range (some (IPv4 172 30 0 0)) (some (IPv4 172 30 0 2)) [] []
    ⟨[], 2887647232, 2887647232, 2887647234, 0, [], []⟩ (by decide) (by decide) (by decide)
    ["a.com".toList, "b.com".toList, "c.com".toList, "d.com".toList]).2.2.1,
   (allocateAll_within_range (some (IPv4 172 30 0 0)) (some (IPv4 172 30 0 2)) [] []
    ⟨[], 2887647232, 2887647232, 2887647234, 0, [], []⟩ (by decide) (by decide) (by decide)
    ["a.com".toList, "b.com".toList, "c.com".toList, "d.com".toList]).2.2.2.1⟩

/-- C4: for an address `ip` with `ip2uint32 ip = c`, `IsFakeIP ip` is true
exactly when `minCursor ≤ c ≤ maxCursor`; the result is the same in every
state with the same bounds, whatever the cursor and the bindings, and so the
same after any sequence of allocations. -/
theorem IsFakeIP_contract (f : simpleFakeDns) (ip : IP) (c : Nat)
    (hc : ip2uint32 ip = some c) :
    (IsFakeIP f ip = some true ↔ f.minCursor ≤ c ∧ c ≤ f.maxCursor) ∧
    (IsFakeIP f ip = some false ↔ ¬ (f.minCursor ≤ c ∧ c ≤ f.maxCursor)) ∧
    (∀ (m : Ip2Domain) (cur : Nat),
      IsFakeIP { f with ip2domain := m, cursor := cur } ip = IsFakeIP f ip) ∧
    (∀ ds : List GoString, IsFakeIP (allocateAll f ds).2 ip = IsFakeIP f ip) := by
  refine ⟨?_, ?_, ?_, ?_⟩
  · simp only [IsFakeIP, hc]
    by_cases h : f.minCursor ≤ c ∧ c ≤ f.maxCursor
    · simp [h]
    · simp only [ge_iff_le, h, if_false]; simp
  · simp only [IsFakeIP, hc]
    by_cases h : f.minCursor ≤ c ∧ c ≤ f.maxCursor
    · simp [h]
    · simp only [ge_iff_le, h, if_false]; simp
  · intro m cur
    exact IsFakeIP_congr _ _ _ rfl rfl
  · intro ds
    exact IsFakeIP_allocateAll f ds ip

/-- Witness of C4: `172.30.0.1` in the range `172.30.0.0 .. 172.30.0.2`. -/
theorem IsFakeIP_contract_witness :
    IsFakeIP ⟨[], 2887647232, 2887647232, 2887647234, 0, [], []⟩ (IPv4 172 30 0 1) = some true ∧
    IsFakeIP (allocateAll ⟨[], 2887647232, 2887647232, 2887647234, 0, [], []⟩
      ["a.com".toList, "b.com".toList]).2 (IPv4 172 30 0 1) = some true := by
  have h := IsFakeIP_contract ⟨[], 2887647232, 2887647232, 2887647234, 0, [], []⟩
    (IPv4 172 30 0 1) 2887647233 (by decide)
  have h1 := h.1.2 (by decide)
  exact ⟨h1, (h.2.2.2 ["a.com".toList, "b.com".toList]).trans h1⟩

/-- C5 as stated fails for an overwritten slot: on the one-slot range
`172.30.0.0 .. 172.30.0.0`, after `a.com` and then `b.com` were allocated,
`QueryDomain` at the former slot of `a.com` is `b.com`, not the empty
string. -/
theorem QueryDomain_overwritten_counterexample :
    ∃ f, NewSimpleFakeDns (some (IPv4 172 30 0 0)) (some (IPv4 172 30 0 0)) [] [] = some f ∧
      (allocateIP f "a.com".toList).1 = IPv4 172 30 0 0 ∧
      QueryDomain (allocateAll f ["a.com".toList, "b.com".toList]).2 (IPv4 172 30 0 0) =
        some ("b.com".toList, (allocateAll f ["a.com".toList, "b.com".toList]).2) ∧
      QueryDomain (allocateAll f ["a.com".toList, "b.com".toList]).2 (IPv4 172 30 0 0) ≠
        some ([], (allocateAll f ["a.com".toList, "b.com".toList]).2) := by
  refine ⟨_, rfl, ?_, ?_, ?_⟩ <;> decide

/-- C5, amended: for an address `ip` with `ip2uint32 ip = c`, `QueryDomain ip`
returns the domain bound to `c` when `c` is a key of the binding table and
the empty string otherwise, and returns the state unchanged.  A slot never
allocated on a fresh engine gives the empty string; a slot that has just been
overwritten gives the overwriting domain. -/
theorem QueryDomain_contract (f : simpleFakeDns) (ip : IP) (c : Nat)
    (hc : ip2uint32 ip = some c) :
    (∀ d, mapGet f.ip2domain c = some d → QueryDomain f ip = some (d, f)) ∧
    (c ∉ mapKeys f.ip2domain → QueryDomain f ip = some ([], f)) ∧
    (∃ d, QueryDomain f ip = some (d, f)) ∧
    (∀ pmin pmax dir ex, NewSimpleFakeDns pmin pmax dir ex = some f →
      QueryDomain f ip = some ([], f)) ∧
    (f.cursor = c → ∀ d, QueryDomain (allocateIP f d).2 ip = some (d, (allocateIP f d).2)) := by
  have hnone : c ∉ mapKeys f.ip2domain → QueryDomain f ip = some ([], f) := by
    intro h
    simp only [QueryDomain, hc, (mapGet_eq_none_iff _ _).2 h]
  refine ⟨?_, hnone, ?_, ?_, ?_⟩
  · intro d hd
    simp only [QueryDomain, hc, hd]
  · cases hg : mapGet f.ip2domain c with
    | none => exact ⟨[], by simp only [QueryDomain, hc, hg]⟩
    | some d => exact ⟨d, by simp only [QueryDomain, hc, hg]⟩
  · intro pmin pmax dir ex hnew
    apply hnone
    rw [(NewSimpleFakeDns_fresh _ _ _ _ _ hnew).2.1]
    simp [mapKeys]
  · intro hcur d
    simp only [QueryDomain, hc, allocateIP_ip2domain, hcur, mapGet_mapSet_self]

/-- Witness of the amended C5: the slot `172.30.0.0` bound to `a.com`. -/
theorem QueryDomain_contract_witness :
    QueryDomain ⟨[(2887647232, "a.com".toList)], 2887647233, 2887647232, 2887647234, 0, [], []⟩
        (IPv4 172 30 0 0) =
      some ("a.com".toList,
        ⟨[(2887647232, "a.com".toList)], 2887647233, 2887647232, 2887647234, 0, [], []⟩) :=
  (QueryDomain_contract
    ⟨[(2887647232, "a.com".toList)], 2887647233, 2887647232, 2887647234, 0, [], []⟩
    (IPv4 172 30 0 0) 2887647232 (by decide)).1 "a.com".toList (by decide)

end FakeDns

/-! ## Admissibility of a query (`canHandleDnsQuery`, `GenerateFakeResponse`) -/

namespace FakeDns

theorem any_Contains_eq_false (filters : List GoString) (domain : GoString) :
    (filters.any (fun filter => Contains domain filter)) = false ↔
      ∀ filter ∈ filters, ¬ List.IsInfix filter domain := by
  simp [List.any_eq_false, Contains]

theorem canHandleDnsQuery_single (lib : DnsLib) (f : simpleFakeDns) (data : List (Fin 256))
    (req : Msg) (q : Question) (hreq : lib.Unpack data = some req)
    (hq : req.Question = [q]) (hne : q.Name ≠ []) :
    canHandleDnsQuery lib f data =
      some (decide ((q.Qtype = TypeA ∨ q.Qtype = TypeAAAA) ∧ q.Qclass = ClassINET) &&
        lib.IsDomainName q.Name.dropLast &&
        !(f.excludeDomains.any (fun filter => Contains q.Name.dropLast filter))) := by
  simp only [canHandleDnsQuery, hreq, hq, hne, if_false]
  by_cases h1 : q.Qtype = TypeA
  · by_cases h2 : q.Qclass = ClassINET
    · by_cases h3 : lib.IsDomainName q.Name.dropLast = true
      · by_cases h4 : (f.excludeDomains.any (fun filter => Contains q.Name.dropLast filter)) = true
        · simp [h1, h2, h3, h4]
        · simp [h1, h2, h3, h4]
      · simp [h1, h2, h3]
    · simp [h1, h2]
  · by_cases h1' : q.Qtype = TypeAAAA
    · by_cases h2 : q.Qclass = ClassINET
      · by_cases h3 : lib.IsDomainName q.Name.dropLast = true
        · by_cases h4 : (f.excludeDomains.any (fun filter => Contains q.Name.dropLast filter)) = true
          · simp [h1, h1', h2, h3, h4]
          · simp [h1, h1', h2, h3, h4]
        · simp [h1, h1', h2, h3]
      · simp [h1, h1', h2]
    · simp [h1, h1']

theorem canHandleDnsQuery_not_single (lib : DnsLib) (f : simpleFakeDns)
    (data : List (Fin 256)) (req : Msg) (hreq : lib.Unpack data = some req)
    (hq : ∀ q, req.Question ≠ [q]) : canHandleDnsQuery lib f data = some false := by
  cases hl : req.Question with
  | nil => simp only [canHandleDnsQuery, hreq, hl]
  | cons q qs =>
      cases qs with
      | nil => exact absurd hl (hq q)
      | cons q' qs' => simp only [canHandleDnsQuery, hreq, hl]

theorem canHandleDnsQuery_unpack_failed (lib : DnsLib) (f : simpleFakeDns)
    (data : List (Fin 256)) (hreq : lib.Unpack data = none) :
    canHandleDnsQuery lib f data = some false := by
  simp only [canHandleDnsQuery, hreq]

/-- C6: given that the names `Unpack` returns are not empty (they are fully
qualified, ending in a dot), `canHandleDnsQuery` returns true exactly when
the query unpacks, has exactly one question, of type A or AAAA and class
INET, whose name without its last byte is a valid domain name that contains
no exclusion string as a substring; otherwise it returns false.
`GenerateFakeResponse` returns the cannot-handle error, with the state
untouched, when `canHandleDnsQuery` is false, and some other result when it
is true. -/
theorem canHandleDnsQuery_iff (lib : DnsLib) (f : simpleFakeDns) (data : List (Fin 256))
    (hname : ∀ req, lib.Unpack data = some req → ∀ q ∈ req.Question, q.Name ≠ []) :
    (canHandleDnsQuery lib f data = some true ↔
      ∃ req q, lib.Unpack data = some req ∧ req.Question = [q] ∧
        (q.Qtype = TypeA ∨ q.Qtype = TypeAAAA) ∧ q.Qclass = ClassINET ∧
        lib.IsDomainName q.Name.dropLast = true ∧
        ∀ filter ∈ f.excludeDomains, ¬ List.IsInfix filter q.Name.dropLast) ∧
    (canHandleDnsQuery lib f data = some true ∨ canHandleDnsQuery lib f data = some false) ∧
    (canHandleDnsQuery lib f data = some false →
      GenerateFakeResponse lib f data = some (Except.error Error.cannotHandleDnsRequest, f)) ∧
    (canHandleDnsQuery lib f data = some true →
      ∃ r s, GenerateFakeResponse lib f data = some (r, s) ∧
        r ≠ Except.error Error.cannotHandleDnsRequest) := by
  have key : canHandleDnsQuery lib f data = some true ↔
      ∃ req q, lib.Unpack data = some req ∧ req.Question = [q] ∧
        (q.Qtype = TypeA ∨ q.Qtype = TypeAAAA) ∧ q.Qclass = ClassINET ∧
        lib.IsDomainName q.Name.dropLast = true ∧
        ∀ filter ∈ f.excludeDomains, ¬ List.IsInfix filter q.Name.dropLast := by
    constructor
    · intro h
      cases hreq : lib.Unpack data with
      | none => rw [canHandleDnsQuery_unpack_failed lib f data hreq] at h; simp at h
      | some req =>
          by_cases hq : ∃ q, req.Question = [q]
          · obtain ⟨q, hq⟩ := hq
            have hne : q.Name ≠ [] := hname req hreq q (by rw [hq]; simp)
            rw [canHandleDnsQuery_single lib f data req q hreq hq hne] at h
            simp only [Option.some.injEq, Bool.and_eq_true, decide_eq_true_eq,
              Bool.not_eq_true', any_Contains_eq_false] at h
            exact ⟨req, q, rfl, hq, h.1.1.1, h.1.1.2, h.1.2, h.2⟩
          · rw [canHandleDnsQuery_not_single lib f data req hreq
              (fun q e => hq ⟨q, e⟩)] at h
            simp at h
    · rintro ⟨req, q, hreq, hq, hty, hcl, hdom, hex⟩
      have hne : q.Name ≠ [] := hname req hreq q (by rw [hq]; simp)
      rw [canHandleDnsQuery_single lib f data req q hreq hq hne]
      simp only [Option.some.injEq, Bool.and_eq_true, decide_eq_true_eq,
        Bool.not_eq_true', any_Contains_eq_false]
      exact ⟨⟨⟨hty, hcl⟩, hdom⟩, hex⟩
  have tot : canHandleDnsQuery lib f data = some true ∨
      canHandleDnsQuery lib f data = some false := by
    cases hreq : lib.Unpack data with
    | none => exact Or.inr (canHandleDnsQuery_unpack_failed lib f data hreq)
    | some req =>
        by_cases hq : ∃ q, req.Question = [q]
        · obtain ⟨q, hq⟩ := hq
          have hne : q.Name ≠ [] := hname req hreq q (by rw [hq]; simp)
          rw [canHandleDnsQuery_single lib f data req q hreq hq hne]
          cases (decide ((q.Qtype = TypeA ∨ q.Qtype = TypeAAAA) ∧ q.Qclass = ClassINET) &&
            lib.IsDomainName q.Name.dropLast &&
            !(f.excludeDomains.any (fun filter => Contains q.Name.dropLast filter))) with
          | true => exact Or.inl rfl
          | false => exact Or.inr rfl
        · exact Or.inr (canHandleDnsQuery_not_single lib f data req hreq
            (fun q e => hq ⟨q, e⟩))
  refine ⟨key, tot, ?_, ?_⟩
  · intro h
    simp only [GenerateFakeResponse, h]
  · intro h
    obtain ⟨req, q, hreq, hq, hty, -, -, -⟩ := key.1 h
    have hne : q.Name ≠ [] := hname req hreq q (by rw [hq]; simp)
    simp only [GenerateFakeResponse, h, hreq, hq, hne, if_false]
    rcases hty with hA | hA
    · simp only [hA, if_true]
      cases hp : lib.PackBuffer _ with
      | none => exact ⟨_, _, rfl, by simp⟩
      | some b => exact ⟨_, _, rfl, by simp⟩
    · simp only [hA]
      have : ¬ TypeAAAA = TypeA := by decide
      simp only [this, if_false, if_true]
      cases hp : lib.PackBuffer _ with
      | none => exact ⟨_, _, rfl, by simp⟩
      | some b => exact ⟨_, _, rfl, by simp⟩

/-- Witness of C6: with the exclusion list `["local"]` the query for
`example.com` is admissible. -/
theorem canHandleDnsQuery_iff_witness :
    canHandleDnsQuery exampleLib ⟨[], 0, 0, 9, 0, [], ["local".toList]⟩ [1] = some true :=
  (canHandleDnsQuery_iff exampleLib ⟨[], 0, 0, 9, 0, [], ["local".toList]⟩ [1]
    (by
      intro req hreq q hq
      have h : req = ⟨0, [⟨"example.com.".toList, 1, 1⟩]⟩ := by
        simpa [exampleLib] using hreq.symm
      subst h
      simp only [List.mem_singleton] at hq
      subst hq
      decide)).1.2
    ⟨⟨0, [⟨"example.com.".toList, 1, 1⟩]⟩, ⟨"example.com.".toList, 1, 1⟩, by decide, rfl,
      by decide, by decide, by decide, by decide⟩

end FakeDns

/-! ## Persistence (`saveToCacheFile`, `restoreFromCache`, `Start`) -/

namespace FakeDns

theorem digitChar_facts :
    ∀ d, d < 10 → (digitChar d).isDigit = true ∧ (digitChar d).toNat - 48 = d ∧
      digitChar d ≠ ',' ∧ digitChar d ≠ '\n' ∧ digitChar d ≠ '\r' ∧ digitChar d ≠ '-' ∧
      digitChar d ≠ '+' := by
  decide

theorem mem_formatDigits (fuel n : Nat) (c : Char) (h : c ∈ formatDigits fuel n) :
    ∃ d, d < 10 ∧ c = digitChar d := by
  induction fuel generalizing n with
  | zero => simp [formatDigits] at h
  | succ fuel ih =>
      unfold formatDigits at h
      split_ifs at h with hn
      · simp only [List.mem_singleton] at h
        exact ⟨n, hn, h⟩
      · rcases List.mem_append.1 h with h | h
        · exact ih _ h
        · simp only [List.mem_singleton] at h
          exact ⟨n % 10, Nat.mod_lt _ (by decide), h⟩

theorem formatDigits_ne_nil (fuel n : Nat) : formatDigits (fuel + 1) n ≠ [] := by
  unfold formatDigits
  split_ifs <;> simp

theorem formatUint_ne_nil (n : Nat) : formatUint n ≠ [] := formatDigits_ne_nil n n

theorem mem_formatUint (n : Nat) (c : Char) (h : c ∈ formatUint n) :
    c.isDigit = true ∧ c ≠ ',' ∧ c ≠ '\n' ∧ c ≠ '\r' ∧ c ≠ '-' ∧ c ≠ '+' := by
  obtain ⟨d, hd, rfl⟩ := mem_formatDigits _ _ _ h
  obtain ⟨h1, -, h3, h4, h5, h6, h7⟩ := digitChar_facts d hd
  exact ⟨h1, h3, h4, h5, h6, h7⟩

theorem length_formatDigits (fuel n k : Nat) (hk : 1 ≤ k) (hn : n < 10 ^ k) :
    (formatDigits fuel n).length ≤ k := by
  induction fuel generalizing n k with
  | zero => simp [formatDigits]
  | succ fuel ih =>
      unfold formatDigits
      split_ifs with h10
      · simpa using hk
      · have hk2 : 2 ≤ k := by
          by_contra hlt
          have : k = 1 := by omega
          subst this
          omega
        have hdiv : n / 10 < 10 ^ (k - 1) := by
          have e : 10 ^ k = 10 ^ (k - 1) * 10 := by
            rw [← pow_succ]; congr 1; omega
          rw [e] at hn
          exact Nat.div_lt_of_lt_mul (by rw [Nat.mul_comm]; exact hn)
        have := ih (n / 10) (k - 1) (by omega) hdiv
        simp only [List.length_append, List.length_singleton]
        omega

theorem length_formatUint (n : Nat) (h : n < 2 ^ 32) : (formatUint n).length ≤ 10 :=
  length_formatDigits _ n 10 (by decide) (by
    have : (2 : Nat) ^ 32 < 10 ^ 10 := by norm_num
    omega)

theorem parseDigits_append (xs ys : GoString) (acc : Nat) :
    parseDigits (xs ++ ys) acc = (parseDigits xs acc).bind (fun a => parseDigits ys a) := by
  induction xs generalizing acc with
  | nil => simp [parseDigits]
  | cons x xs ih =>
      simp only [List.cons_append, parseDigits]
      split_ifs
      · exact ih _
      · rfl

theorem parseDigits_formatDigits (fuel n : Nat) (h : n < fuel) :
    parseDigits (formatDigits fuel n) 0 = some n := by
  induction fuel generalizing n with
  | zero => omega
  | succ fuel ih =>
      unfold formatDigits
      split_ifs with h10
      · obtain ⟨h1, h2, -⟩ := digitChar_facts n h10
        simp [parseDigits, h1, h2]
      · have hlt : n / 10 < fuel := by omega
        obtain ⟨h1, h2, -⟩ := digitChar_facts (n % 10) (Nat.mod_lt _ (by decide))
        rw [parseDigits_append, ih _ hlt]
        simp only [Option.some_bind, parseDigits, h1, if_true, h2, Option.some.injEq]
        omega

theorem Atoi_formatUint (n : Nat) (h : n < 2 ^ 63) : Atoi (formatUint n) = some (n : Int) := by
  have hp : parseDigits (formatUint n) 0 = some n := parseDigits_formatDigits _ _ (by omega)
  cases hs : formatUint n with
  | nil => exact absurd hs (formatUint_ne_nil n)
  | cons c cs =>
      have hc := mem_formatUint n c (by rw [hs]; simp)
      rw [hs] at hp
      have h2 : ¬ ((n : Int) < -(2 : Int) ^ 63 ∨ (n : Int) > (2 : Int) ^ 63 - 1) := by
        have : (n : Int) < (2 : Int) ^ 63 := by exact_mod_cast h
        omega
      simp only [Atoi, hc.2.2.2.2.1, hc.2.2.2.2.2, or_self, if_false, List.cons_ne_nil, hp, h2]

theorem toUint32_natCast (n : Nat) (h : n < 2 ^ 32) : toUint32 (n : Int) = n := by
  unfold toUint32
  have : ((n : Int) % (2 : Int) ^ 32) = (n : Int) := by
    apply Int.emod_eq_of_lt
    · omega
    · exact_mod_cast h
  rw [this]
  simp

end FakeDns

namespace FakeDns

theorem splitSep_ne_nil (sep : Char) (l : GoString) : splitSep sep l ≠ [] := by
  cases l with
  | nil => simp [splitSep]
  | cons c cs =>
      unfold splitSep
      split_ifs
      · simp
      · split <;> simp

theorem splitSep_of_not_mem (sep : Char) (l : GoString) (h : sep ∉ l) :
    splitSep sep l = [l] := by
  induction l with
  | nil => rfl
  | cons c cs ih =>
      have hc : ¬ c = sep := fun e => h (by rw [e]; simp)
      have hcs : sep ∉ cs := fun e => h (List.mem_cons_of_mem _ e)
      simp only [splitSep, hc, if_false, ih hcs]

theorem splitSep_append_sep (sep : Char) (l rest : GoString) (h : sep ∉ l) :
    splitSep sep (l ++ sep :: rest) = l :: splitSep sep rest := by
  induction l with
  | nil => simp [splitSep]
  | cons c cs ih =>
      have hc : ¬ c = sep := fun e => h (by rw [e]; simp)
      have hcs : sep ∉ cs := fun e => h (List.mem_cons_of_mem _ e)
      simp only [List.cons_append, splitSep, hc, if_false, List.append_eq, ih hcs]

theorem restoreLoop_cons (f : simpleFakeDns) (line : GoString) (rest : List GoString)
    (tooLong : Bool) :
    restoreLoop f (line :: rest) tooLong =
      match parseLine line with
      | none => (f, some Error.invalidCacheContent)
      | some e => restoreLoop { f with ip2domain := mapSet f.ip2domain e.1 e.2 } rest tooLong := by
  conv_lhs => unfold restoreLoop
  unfold parseLine
  rcases hs : splitSep ',' line with _ | ⟨p0, _ | ⟨p1, _ | ⟨p2, ps⟩⟩⟩
  · simp
  · simp
  · cases hA : Atoi p0 <;> simp [hA]
  · simp

theorem restoreLoop_ok (f : simpleFakeDns) (lines : List GoString)
    (es : List (Nat × GoString)) (tooLong : Bool)
    (h : lines.map parseLine = es.map some) :
    restoreLoop f lines tooLong =
      (installAll f es, if tooLong then some Error.ErrTooLong else none) := by
  induction lines generalizing f es with
  | nil =>
      cases es with
      | nil => simp [restoreLoop, installAll]
      | cons e es => simp at h
  | cons line lines ih =>
      cases es with
      | nil => simp at h
      | cons e es =>
          simp only [List.map_cons, List.cons.injEq] at h
          rw [restoreLoop_cons, h.1]
          simp only [installAll, List.foldl_cons]
          exact ih _ es h.2

theorem restoreLoop_bad (f : simpleFakeDns) (lines : List GoString)
    (es : List (Nat × GoString)) (bad : GoString) (rest : List GoString) (tooLong : Bool)
    (h : lines.map parseLine = es.map some) (hbad : parseLine bad = none) :
    restoreLoop f (lines ++ bad :: rest) tooLong =
      (installAll f es, some Error.invalidCacheContent) := by
  induction lines generalizing f es with
  | nil =>
      cases es with
      | nil => simp [restoreLoop_cons, hbad, installAll]
      | cons e es => simp at h
  | cons line lines ih =>
      cases es with
      | nil => simp at h
      | cons e es =>
          simp only [List.map_cons, List.cons.injEq] at h
          rw [List.cons_append, restoreLoop_cons, h.1]
          simp only [installAll, List.foldl_cons]
          exact ih _ es h.2

theorem installAll_fields (f : simpleFakeDns) (es : List (Nat × GoString)) :
    (installAll f es).cursor = f.cursor ∧ (installAll f es).minCursor = f.minCursor ∧
    (installAll f es).maxCursor = f.maxCursor ∧
    (installAll f es).excludeDomains = f.excludeDomains ∧
    (installAll f es).cacheDir = f.cacheDir := by
  induction es generalizing f with
  | nil => simp [installAll]
  | cons e es ih =>
      have := ih { f with ip2domain := mapSet f.ip2domain e.1 e.2 }
      simpa [installAll] using this

theorem mapGet_installAll (f : simpleFakeDns) (es : List (Nat × GoString))
    (hnd : (mapKeys es).Nodup) (k : Nat) :
    mapGet (installAll f es).ip2domain k =
      match mapGet es k with
      | some v => some v
      | none => mapGet f.ip2domain k := by
  induction es generalizing f with
  | nil => simp [installAll, mapGet]
  | cons e es ih =>
      obtain ⟨a, b⟩ := e
      simp only [mapKeys, List.map_cons, List.nodup_cons] at hnd
      have hrec := ih { f with ip2domain := mapSet f.ip2domain a b } hnd.2
      simp only [installAll, List.foldl_cons] at hrec ⊢
      rw [hrec]
      by_cases hk : a = k
      · subst hk
        have : mapGet es a = none := (mapGet_eq_none_iff es a).2 hnd.1
        simp [this, mapGet, mapGet_mapSet_self]
      · rw [mapGet_mapSet_ne _ _ _ _ (Ne.symm hk)]
        simp only [mapGet, hk, if_false]

end FakeDns

namespace FakeDns

theorem newline_not_mem_cacheEntry (e : Nat × GoString) (h : '\n' ∉ e.2) :
    '\n' ∉ cacheEntry e := by
  intro hm
  simp only [cacheEntry, List.mem_append, List.mem_singleton] at hm
  rcases hm with (hm | hm) | hm
  · exact (mem_formatUint _ _ hm).2.2.1 rfl
  · exact absurd hm (by decide)
  · exact h hm

theorem splitSep_lines (order : List (Nat × GoString)) (h : ∀ e ∈ order, '\n' ∉ e.2) :
    splitSep '\n' (order.map cacheLine).flatten = order.map cacheEntry ++ [[]] := by
  induction order with
  | nil => simp [splitSep]
  | cons e order ih =>
      have he := newline_not_mem_cacheEntry e (h e (by simp))
      have hrest := ih (fun x hx => h x (List.mem_cons_of_mem _ hx))
      simp only [List.map_cons, List.flatten_cons, cacheLine, List.append_assoc,
        List.singleton_append, List.cons_append]
      rw [splitSep_append_sep _ _ _ he, List.nil_append, hrest]

theorem lineTokens_saveToCacheFile (f : simpleFakeDns) (order : List (Nat × GoString))
    (h : ∀ e ∈ order, '\n' ∉ e.2) :
    lineTokens (saveToCacheFile f order) = formatUint f.cursor :: order.map cacheEntry := by
  have hc : '\n' ∉ formatUint f.cursor := fun hm => (mem_formatUint _ _ hm).2.2.1 rfl
  have hs : splitSep '\n' (saveToCacheFile f order) =
      (formatUint f.cursor :: order.map cacheEntry) ++ [[]] := by
    simp only [saveToCacheFile, List.append_assoc, List.singleton_append]
    rw [splitSep_append_sep _ _ _ hc, splitSep_lines order h]
    simp
  simp only [lineTokens, hs, List.getLast?_concat, if_true, List.dropLast_concat]

theorem dropCR_of_ne (l : GoString) (h : l.getLast? ≠ some '\r') : dropCR l = l := by
  simp [dropCR, h]

theorem getLast?_formatUint_ne (n : Nat) : (formatUint n).getLast? ≠ some '\r' := by
  intro h
  exact (mem_formatUint _ _ (List.mem_of_getLast?_eq_some h)).2.2.2.1 rfl

theorem getLast?_cacheEntry_ne (e : Nat × GoString) (h : e.2.getLast? ≠ some '\r') :
    (cacheEntry e).getLast? ≠ some '\r' := by
  intro hl
  simp only [cacheEntry, List.getLast?_append] at hl
  cases hv : e.2.getLast? with
  | none =>
      rw [hv] at hl
      simp at hl
  | some c =>
      rw [hv] at hl
      simp only [Option.or, Option.some.injEq] at hl
      exact h (by rw [hv, hl])

theorem scanLines_saveToCacheFile (f : simpleFakeDns) (order : List (Nat × GoString))
    (hcur : f.cursor < 2 ^ 32) (h : ∀ e ∈ order, Storable e) :
    scanLines (saveToCacheFile f order) =
      (formatUint f.cursor :: order.map cacheEntry, false) := by
  have hlen : ∀ p ∈ formatUint f.cursor :: order.map cacheEntry,
      p.length < MaxScanTokenSize := by
    intro p hp
    rcases List.mem_cons.1 hp with rfl | hp
    · have := length_formatUint f.cursor hcur
      have e : MaxScanTokenSize = 65536 := by decide
      omega
    · obtain ⟨e, he, rfl⟩ := List.mem_map.1 hp
      exact (h e he).2.2.2
  have hcr : ∀ p ∈ formatUint f.cursor :: order.map cacheEntry, dropCR p = p := by
    intro p hp
    rcases List.mem_cons.1 hp with rfl | hp
    · exact dropCR_of_ne _ (getLast?_formatUint_ne _)
    · obtain ⟨e, he, rfl⟩ := List.mem_map.1 hp
      exact dropCR_of_ne _ (getLast?_cacheEntry_ne e (h e he).2.2.1)
  have htw : (formatUint f.cursor :: order.map cacheEntry).takeWhile
      (fun p => decide (p.length < MaxScanTokenSize)) =
      formatUint f.cursor :: order.map cacheEntry :=
    List.takeWhile_eq_self_iff.2 (fun p hp => by simpa using hlen p hp)
  have hany : (formatUint f.cursor :: order.map cacheEntry).any
      (fun p => decide (¬ p.length < MaxScanTokenSize)) = false :=
    List.any_eq_false.2 (fun p hp => by simpa using hlen p hp)
  unfold scanLines
  rw [lineTokens_saveToCacheFile f order (fun e he => (h e he).2.1)]
  simp only [htw, hany]
  congr 1
  conv_rhs => rw [← List.map_id (formatUint f.cursor :: order.map cacheEntry)]
  exact List.map_congr_left (fun p hp => by simpa using hcr p hp)

theorem parseLine_cacheEntry (e : Nat × GoString) (hk : e.1 < 2 ^ 32) (hc : ',' ∉ e.2) :
    parseLine (cacheEntry e) = some e := by
  have hd : ',' ∉ formatUint e.1 := fun hm => (mem_formatUint _ _ hm).2.1 rfl
  have hs : splitSep ',' (cacheEntry e) = [formatUint e.1, e.2] := by
    simp only [cacheEntry, List.append_assoc, List.singleton_append]
    rw [splitSep_append_sep _ _ _ hd, splitSep_of_not_mem _ _ hc]
  simp only [parseLine, hs, Atoi_formatUint e.1 (by omega), Option.map_some',
    toUint32_natCast e.1 hk]

theorem restoreFromCache_saveToCacheFile (f g : simpleFakeDns)
    (order : List (Nat × GoString)) (hcur : f.cursor < 2 ^ 32)
    (hkeys : ∀ e ∈ order, e.1 < 2 ^ 32) (h : ∀ e ∈ order, Storable e) :
    restoreFromCache g (some (saveToCacheFile f order)) =
      (installAll { g with cursor := f.cursor } order, none) := by
  have hp : (order.map cacheEntry).map parseLine = order.map some := by
    rw [List.map_map]
    exact List.map_congr_left
      (fun e he => parseLine_cacheEntry e (hkeys e he) (h e he).1)
  simp only [restoreFromCache, scanLines_saveToCacheFile f order hcur h, List.headD_cons,
    Atoi_formatUint f.cursor (by omega), List.tail_cons, toUint32_natCast f.cursor hcur]
  rw [restoreLoop_ok _ _ order false hp]
  simp

end FakeDns

namespace FakeDns

theorem Start_content (f : simpleFakeDns) (data : GoString) (h : f.cacheDir ≠ []) :
    Start f (CacheFile.content data) = restoreFromCache f (some data) := by
  simp [Start, h]

/-- C7 as stated fails when the malformed line is not the first one: on a
fresh engine with range `172.30.0.0 .. 172.30.0.2` and the cache content
`2887647233`, `2887647232,a.com`, `bad`, `Start` returns the error of the
third line, and by then the cursor is `2887647233` instead of `minCursor`
and the table binds `172.30.0.0` to `a.com`. -/
theorem restore_not_fail_closed :
    ∃ f, NewSimpleFakeDns (some (IPv4 172 30 0 0)) (some (IPv4 172 30 0 2)) "/tmp".toList []
        = some f ∧
      f.cursor = 2887647232 ∧ f.ip2domain = [] ∧
      (Start f (CacheFile.content "2887647233\n2887647232,a.com\nbad\n".toList)).2 =
        some Error.invalidCacheContent ∧
      (Start f (CacheFile.content "2887647233\n2887647232,a.com\nbad\n".toList)).1.cursor =
        2887647233 ∧
      (Start f (CacheFile.content "2887647233\n2887647232,a.com\nbad\n".toList)).1.ip2domain =
        [(2887647232, "a.com".toList)] := by
  refine ⟨_, rfl, ?_, ?_, ?_, ?_, ?_⟩ <;> decide

/-- C7, amended: `restoreFromCache` (and `Start` with it) leaves the state
untouched when the file cannot be opened or the first line is not a number.
When a later line is not of the form `<number>,<domain>`, it returns the
error with the cursor set to the number of the first line and with the
bindings of the lines before the malformed one written; the malformed line
and the lines after it are not applied. -/
theorem restoreFromCache_failure (f : simpleFakeDns) (data : GoString) :
    restoreFromCache f none = (f, some Error.openFailed) ∧
    (Atoi ((scanLines data).1.headD []) = none →
      restoreFromCache f (some data) = (f, some Error.invalidCacheContent)) ∧
    (∀ (c : Int) (lines : List GoString) (es : List (Nat × GoString)) (bad : GoString)
        (rest : List GoString),
      Atoi ((scanLines data).1.headD []) = some c →
      (scanLines data).1.tail = lines ++ bad :: rest →
      lines.map parseLine = es.map some →
      parseLine bad = none →
      restoreFromCache f (some data) =
        (installAll { f with cursor := toUint32 c } es, some Error.invalidCacheContent)) ∧
    (f.cacheDir ≠ [] → Start f (CacheFile.content data) = restoreFromCache f (some data)) := by
  refine ⟨rfl, ?_, ?_, Start_content f data⟩
  · intro h
    simp only [restoreFromCache, h]
  · intro c lines es bad rest hc htail hlines hbad
    simp only [restoreFromCache, hc, htail]
    exact restoreLoop_bad _ lines es bad rest _ hlines hbad

/-- Witness of the amended C7: the content `7`, `3,a.com`, `bad` on the
engine with range `0 .. 9`. -/
theorem restoreFromCache_failure_witness :
    restoreFromCache ⟨[], 0, 0, 9, 0, "/tmp".toList, []⟩ (some "7\n3,a.com\nbad\n".toList) =
      (installAll { (⟨[], 0, 0, 9, 0, "/tmp".toList, []⟩ : simpleFakeDns) with
          cursor := toUint32 7 } [(3, "a.com".toList)],
        some Error.invalidCacheContent) :=
  (restoreFromCache_failure ⟨[], 0, 0, 9, 0, "/tmp".toList, []⟩
    "7\n3,a.com\nbad\n".toList).2.2.1 7 ["3,a.com".toList] [(3, "a.com".toList)]
    "bad".toList [] (by decide) (by decide) (by decide) (by decide)

/-- C8 as stated fails for a domain that ends in a carriage return: the
state binding `172.30.0.0` to `a` followed by a carriage return (no comma,
no newline) is written as the line `2887647232,a\r`, from which the scanner
drops the carriage return; the restored binding is `a`. -/
theorem save_restore_counterexample :
    ',' ∉ ['a', '\r'] ∧ '\n' ∉ ['a', '\r'] ∧
    (restoreFromCache ⟨[], 2887647232, 2887647232, 2887647234, 0, [], []⟩
      (some (saveToCacheFile
        ⟨[(2887647232, ['a', '\r'])], 2887647233, 2887647232, 2887647234, 0, [], []⟩
        [(2887647232, ['a', '\r'])]))).2 = none ∧
    mapGet (restoreFromCache ⟨[], 2887647232, 2887647232, 2887647234, 0, [], []⟩
      (some (saveToCacheFile
        ⟨[(2887647232, ['a', '\r'])], 2887647233, 2887647232, 2887647234, 0, [], []⟩
        [(2887647232, ['a', '\r'])]))).1.ip2domain 2887647232 = some ['a'] ∧
    mapGet (⟨[(2887647232, ['a', '\r'])], 2887647233, 2887647232, 2887647234, 0, [], []⟩ :
      simpleFakeDns).ip2domain 2887647232 = some ['a', '\r'] := by
  refine ⟨?_, ?_, ?_, ?_, ?_⟩ <;> decide

/-- C8, amended: for a state with `uint32` cursor and keys whose bound
domains contain no comma and no newline, do not end in a carriage return and
give lines shorter than the scanner's 64 KiB token limit, the text written
by `saveToCacheFile`, in whatever order the map is visited, is accepted by
`restoreFromCache` on an engine with an empty table, and the restored engine
has the saved cursor and exactly the saved bindings (its range is left as it
was). -/
theorem save_restore_roundtrip (f g : simpleFakeDns) (order : List (Nat × GoString))
    (horder : order.Perm f.ip2domain) (hnodup : (mapKeys f.ip2domain).Nodup)
    (hcur : f.cursor < 2 ^ 32) (hkeys : ∀ e ∈ f.ip2domain, e.1 < 2 ^ 32)
    (hdom : ∀ e ∈ f.ip2domain, Storable e) (hfresh : g.ip2domain = []) :
    (restoreFromCache g (some (saveToCacheFile f order))).2 = none ∧
    (restoreFromCache g (some (saveToCacheFile f order))).1.cursor = f.cursor ∧
    (∀ k, mapGet (restoreFromCache g (some (saveToCacheFile f order))).1.ip2domain k =
      mapGet f.ip2domain k) ∧
    (restoreFromCache g (some (saveToCacheFile f order))).1.minCursor = g.minCursor ∧
    (restoreFromCache g (some (saveToCacheFile f order))).1.maxCursor = g.maxCursor := by
  have hk : ∀ e ∈ order, e.1 < 2 ^ 32 := fun e he => hkeys e (horder.mem_iff.1 he)
  have hd : ∀ e ∈ order, Storable e := fun e he => hdom e (horder.mem_iff.1 he)
  have hnd : (mapKeys order).Nodup := (horder.map Prod.fst).nodup_iff.2 hnodup
  rw [restoreFromCache_saveToCacheFile f g order hcur hk hd]
  obtain ⟨h1, h2, h3, -, -⟩ := installAll_fields { g with cursor := f.cursor } order
  refine ⟨rfl, h1, ?_, h2, h3⟩
  intro k
  simp only [mapGet_installAll _ order hnd k, hfresh]
  cases ho : mapGet order k with
  | some v =>
      have := mapGet_of_mem f.ip2domain hnodup k v (horder.mem_iff.1 (mem_of_mapGet order k v ho))
      simp [this]
  | none =>
      cases hf : mapGet f.ip2domain k with
      | none => simp [mapGet]
      | some v =>
          have := mapGet_of_mem order hnd k v (horder.mem_iff.2 (mem_of_mapGet _ k v hf))
          rw [this] at ho
          simp at ho

/-- Witness of the amended C8: two bindings, written in the order opposite
to the one of the table. -/
theorem save_restore_roundtrip_witness :
    (restoreFromCache ⟨[], 2887647232, 2887647232, 2887647234, 0, [], []⟩
      (some (saveToCacheFile
        ⟨[(2887647232, "a.com".toList), (2887647233, "b.com".toList)], 2887647234,
          2887647232, 2887647234, 0, [], []⟩
        [(2887647233, "b.com".toList), (2887647232, "a.com".toList)]))).1.cursor =
      2887647234 :=
  (save_restore_roundtrip
    ⟨[(2887647232, "a.com".toList), (2887647233, "b.com".toList)], 2887647234,
      2887647232, 2887647234, 0, [], []⟩
    ⟨[], 2887647232, 2887647232, 2887647234, 0, [], []⟩
    [(2887647233, "b.com".toList), (2887647232, "a.com".toList)]
    (by decide) (by decide) (by decide) (by decide) (by decide) rfl).2.1

end FakeDns

/-! ## Typing of the states the engine reaches -/

namespace FakeDns

theorem toUint32_lt (i : Int) : toUint32 i < 2 ^ 32 := by
  unfold toUint32
  have h1 : 0 ≤ i % (2 : Int) ^ 32 := Int.emod_nonneg _ (by norm_num)
  have h2 : i % (2 : Int) ^ 32 < (2 : Int) ^ 32 := Int.emod_lt_of_pos _ (by norm_num)
  omega

theorem WellTyped_NewSimpleFakeDns (pmin pmax : Option IP) (dir : GoString)
    (ex : List GoString) (f : simpleFakeDns) (h : NewSimpleFakeDns pmin pmax dir ex = some f) :
    WellTyped f := by
  obtain ⟨hcur, hemp, hmin, hmax, -⟩ := NewSimpleFakeDns_fresh _ _ _ _ _ h
  refine ⟨by rw [hcur]; exact hmin, hmin, hmax, ?_, ?_⟩
  · intro k hk
    rw [hemp] at hk
    simp [mapKeys] at hk
  · rw [hemp]
    simp [mapKeys]

theorem WellTyped_allocateIP (f : simpleFakeDns) (d : GoString) (h : WellTyped f) :
    WellTyped (allocateIP f d).2 := by
  obtain ⟨h1, h2, h3, h4, h5⟩ := h
  refine ⟨?_, h2, h3, ?_, ?_⟩
  · rw [allocateIP_cursor]
    split
    · exact h2
    · exact Nat.mod_lt _ (by norm_num)
  · intro k hk
    rw [allocateIP_ip2domain, mem_mapKeys_mapSet] at hk
    rcases hk with hk | hk
    · rw [hk]; exact h1
    · exact h4 k hk
  · rw [allocateIP_ip2domain]
    exact nodup_mapKeys_mapSet _ _ _ h5

theorem WellTyped_restoreLoop (f : simpleFakeDns) (lines : List GoString) (tooLong : Bool)
    (h : WellTyped f) : WellTyped (restoreLoop f lines tooLong).1 := by
  induction lines generalizing f with
  | nil => simpa [restoreLoop] using h
  | cons line lines ih =>
      rw [restoreLoop_cons]
      cases hp : parseLine line with
      | none => exact h
      | some e =>
          apply ih
          obtain ⟨h1, h2, h3, h4, h5⟩ := h
          refine ⟨h1, h2, h3, ?_, nodup_mapKeys_mapSet _ _ _ h5⟩
          intro k hk
          rw [mem_mapKeys_mapSet] at hk
          rcases hk with hk | hk
          · have hs : ∃ i, e.1 = toUint32 i := by
              unfold parseLine at hp
              split at hp
              · rename_i p0 p1 _
                cases hA : Atoi p0 with
                | none => simp [hA] at hp
                | some i =>
                    simp only [hA, Option.map_some', Option.some.injEq] at hp
                    exact ⟨i, by rw [← hp]⟩
              · simp at hp
            obtain ⟨i, hi⟩ := hs
            rw [hk, hi]
            exact toUint32_lt i
          · exact h4 k hk

theorem WellTyped_restoreFromCache (f : simpleFakeDns) (file : Option GoString)
    (h : WellTyped f) : WellTyped (restoreFromCache f file).1 := by
  cases file with
  | none => exact h
  | some data =>
      simp only [restoreFromCache]
      cases hA : Atoi ((scanLines data).1.headD []) with
      | none => exact h
      | some c =>
          apply WellTyped_restoreLoop
          obtain ⟨-, h2, h3, h4, h5⟩ := h
          exact ⟨toUint32_lt c, h2, h3, h4, h5⟩

end FakeDns

/-! ## DNS answer cache (`Query`, `Store`, `cleanup`) -/

namespace IPCache

open FakeDns

theorem mapGet_filter_val {κ ν : Type} [DecidableEq κ] (m : GoMap κ ν) (p : ν → Bool)
    (hnd : (mapKeys m).Nodup) (k : κ) :
    mapGet (m.filter (fun e => p e.2)) k = (mapGet m k).filter p := by
  induction m with
  | nil => simp [mapGet]
  | cons e m ih =>
      obtain ⟨k', v⟩ := e
      simp only [mapKeys, List.map_cons, List.nodup_cons] at hnd
      have ih' := ih hnd.2
      by_cases hk : k' = k
      · subst hk
        by_cases hp : p v = true
        · simp [List.filter_cons, hp, mapGet, Option.filter]
        · have hnone : mapGet (m.filter (fun e => p e.2)) k' = none := by
            rw [mapGet_eq_none_iff]
            intro hmem
            simp only [mapKeys, List.mem_map, List.mem_filter] at hmem
            obtain ⟨e, ⟨he, -⟩, hfst⟩ := hmem
            exact hnd.1 (List.mem_map.2 ⟨e, he, hfst⟩)
          simp [List.filter_cons, hp, mapGet, Option.filter, hnone]
      · by_cases hp : p v = true
        · simp [List.filter_cons, hp, mapGet, hk, ih']
        · simp [List.filter_cons, hp, mapGet, hk, ih']

theorem mapGet_cleanup (c : simpleIPCache) (now : Time) (hnd : (mapKeys c.storage).Nodup)
    (k : GoString) :
    mapGet (cleanup c now).storage k =
      (mapGet c.storage k).filter (fun e => decide (now < e.exp)) := by
  unfold cleanup
  exact mapGet_filter_val c.storage (fun e => decide (now < e.exp)) hnd k

theorem nodup_NewSimpleIPCache (now : Time) : (mapKeys (NewSimpleIPCache now).storage).Nodup := by
  simp [NewSimpleIPCache, mapKeys]

theorem nodup_cleanup (c : simpleIPCache) (now : Time) (hnd : (mapKeys c.storage).Nodup) :
    (mapKeys (cleanup c now).storage).Nodup := by
  unfold cleanup mapKeys
  exact hnd.sublist ((List.filter_sublist c.storage).map Prod.fst)

theorem nodup_Store (interval : Int) (c : simpleIPCache) (domain : GoString)
    (ips : Option (List IP)) (ttl : Nat) (now : Time) (hnd : (mapKeys c.storage).Nodup) :
    (mapKeys (Store interval c domain ips ttl now).storage).Nodup := by
  have h := nodup_mapKeys_mapSet c.storage domain
    ({ ips := ips, exp := now + (ttl : Int) * Second } : ipCacheEntry) hnd
  simp only [Store]
  split_ifs
  · exact nodup_cleanup _ now h
  · exact h

theorem nodup_Query (c : simpleIPCache) (domain : GoString) (now : Time)
    (hnd : (mapKeys c.storage).Nodup) : (mapKeys (Query c domain now).2.storage).Nodup := by
  unfold Query
  split
  · exact hnd
  · split_ifs
    · exact nodup_mapKeys_mapDelete _ _ hnd
    · exact hnd

/-- The entry `Store` writes is in the storage afterwards when `ttl` is
positive (a sweep at the same instant keeps it). -/
theorem mapGet_Store_self (interval : Int) (c : simpleIPCache) (domain : GoString)
    (ips : Option (List IP)) (ttl : Nat) (now : Time) (hnd : (mapKeys c.storage).Nodup)
    (httl : 0 < ttl) :
    mapGet (Store interval c domain ips ttl now).storage domain =
      some { ips := ips, exp := now + (ttl : Int) * Second } := by
  simp only [Store]
  split_ifs
  · have h := nodup_mapKeys_mapSet c.storage domain
      ({ ips := ips, exp := now + (ttl : Int) * Second } : ipCacheEntry) hnd
    have hexp : now < now + (ttl : Int) * Second := by
      have : (0 : Int) < (ttl : Int) * Second := by
        have h1 : (0 : Int) < (ttl : Int) := by exact_mod_cast httl
        have h2 : (0 : Int) < Second := by decide
        exact Int.mul_pos h1 h2
      exact lt_add_of_pos_right _ this
    show mapGet (cleanup _ now).storage domain = _
    rw [mapGet_cleanup _ now h, mapGet_mapSet_self]
    simp [Option.filter, hexp]
  · exact mapGet_mapSet_self _ _ _

/-- What `Query` does after `Store` with a positive `ttl` at time `t0`: up to
and including the instant `t0 + ttl` seconds it returns `ips` and leaves the
cache as it is; strictly after it returns `nil` and deletes the entry. -/
theorem Query_after_Store (interval : Int) (c : simpleIPCache) (domain : GoString)
    (ips : Option (List IP)) (ttl : Nat) (t0 t : Time) (hnd : (mapKeys c.storage).Nodup)
    (httl : 0 < ttl) :
    (t ≤ t0 + (ttl : Int) * Second →
      Query (Store interval c domain ips ttl t0) domain t =
        (ips, Store interval c domain ips ttl t0)) ∧
    (t > t0 + (ttl : Int) * Second →
      (Query (Store interval c domain ips ttl t0) domain t).1 = none ∧
      mapGet (Query (Store interval c domain ips ttl t0) domain t).2.storage domain = none) := by
  have hg := mapGet_Store_self interval c domain ips ttl t0 hnd httl
  constructor
  · intro ht
    have : ¬ t > t0 + (ttl : Int) * Second := not_lt.2 ht
    simp only [Query, hg, this, if_false]
  · intro ht
    simp only [Query, hg, ht, if_true, mapGet_mapDelete, true_and]

/-- Witness: `Store` with `ttl = 2` at time `0`, `Query` one second later. -/
theorem Query_after_Store_witness :
    Query (Store 30000000000 (NewSimpleIPCache 0) "example.com".toList
        (some [IPv4 1 2 3 4]) 2 0) "example.com".toList 1000000000 =
      (some [IPv4 1 2 3 4],
        Store 30000000000 (NewSimpleIPCache 0) "example.com".toList (some [IPv4 1 2 3 4]) 2 0) :=
  (Query_after_Store 30000000000 (NewSimpleIPCache 0) "example.com".toList
    (some [IPv4 1 2 3 4]) 2 0 1000000000 (nodup_NewSimpleIPCache 0) (by decide)).1 (by decide)

/-- C9, at the failing input: after `Store(example.com, [1.2.3.4], 1)` at
time `0` on a new cache, `Query(example.com)` at exactly one second returns
the addresses and keeps the entry, for every value of `minCleanupInterval`;
`cleanup` at the same instant removes the entry. -/
theorem Query_at_expiry (interval : Int) :
    Query (Store interval (NewSimpleIPCache 0) "example.com".toList (some [IPv4 1 2 3 4]) 1 0)
        "example.com".toList 1000000000 =
      (some [IPv4 1 2 3 4],
        Store interval (NewSimpleIPCache 0) "example.com".toList (some [IPv4 1 2 3 4]) 1 0) ∧
    mapGet (Query (Store interval (NewSimpleIPCache 0) "example.com".toList
        (some [IPv4 1 2 3 4]) 1 0) "example.com".toList 1000000000).2.storage
        "example.com".toList =
      some { ips := some [IPv4 1 2 3 4], exp := 1000000000 } ∧
    mapGet (cleanup (Store interval (NewSimpleIPCache 0) "example.com".toList
        (some [IPv4 1 2 3 4]) 1 0) 1000000000).storage "example.com".toList = none := by
  have hq := (Query_after_Store interval (NewSimpleIPCache 0) "example.com".toList
    (some [IPv4 1 2 3 4]) 1 0 1000000000 (nodup_NewSimpleIPCache 0) (by decide)).1 (by decide)
  have hg := mapGet_Store_self interval (NewSimpleIPCache 0) "example.com".toList
    (some [IPv4 1 2 3 4]) 1 0 (nodup_NewSimpleIPCache 0) (by decide)
  have hexp : ((0 : Int) + ((1 : Nat) : Int) * Second) = 1000000000 := by decide
  rw [hexp] at hg
  refine ⟨hq, ?_, ?_⟩
  · rw [hq]; exact hg
  · rw [mapGet_cleanup _ _ (nodup_Store _ _ _ _ _ _ (nodup_NewSimpleIPCache 0)), hg]
    decide

/-- C10: `Store(domain, ips, ttl)` at time `now` writes the entry
`(ips, now + ttl seconds)` for `domain`.  When `now - lastCleanup` exceeds
`minCleanupInterval`, the storage afterwards holds exactly the entries of
the written storage whose expiry is after `now`, each unchanged, and
`lastCleanup` is `now`.  Otherwise the entry of `domain` is the new one, the
entry of every other domain is as before, and `lastCleanup` is unchanged. -/
theorem Store_contract (interval : Int) (c : simpleIPCache) (domain : GoString)
    (ips : Option (List IP)) (ttl : Nat) (now : Time) (hnd : (mapKeys c.storage).Nodup) :
    (now - c.lastCleanup > interval →
      (Store interval c domain ips ttl now).lastCleanup = now ∧
      (∀ k, mapGet (Store interval c domain ips ttl now).storage k =
        (mapGet (mapSet c.storage domain
            ({ ips := ips, exp := now + (ttl : Int) * Second } : ipCacheEntry)) k).filter
          (fun e => decide (now < e.exp))) ∧
      mapGet (Store interval c domain ips ttl now).storage domain =
        (if 0 < ttl then some { ips := ips, exp := now + (ttl : Int) * Second } else none) ∧
      (∀ k, k ≠ domain → mapGet (Store interval c domain ips ttl now).storage k =
        (mapGet c.storage k).filter (fun e => decide (now < e.exp)))) ∧
    (¬ now - c.lastCleanup > interval →
      (Store interval c domain ips ttl now).lastCleanup = c.lastCleanup ∧
      mapGet (Store interval c domain ips ttl now).storage domain =
        some { ips := ips, exp := now + (ttl : Int) * Second } ∧
      (∀ k, k ≠ domain →
        mapGet (Store interval c domain ips ttl now).storage k = mapGet c.storage k)) := by
  have hset := nodup_mapKeys_mapSet c.storage domain
    ({ ips := ips, exp := now + (ttl : Int) * Second } : ipCacheEntry) hnd
  constructor
  · intro hsweep
    have hall : ∀ k, mapGet (Store interval c domain ips ttl now).storage k =
        (mapGet (mapSet c.storage domain
            ({ ips := ips, exp := now + (ttl : Int) * Second } : ipCacheEntry)) k).filter
          (fun e => decide (now < e.exp)) := by
      intro k
      simp only [Store, hsweep, if_true]
      exact mapGet_cleanup _ now hset k
    refine ⟨by simp only [Store, hsweep, if_true], hall, ?_, ?_⟩
    · rw [hall, mapGet_mapSet_self]
      have hS : (0 : Int) < Second := by decide
      by_cases httl : 0 < ttl
      · have : (0 : Int) < (ttl : Int) * Second :=
          Int.mul_pos (by exact_mod_cast httl) hS
        have hlt : now < now + (ttl : Int) * Second := lt_add_of_pos_right _ this
        simp [Option.filter, hlt, httl]
      · have h0 : ttl = 0 := by omega
        subst h0
        simp [Option.filter]
    · intro k hk
      rw [hall, mapGet_mapSet_ne _ _ _ _ hk]
  · intro hno
    refine ⟨by simp only [Store, hno, if_false], ?_, ?_⟩
    · simp only [Store, hno, if_false]
      exact mapGet_mapSet_self _ _ _
    · intro k hk
      simp only [Store, hno, if_false]
      exact mapGet_mapSet_ne _ _ _ _ hk

/-- Witness of C10: a sweep 40 seconds after the last one, with a
30-second interval, drops the expired entry of `old.com`. -/
theorem Store_contract_witness :
    (Store 30000000000 ⟨[("old.com".toList, ⟨some [IPv4 9 9 9 9], 5000000000⟩)], 0⟩
        "example.com".toList (some [IPv4 1 2 3 4]) 60 40000000000).lastCleanup = 40000000000 ∧
    mapGet (Store 30000000000 ⟨[("old.com".toList, ⟨some [IPv4 9 9 9 9], 5000000000⟩)], 0⟩
        "example.com".toList (some [IPv4 1 2 3 4]) 60 40000000000).storage "old.com".toList =
      none := by
  have h := (Store_contract 30000000000
    ⟨[("old.com".toList, ⟨some [IPv4 9 9 9 9], 5000000000⟩)], 0⟩
    "example.com".toList (some [IPv4 1 2 3 4]) 60 40000000000 (by decide)).1 (by decide)
  refine ⟨h.1, ?_⟩
  rw [h.2.2.2 "old.com".toList (by decide)]
  decide

end IPCache

/-! ## Session registry (`AddSession`, `GetSession`, `RemoveSession`, reports) -/

namespace Stats

open FakeDns

theorem mapDelete_of_mapGet_none {κ ν : Type} [DecidableEq κ] (m : GoMap κ ν) (k : κ)
    (h : mapGet m k = none) : mapDelete m k = m := by
  have hk : k ∉ mapKeys m := (mapGet_eq_none_iff m k).1 h
  unfold mapDelete
  apply List.filter_eq_self.2
  intro e he
  have : e.1 ≠ k := by
    intro heq
    exact hk (List.mem_map.2 ⟨e, he, heq⟩)
  simpa using this

theorem RemoveSession_sessions (s : simpleSessionStater) (key : Nat) (now : Int) :
    (RemoveSession s key now).sessions = mapDelete s.sessions key := by
  unfold RemoveSession
  cases h : mapGet s.sessions key with
  | none => rfl
  | some sess =>
      simp only []
      split_ifs <;> rfl

theorem RemoveSession_present (s : simpleSessionStater) (key : Nat) (now : Int)
    (sess : Session) (h : mapGet s.sessions key = some sess) :
    (RemoveSession s key now).completedSessions =
      if s.completedSessions.length + 1 > maxCompletedSessions then
        (s.completedSessions ++ [{ sess with SessionEnd := now }]).drop 1
      else s.completedSessions ++ [{ sess with SessionEnd := now }] := by
  simp only [RemoveSession, h, List.length_append, List.length_singleton]
  split_ifs <;> rfl

theorem RemoveSession_absent (s : simpleSessionStater) (key : Nat) (now : Int)
    (h : mapGet s.sessions key = none) : RemoveSession s key now = s := by
  simp only [RemoveSession, h, mapDelete_of_mapGet_none s.sessions key h]

theorem getLast?_drop_one_append {α : Type} (l : List α) (x : α) (h : 0 < l.length) :
    ((l ++ [x]).drop 1).getLast? = some x := by
  cases l with
  | nil => simp at h
  | cons a l => simp

/-- C11: `RemoveSession(k)` at time `now`.  When `k` is in the active store
with session `sess`, the completed list afterwards is the old list with one
entry appended (and its first entry dropped when that exceeds the cap); the
appended entry, the last one, is `sess` with `SessionEnd` set to `now` and
every other field as in `sess`.  Afterwards `GetSession(k)` is `nil` and
every other key has the session it had.  When `k` is not in the active store
the registry is unchanged, and a second `RemoveSession(k)` leaves the
completed list of the first as it is. -/
theorem RemoveSession_contract (s : simpleSessionStater) (key : Nat) (now : Int) :
    (∀ sess, mapGet s.sessions key = some sess →
      (RemoveSession s key now).completedSessions =
        (if s.completedSessions.length + 1 > maxCompletedSessions then
          (s.completedSessions ++ [{ sess with SessionEnd := now }]).drop 1
         else s.completedSessions ++ [{ sess with SessionEnd := now }]) ∧
      (RemoveSession s key now).completedSessions.getLast? =
        some { sess with SessionEnd := now }) ∧
    (GetSession (RemoveSession s key now) key).1 = none ∧
    (∀ k, k ≠ key → (GetSession (RemoveSession s key now) k).1 = (GetSession s k).1) ∧
    (mapGet s.sessions key = none → RemoveSession s key now = s) ∧
    (∀ now2, RemoveSession (RemoveSession s key now) key now2 =
      RemoveSession s key now) := by
  have hget : mapGet (RemoveSession s key now).sessions key = none := by
    rw [RemoveSession_sessions, mapGet_mapDelete]
    simp
  refine ⟨?_, ?_, ?_, RemoveSession_absent s key now, ?_⟩
  · intro sess h
    refine ⟨RemoveSession_present s key now sess h, ?_⟩
    rw [RemoveSession_present s key now sess h]
    split_ifs with hc
    · have hmax : maxCompletedSessions = 500 := rfl
      exact getLast?_drop_one_append _ _ (by omega)
    · exact List.getLast?_concat _
  · exact hget
  · intro k hk
    simp only [GetSession, RemoveSession_sessions, mapGet_mapDelete, hk, if_false]
  · intro now2
    exact RemoveSession_absent _ key now2 hget

/-- Witness of C11: the session under key `1` is removed at time `9`. -/
theorem RemoveSession_contract_witness :
    List.getLast?
        (RemoveSession ⟨[(1, exampleSession 5), (2, exampleSession 3)], []⟩ 1 9).completedSessions =
      some { exampleSession 5 with SessionEnd := 9 } :=
  ((RemoveSession_contract ⟨[(1, exampleSession 5), (2, exampleSession 3)], []⟩ 1 9).1
    (exampleSession 5) (by decide)).2

theorem length_completedSessions_step (s : simpleSessionStater) (c : Call)
    (h : s.completedSessions.length ≤ maxCompletedSessions) :
    (step s c).completedSessions.length ≤ maxCompletedSessions := by
  cases c with
  | add key session => exact h
  | get key => exact h
  | remove key now =>
      simp only [step]
      cases hg : mapGet s.sessions key with
      | none => rw [RemoveSession_absent s key now hg]; exact h
      | some sess =>
          rw [RemoveSession_present s key now sess hg]
          split_ifs with hc
          · simp only [List.length_drop, List.length_append, List.length_singleton]
            omega
          · simp only [List.length_append, List.length_singleton]
            omega

theorem length_completedSessions_foldl (calls : List Call) (s : simpleSessionStater)
    (h : s.completedSessions.length ≤ maxCompletedSessions) :
    (calls.foldl step s).completedSessions.length ≤ maxCompletedSessions := by
  induction calls generalizing s with
  | nil => exact h
  | cons c calls ih => exact ih _ (length_completedSessions_step s c h)

/-- C12: after any sequence of `AddSession`, `GetSession` and
`RemoveSession` calls on a new registry the completed list has at most
`maxCompletedSessions` = 500 entries; and a `RemoveSession` of a present key
on a list of 500 entries drops the entry at index 0, keeps the others in
their order and puts the new snapshot last. -/
theorem completedSessions_bounded (calls : List Call) :
    maxCompletedSessions = 500 ∧
    (run calls).completedSessions.length ≤ maxCompletedSessions ∧
    (∀ (s : simpleSessionStater) (key : Nat) (now : Int) (sess : Session),
      s.completedSessions.length = maxCompletedSessions →
      mapGet s.sessions key = some sess →
      (RemoveSession s key now).completedSessions =
        s.completedSessions.drop 1 ++ [{ sess with SessionEnd := now }] ∧
      (RemoveSession s key now).completedSessions.length = maxCompletedSessions) := by
  refine ⟨rfl, ?_, ?_⟩
  · exact length_completedSessions_foldl calls _ (by simp [NewSimpleSessionStater])
  · intro s key now sess hlen hg
    rw [RemoveSession_present s key now sess hg, if_pos (by omega)]
    have hpos : 1 ≤ s.completedSessions.length := by
      rw [hlen]; decide
    have hd : (s.completedSessions ++ [{ sess with SessionEnd := now }]).drop 1 =
        s.completedSessions.drop 1 ++ [{ sess with SessionEnd := now }] :=
      List.drop_append_of_le_length hpos
    rw [hd]
    refine ⟨rfl, ?_⟩
    simp only [List.length_append, List.length_drop, List.length_singleton]
    omega

/-- Witness of C12: a registry whose completed list holds 500 copies of one
session; removing the session under key `1` drops the first copy and appends
the snapshot. -/
theorem completedSessions_bounded_witness :
    (RemoveSession exampleFull 1 9).completedSessions =
      exampleFull.completedSessions.drop 1 ++ [{ exampleSession 5 with SessionEnd := 9 }] :=
  ((completedSessions_bounded []).2.2 exampleFull 1 9 (exampleSession 5)
    (List.length_replicate 500 (exampleSession 0)) rfl).1

end Stats

namespace Stats

open FakeDns

theorem timeSub_neg_iff (t u : Int) : timeSub t u < 0 ↔ t < u := by
  unfold timeSub
  split_ifs with h1 h2
  · constructor
    · intro _; omega
    · intro _; norm_num
  · constructor
    · intro h; norm_num at h
    · intro h; omega
  · omega

theorem timeSub_pos_iff (t u : Int) : timeSub t u > 0 ↔ t > u := by
  unfold timeSub
  split_ifs with h1 h2
  · constructor
    · intro h; norm_num at h
    · intro h; omega
  · constructor
    · intro _; omega
    · intro _; norm_num
  · omega

theorem lessStart_eq_false_iff (a b : Session) :
    lessStart b a = false ↔ a.SessionStart ≤ b.SessionStart := by
  simp only [lessStart, decide_eq_false_iff_not, timeSub_neg_iff, not_lt]

theorem sortSlice_perm {α : Type} (less : α → α → Bool) (l : List α) :
    (sortSlice less l).Perm l :=
  List.perm_insertionSort _ l

theorem sortSlice_lessStart_sorted (l : List Session) :
    (sortSlice lessStart l).Pairwise (fun a b => a.SessionStart ≤ b.SessionStart) := by
  haveI : IsTotal Session (fun a b => lessStart b a = false) :=
    ⟨fun a b => by
      simp only [lessStart_eq_false_iff]
      exact le_total _ _⟩
  haveI : IsTrans Session (fun a b => lessStart b a = false) :=
    ⟨fun a b c h1 h2 => by
      rw [lessStart_eq_false_iff] at h1 h2 ⊢
      exact le_trans h1 h2⟩
  have h := List.sorted_insertionSort (fun a b : Session => lessStart b a = false) l
  exact List.Pairwise.imp (fun hab => (lessStart_eq_false_iff _ _).1 hab) h

theorem setFirstChunkDuration_SessionStart (roundString : Int → GoString) (c : Session) :
    (setFirstChunkDuration roundString c).SessionStart = c.SessionStart := by
  unfold setFirstChunkDuration
  simp only []
  split_ifs <;> rfl

theorem setFirstChunkDuration_frame (roundString : Int → GoString) (c : Session) :
    { setFirstChunkDuration roundString c with FirstChunkDuration := c.FirstChunkDuration } = c := by
  unfold setFirstChunkDuration
  simp only []
  split_ifs <;> rfl

/-- C13 as stated fails for the completed list: two sessions start at times
`1` and `2`, the later one is removed first; both reports list the completed
sessions in the order of removal, with start times `2, 1`. -/
theorem report_completed_not_sorted :
    (sessionStatsJsonHandler exampleRoundString
        (run [Call.add 1 (exampleSession 1), Call.add 2 (exampleSession 2),
          Call.remove 2 10, Call.remove 1 11]) []).1.CompletedSessions.map
        Session.SessionStart = [2, 1] ∧
    (sessionStatsHandler
        (run [Call.add 1 (exampleSession 1), Call.add 2 (exampleSession 2),
          Call.remove 2 10, Call.remove 1 11]) []).1.CompletedSessions.map
        Session.SessionStart = [2, 1] ∧
    (run [Call.add 1 (exampleSession 1), Call.add 2 (exampleSession 2),
      Call.remove 2 10, Call.remove 1 11]).sessions = [] := by
  refine ⟨?_, ?_, ?_⟩ <;> decide

/-- C13, amended: in both reports the active list is in non-decreasing
`SessionStart` order and is a permutation of the sessions in the active
store (in the JSON report each with `FirstChunkDuration` filled in); the
completed list is the registry's completed list in its own order, the order
of removal (in the JSON report each entry with `FirstChunkDuration` filled
in). -/
theorem report_order (roundString : Int → GoString) (s : simpleSessionStater)
    (order : List (Nat × Session)) (horder : order.Perm s.sessions) :
    (sessionStatsJsonHandler roundString s order).1.ActiveSessions.Pairwise
      (fun a b => a.SessionStart ≤ b.SessionStart) ∧
    (sessionStatsJsonHandler roundString s order).1.ActiveSessions.Perm
      ((s.sessions.map Prod.snd).map (setFirstChunkDuration roundString)) ∧
    (sessionStatsJsonHandler roundString s order).1.CompletedSessions =
      s.completedSessions.map (setFirstChunkDuration roundString) ∧
    (sessionStatsHandler s order).1.ActiveSessions.Pairwise
      (fun a b => a.SessionStart ≤ b.SessionStart) ∧
    (sessionStatsHandler s order).1.ActiveSessions.Perm (s.sessions.map Prod.snd) ∧
    (sessionStatsHandler s order).1.CompletedSessions = s.completedSessions := by
  have hp : (sortSlice lessStart (order.map Prod.snd)).Perm (s.sessions.map Prod.snd) :=
    (sortSlice_perm _ _).trans (horder.map Prod.snd)
  refine ⟨?_, ?_, rfl, ?_, hp, rfl⟩
  · simp only [sessionStatsJsonHandler]
    rw [List.pairwise_map]
    exact List.Pairwise.imp
      (fun hab => by simpa only [setFirstChunkDuration_SessionStart] using hab)
      (sortSlice_lessStart_sorted _)
  · simp only [sessionStatsJsonHandler]
    exact hp.map _
  · exact sortSlice_lessStart_sorted _

/-- Witness of the amended C13: two active sessions, visited with the later
one first, are listed by start time. -/
theorem report_order_witness :
    (sessionStatsHandler ⟨[(1, exampleSession 5), (2, exampleSession 3)], []⟩
        [(1, exampleSession 5), (2, exampleSession 3)]).1.ActiveSessions.Pairwise
      (fun a b => a.SessionStart ≤ b.SessionStart) :=
  (report_order exampleRoundString ⟨[(1, exampleSession 5), (2, exampleSession 3)], []⟩
    [(1, exampleSession 5), (2, exampleSession 3)] (List.Perm.refl _)).2.2.2.1

/-- C14 as stated fails for the completed list: a completed session that
started at `0` and got its first chunk after 5 ms has an empty
`FirstChunkDuration`; producing the JSON report writes `5ms` into that entry
of the registry, and the completed list encoded is the registry's list. -/
theorem jsonReport_writes_registry :
    (⟨[], [{ exampleSession 0 with FirstChunkReceive := 5000000 }]⟩ :
        simpleSessionStater).completedSessions.map Session.FirstChunkDuration = [[]] ∧
    (sessionStatsJsonHandler exampleRoundString
        ⟨[], [{ exampleSession 0 with FirstChunkReceive := 5000000 }]⟩ []).2.completedSessions.map
        Session.FirstChunkDuration = ["5ms".toList] ∧
    (sessionStatsJsonHandler exampleRoundString
        ⟨[], [{ exampleSession 0 with FirstChunkReceive := 5000000 }]⟩ []).1.CompletedSessions =
      (sessionStatsJsonHandler exampleRoundString
        ⟨[], [{ exampleSession 0 with FirstChunkReceive := 5000000 }]⟩ []).2.completedSessions := by
  refine ⟨?_, ?_, ?_⟩ <;> decide

/-- C14, amended: producing the JSON report leaves the active store and so
every field of every active session unchanged, and the active list encoded
is built from copies.  The completed list keeps its length and order, and
every entry keeps every field except `FirstChunkDuration`, which is set to
the rounded delay of the first chunk when that delay is positive and left
alone otherwise; the completed list encoded is the registry's own list after
these writes. -/
theorem jsonReport_frame (roundString : Int → GoString) (s : simpleSessionStater)
    (order : List (Nat × Session)) :
    (sessionStatsJsonHandler roundString s order).2.sessions = s.sessions ∧
    (sessionStatsJsonHandler roundString s order).2.completedSessions =
      s.completedSessions.map (setFirstChunkDuration roundString) ∧
    (sessionStatsJsonHandler roundString s order).2.completedSessions.length =
      s.completedSessions.length ∧
    (∀ c : Session,
      { setFirstChunkDuration roundString c with FirstChunkDuration := c.FirstChunkDuration }
        = c) ∧
    (∀ c : Session, ¬ c.FirstChunkReceive > c.SessionStart →
      setFirstChunkDuration roundString c = c) ∧
    (∀ c : Session, c.FirstChunkReceive > c.SessionStart →
      (setFirstChunkDuration roundString c).FirstChunkDuration =
        roundString (timeSub c.FirstChunkReceive c.SessionStart)) ∧
    (sessionStatsJsonHandler roundString s order).1.CompletedSessions =
      (sessionStatsJsonHandler roundString s order).2.completedSessions := by
  refine ⟨rfl, rfl, ?_, setFirstChunkDuration_frame roundString, ?_, ?_, rfl⟩
  · simp [sessionStatsJsonHandler]
  · intro c hc
    have : ¬ timeSub c.FirstChunkReceive c.SessionStart > 0 := by
      rw [timeSub_pos_iff]; exact hc
    simp only [setFirstChunkDuration, this, if_false]
  · intro c hc
    have : timeSub c.FirstChunkReceive c.SessionStart > 0 := by
      rw [timeSub_pos_iff]; exact hc
    simp only [setFirstChunkDuration, this, if_true]

/-- Witness of the amended C14: the entry without a first chunk is left as
it is. -/
theorem jsonReport_frame_witness :
    setFirstChunkDuration exampleRoundString (exampleSession 7) = exampleSession 7 :=
  (jsonReport_frame exampleRoundString ⟨[], [exampleSession 7]⟩ []).2.2.2.2.1
    (exampleSession 7) (by decide)

end Stats

/-! ## TCP relay handlers (`Handle`, `relay`, `statsCopy`) -/

namespace Socks

open FakeDns Stats

/-- C15 as stated fails for a fake IP that is not bound: with the range
`172.30.0.0 .. 172.30.0.2` and an empty table, the flow to `172.30.0.1:443`
is dialled as `:443` (empty host) by the SOCKS handler and as `1.2.3.4:443`
with sniffing by the V2Ray handler; the literal destination, dialled when no
engine is configured, is `172.30.0.1:443`. -/
theorem dial_unbound_not_literal :
    IsFakeIP ⟨[], 2887647232, 2887647232, 2887647234, 0, [], []⟩ (IPv4 172 30 0 1) =
      some true ∧
    QueryDomain ⟨[], 2887647232, 2887647232, 2887647234, 0, [], []⟩ (IPv4 172 30 0 1) =
      some ([], ⟨[], 2887647232, 2887647232, 2887647234, 0, [], []⟩) ∧
    dialDestination exampleIPString
        (some ⟨[], 2887647232, 2887647232, 2887647234, 0, [], []⟩) ⟨IPv4 172 30 0 1, 443⟩ =
      some ":443".toList ∧
    V2Ray.dialDestination (some ⟨[], 2887647232, 2887647232, 2887647234, 0, [], []⟩)
        ⟨IPv4 172 30 0 1, 443⟩ =
      some (⟨V2Ray.Address.IPAddress [1, 2, 3, 4], 443⟩, true) ∧
    dialDestination exampleIPString none ⟨IPv4 172 30 0 1, 443⟩ =
      some "172.30.0.1:443".toList ∧
    V2Ray.dialDestination none ⟨IPv4 172 30 0 1, 443⟩ =
      some (⟨V2Ray.Address.IPAddress (IPv4 172 30 0 1), 443⟩, false) := by
  refine ⟨?_, ?_, ?_, ?_, ?_, ?_⟩ <;> decide

/-- C15, amended: for a flow with nominal destination `target`.  If the
engine says `IsFakeIP` and `QueryDomain` gives a non-empty `d`, the SOCKS
handler dials `net.JoinHostPort(d, port)`, which is `d:port` for a `d`
without colon, and the V2Ray handler dials the domain address `d` with the
port.  If the address is not a fake IP, or no engine is configured, both
dial the literal address with the port.  If the address is a fake IP that is
not bound, the V2Ray handler dials the placeholder `1.2.3.4` with the port
and turns on domain sniffing. -/
theorem dialDestination_contract (ipString : IP → GoString) (f : simpleFakeDns)
    (target : TCPAddr) :
    (∀ d s, IsFakeIP f target.IP = some true → QueryDomain f target.IP = some (d, s) →
      d ≠ [] →
      dialDestination ipString (some f) target = some (JoinHostPort d (Itoa target.Port)) ∧
      (':' ∉ d → dialDestination ipString (some f) target =
        some (d ++ [':'] ++ Itoa target.Port)) ∧
      V2Ray.dialDestination (some f) target =
        some (⟨V2Ray.Address.DomainAddress d, target.Port⟩, false)) ∧
    (∀ s, IsFakeIP f target.IP = some true → QueryDomain f target.IP = some ([], s) →
      V2Ray.dialDestination (some f) target =
        some (⟨V2Ray.Address.IPAddress [1, 2, 3, 4], target.Port⟩, true)) ∧
    (IsFakeIP f target.IP = some false →
      dialDestination ipString (some f) target =
        some (JoinHostPort (ipString target.IP) (Itoa target.Port)) ∧
      V2Ray.dialDestination (some f) target =
        some (⟨V2Ray.Address.IPAddress target.IP, target.Port⟩, false)) ∧
    dialDestination ipString none target =
      some (JoinHostPort (ipString target.IP) (Itoa target.Port)) ∧
    V2Ray.dialDestination none target =
      some (⟨V2Ray.Address.IPAddress target.IP, target.Port⟩, false) := by
  refine ⟨?_, ?_, ?_, rfl, rfl⟩
  · intro d s hfake hq hd
    have hlen : ¬ d.length = 0 := by
      intro h
      exact hd (List.length_eq_zero.1 h)
    refine ⟨?_, ?_, ?_⟩
    · simp only [dialDestination, hfake, hq, Option.map_some']
    · intro hcolon
      simp only [dialDestination, hfake, hq, Option.map_some', JoinHostPort, hcolon, if_false]
    · simp only [V2Ray.dialDestination, hfake, hq, hlen, if_false]
  · intro s hfake hq
    simp only [V2Ray.dialDestination, hfake, hq, List.length_nil, if_true]
  · intro hfake
    refine ⟨?_, ?_⟩
    · simp only [dialDestination, hfake, Option.map_some']
    · simp only [V2Ray.dialDestination, hfake]

/-- Witness of the amended C15: `172.30.0.0` is bound to `a.com`; the flow
to `172.30.0.0:443` is dialled as `a.com:443`. -/
theorem dialDestination_contract_witness :
    dialDestination exampleIPString
        (some ⟨[(2887647232, "a.com".toList)], 2887647233, 2887647232, 2887647234, 0, [], []⟩)
        ⟨IPv4 172 30 0 0, 443⟩ =
      some ("a.com".toList ++ [':'] ++ Itoa 443) :=
  ((dialDestination_contract exampleIPString
    ⟨[(2887647232, "a.com".toList)], 2887647233, 2887647232, 2887647234, 0, [], []⟩
    ⟨IPv4 172 30 0 0, 443⟩).1 "a.com".toList
    ⟨[(2887647232, "a.com".toList)], 2887647233, 2887647232, 2887647234, 0, [], []⟩
    (by decide) (by decide) (by decide)).2.1 (by decide)

/-- C16: the close decision of `relay`.  Without interrupt and with both
ends supporting half-close, uplink calls `lhs.CloseRead` and
`rhs.CloseWrite`, downlink calls `lhs.CloseWrite` and `rhs.CloseRead`, and
nothing else.  With interrupt, or with an end that lacks half-close, it
calls `lhs.Close` and `rhs.Close`, whatever the direction.  A copy loop
calls it with `interrupt = true` exactly when its copy returned an error. -/
theorem cls_contract (lhsOk rhsOk interrupt : Bool) (dir : direction)
    (err : Option IOError) :
    cls true true dirUplink false = some [ConnOp.lhsCloseRead, ConnOp.rhsCloseWrite] ∧
    cls true true dirDownlink false = some [ConnOp.lhsCloseWrite, ConnOp.rhsCloseRead] ∧
    ((interrupt = true ∨ lhsOk = false ∨ rhsOk = false) →
      cls lhsOk rhsOk dir interrupt = some [ConnOp.lhsClose, ConnOp.rhsClose]) ∧
    (err ≠ none → afterCopy lhsOk rhsOk dir err = cls lhsOk rhsOk dir true) ∧
    (err = none → afterCopy lhsOk rhsOk dir err = cls lhsOk rhsOk dir false) := by
  refine ⟨rfl, rfl, ?_, ?_, ?_⟩
  · intro h
    have : (!interrupt && lhsOk && rhsOk) = false := by
      rcases h with h | h | h <;> simp [h]
    simp only [cls, this, Bool.false_eq_true, if_false]
  · intro h
    simp only [afterCopy, h, ne_eq, not_false_eq_true, if_true]
  · intro h
    simp only [afterCopy, h, ne_eq, not_true_eq_false, if_false]

/-- Witness of C16: an uplink copy that failed, between two ends that both
support half-close, closes both ends fully. -/
theorem cls_contract_witness :
    afterCopy true true dirUplink (some (IOError.other 1)) =
      some [ConnOp.lhsClose, ConnOp.rhsClose] :=
  ((cls_contract true true true dirUplink (some (IOError.other 1))).2.2.2.1
    (by decide)).trans
    ((cls_contract true true true dirUplink (some (IOError.other 1))).2.2.1 (Or.inl rfl))

end Socks

namespace Socks

open FakeDns Stats

/-- The range of `int64`. -/
theorem wrapInt64_of_range (z : Int) (h1 : -(2 : Int) ^ 63 ≤ z) (h2 : z < (2 : Int) ^ 63) :
    wrapInt64 z = z := by
  unfold wrapInt64
  norm_num at h1 h2 ⊢
  omega

theorem wrapInt64_range (z : Int) :
    -(2 : Int) ^ 63 ≤ wrapInt64 z ∧ wrapInt64 z < (2 : Int) ^ 63 := by
  unfold wrapInt64
  norm_num
  omega

theorem wrapInt64_add_wrapInt64 (a b : Int) :
    wrapInt64 (wrapInt64 a + b) = wrapInt64 (a + b) := by
  unfold wrapInt64
  norm_num
  omega

theorem wrapInt64_idem (a : Int) : wrapInt64 (wrapInt64 a) = wrapInt64 a := by
  have := wrapInt64_add_wrapInt64 a 0
  simpa using this

theorem wrapInt64_add_wrapInt64_right (a b : Int) :
    wrapInt64 (a + wrapInt64 b) = wrapInt64 (a + b) := by
  rw [add_comm, wrapInt64_add_wrapInt64, add_comm]

theorem accepted_nil : accepted [] = 0 := rfl

theorem accepted_cons (nw : Int) (l : List Int) :
    accepted (nw :: l) = (if nw > 0 then nw else 0) + accepted l := by
  unfold accepted
  by_cases h : nw > 0
  · simp [List.filter_cons, h]
  · simp [List.filter_cons, h]

theorem accepted_nonneg (l : List Int) : 0 ≤ accepted l := by
  induction l with
  | nil => simp [accepted_nil]
  | cons nw l ih =>
      rw [accepted_cons]
      split_ifs <;> omega

theorem accepted_of_nonneg (l : List Int) (h : ∀ nw ∈ l, 0 ≤ nw) : accepted l = l.sum := by
  induction l with
  | nil => rfl
  | cons nw l ih =>
      rw [accepted_cons, ih (fun x hx => h x (List.mem_cons_of_mem _ hx)), List.sum_cons]
      have := h nw (by simp)
      split_ifs <;> omega

theorem countBytes_uplink (sess : Session) (nw now : Int) :
    (countBytes sess dirUplink nw now).UploadBytes = wrapInt64 (sess.UploadBytes + nw) ∧
    (countBytes sess dirUplink nw now).DownloadBytes = sess.DownloadBytes := by
  simp [countBytes, Session.AddUploadBytes, addInt64]

theorem countBytes_downlink (sess : Session) (nw now : Int) :
    (countBytes sess dirDownlink nw now).DownloadBytes = wrapInt64 (sess.DownloadBytes + nw) ∧
    (countBytes sess dirDownlink nw now).UploadBytes = sess.UploadBytes := by
  have hd : ¬ dirDownlink = dirUplink := by decide
  simp only [countBytes, hd, if_false, if_true, Session.AddDownloadBytes,
    Session.handleFirstChunk, addInt64]
  split_ifs <;> exact ⟨rfl, rfl⟩

/-- The loop of `statsCopy`: the calls of `Write` it adds to the trace, and
the value of `written` and of the two counters in terms of what those calls
accepted. -/
theorem statsCopyLoop_counts (dir : direction) (now : Int) (steps : List CopyStep)
    (written : Int) (sess : Session) (writes : List Int) :
    ∃ nws, (statsCopyLoop dir now steps written sess writes).writes = writes ++ nws ∧
      wrapInt64 (statsCopyLoop dir now steps written sess writes).written =
        wrapInt64 (written + accepted nws) ∧
      (dir = dirUplink →
        wrapInt64 (statsCopyLoop dir now steps written sess writes).sess.UploadBytes =
          wrapInt64 (sess.UploadBytes + accepted nws) ∧
        (statsCopyLoop dir now steps written sess writes).sess.DownloadBytes =
          sess.DownloadBytes) ∧
      (dir = dirDownlink →
        wrapInt64 (statsCopyLoop dir now steps written sess writes).sess.DownloadBytes =
          wrapInt64 (sess.DownloadBytes + accepted nws) ∧
        (statsCopyLoop dir now steps written sess writes).sess.UploadBytes =
          sess.UploadBytes) := by
  induction steps generalizing written sess writes with
  | nil =>
      exact ⟨[], by simp [statsCopyLoop], by simp [statsCopyLoop, accepted_nil],
        fun _ => by simp [statsCopyLoop, accepted_nil],
        fun _ => by simp [statsCopyLoop, accepted_nil]⟩
  | cons st rest ih =>
      by_cases hnr : st.nr > 0
      · -- a write is made in this turn
        have key : ∀ r : CopyResult,
            (r.writes = (writes ++ [st.nw]) ∧
              r.written = (if st.nw > 0 then addInt64 written st.nw else written) ∧
              r.sess = (if st.nw > 0 then countBytes sess dir st.nw now else sess)) →
            ∃ nws, r.writes = writes ++ nws ∧
              wrapInt64 r.written = wrapInt64 (written + accepted nws) ∧
              (dir = dirUplink →
                wrapInt64 r.sess.UploadBytes = wrapInt64 (sess.UploadBytes + accepted nws) ∧
                r.sess.DownloadBytes = sess.DownloadBytes) ∧
              (dir = dirDownlink →
                wrapInt64 r.sess.DownloadBytes =
                  wrapInt64 (sess.DownloadBytes + accepted nws) ∧
                r.sess.UploadBytes = sess.UploadBytes) := by
          rintro r ⟨hw, hwr, hs⟩
          refine ⟨[st.nw], hw, ?_, ?_, ?_⟩
          · rw [hwr, accepted_cons, accepted_nil]
            split_ifs
            · simp only [addInt64, add_zero, wrapInt64_idem]
            · simp
          · intro hdir
            rw [hs, accepted_cons, accepted_nil, hdir]
            split_ifs
            · obtain ⟨h1, h2⟩ := countBytes_uplink sess st.nw now
              rw [h1, h2, add_zero, wrapInt64_idem]
              exact ⟨rfl, rfl⟩
            · simp
          · intro hdir
            rw [hs, accepted_cons, accepted_nil, hdir]
            split_ifs
            · obtain ⟨h1, h2⟩ := countBytes_downlink sess st.nw now
              rw [h1, h2, add_zero, wrapInt64_idem]
              exact ⟨rfl, rfl⟩
            · simp
        by_cases hew : st.ew ≠ none
        · apply key
          rw [statsCopyLoop, if_pos hnr, if_pos hew]
          exact ⟨rfl, rfl, rfl⟩
        · by_cases hshort : st.nr ≠ st.nw
          · apply key
            rw [statsCopyLoop, if_pos hnr, if_neg hew, if_pos hshort]
            exact ⟨rfl, rfl, rfl⟩
          · by_cases her : st.er ≠ none
            · apply key
              rw [statsCopyLoop, if_pos hnr, if_neg hew, if_neg hshort, if_pos her]
              exact ⟨rfl, rfl, rfl⟩
            · obtain ⟨nws, h1, h2, h3, h4⟩ := ih
                (if st.nw > 0 then addInt64 written st.nw else written)
                (if st.nw > 0 then countBytes sess dir st.nw now else sess)
                (writes ++ [st.nw])
              have hloop : statsCopyLoop dir now (st :: rest) written sess writes =
                  statsCopyLoop dir now rest
                    (if st.nw > 0 then addInt64 written st.nw else written)
                    (if st.nw > 0 then countBytes sess dir st.nw now else sess)
                    (writes ++ [st.nw]) := by
                rw [statsCopyLoop, if_pos hnr, if_neg hew, if_neg hshort, if_neg her]
              rw [hloop]
              refine ⟨st.nw :: nws, by rw [h1]; simp, ?_, ?_, ?_⟩
              · rw [h2, accepted_cons]
                split_ifs
                · rw [addInt64, wrapInt64_add_wrapInt64, add_assoc]
                · rw [zero_add]
              · intro hdir
                obtain ⟨h5, h6⟩ := h3 hdir
                rw [h5, h6, accepted_cons, hdir]
                split_ifs
                · obtain ⟨c1, c2⟩ := countBytes_uplink sess st.nw now
                  rw [c1, c2, wrapInt64_add_wrapInt64, add_assoc]
                  exact ⟨rfl, rfl⟩
                · rw [zero_add]
                  exact ⟨rfl, rfl⟩
              · intro hdir
                obtain ⟨h5, h6⟩ := h4 hdir
                rw [h5, h6, accepted_cons, hdir]
                split_ifs
                · obtain ⟨c1, c2⟩ := countBytes_downlink sess st.nw now
                  rw [c1, c2, wrapInt64_add_wrapInt64, add_assoc]
                  exact ⟨rfl, rfl⟩
                · rw [zero_add]
                  exact ⟨rfl, rfl⟩
      · by_cases her : st.er ≠ none
        · rw [statsCopyLoop, if_neg hnr, if_pos her]
          refine ⟨[], ?_, ?_, ?_, ?_⟩
          · simp only [List.append_nil]
          · simp only [accepted_nil, add_zero]
          · intro _
            simp only [accepted_nil, add_zero, and_self]
          · intro _
            simp only [accepted_nil, add_zero, and_self]
        · have hloop : statsCopyLoop dir now (st :: rest) written sess writes =
              statsCopyLoop dir now rest written sess writes := by
            rw [statsCopyLoop, if_neg hnr, if_neg her]
          rw [hloop]
          exact ih written sess writes

end Socks

namespace Socks

open FakeDns Stats

/-- The value `written` and the two counters of `statsCopy` in terms of the
results of the calls of `dst.Write` it made, on a session whose counters are
`int64` values. -/
theorem statsCopy_counts_of_trace (steps : List CopyStep) (sess : Session) (now : Int)
    (hU : -(2 : Int) ^ 63 ≤ sess.UploadBytes ∧ sess.UploadBytes < (2 : Int) ^ 63)
    (hD : -(2 : Int) ^ 63 ≤ sess.DownloadBytes ∧ sess.DownloadBytes < (2 : Int) ^ 63) :
    (∀ dir, (statsCopy steps sess dir now).written =
      wrapInt64 (accepted (statsCopy steps sess dir now).writes)) ∧
    ((statsCopy steps sess dirUplink now).sess.UploadBytes =
        addInt64 sess.UploadBytes (statsCopy steps sess dirUplink now).written ∧
      (statsCopy steps sess dirUplink now).sess.DownloadBytes = sess.DownloadBytes) ∧
    ((statsCopy steps sess dirDownlink now).sess.DownloadBytes =
        addInt64 sess.DownloadBytes (statsCopy steps sess dirDownlink now).written ∧
      (statsCopy steps sess dirDownlink now).sess.UploadBytes = sess.UploadBytes) ∧
    (∀ dir, accepted (statsCopy steps sess dir now).writes < (2 : Int) ^ 63 →
      (statsCopy steps sess dir now).written =
        accepted (statsCopy steps sess dir now).writes) ∧
    (sess.UploadBytes + accepted (statsCopy steps sess dirUplink now).writes < (2 : Int) ^ 63 →
      (statsCopy steps sess dirUplink now).sess.UploadBytes =
        sess.UploadBytes + accepted (statsCopy steps sess dirUplink now).writes) ∧
    (sess.DownloadBytes + accepted (statsCopy steps sess dirDownlink now).writes
        < (2 : Int) ^ 63 →
      (statsCopy steps sess dirDownlink now).sess.DownloadBytes =
        sess.DownloadBytes + accepted (statsCopy steps sess dirDownlink now).writes) ∧
    (∀ dir, (∀ nw ∈ (statsCopy steps sess dir now).writes, 0 ≤ nw) →
      accepted (statsCopy steps sess dir now).writes =
        (statsCopy steps sess dir now).writes.sum) := by
  -- the loop keeps `written` and the counters within `int64`
  have hrange : ∀ (dir : direction) (st : List CopyStep) (w : Int) (s : Session)
      (ws : List Int),
      (-(2 : Int) ^ 63 ≤ w ∧ w < (2 : Int) ^ 63) →
      (-(2 : Int) ^ 63 ≤ s.UploadBytes ∧ s.UploadBytes < (2 : Int) ^ 63) →
      (-(2 : Int) ^ 63 ≤ s.DownloadBytes ∧ s.DownloadBytes < (2 : Int) ^ 63) →
      (-(2 : Int) ^ 63 ≤ (statsCopyLoop dir now st w s ws).written ∧
        (statsCopyLoop dir now st w s ws).written < (2 : Int) ^ 63) ∧
      (-(2 : Int) ^ 63 ≤ (statsCopyLoop dir now st w s ws).sess.UploadBytes ∧
        (statsCopyLoop dir now st w s ws).sess.UploadBytes < (2 : Int) ^ 63) ∧
      (-(2 : Int) ^ 63 ≤ (statsCopyLoop dir now st w s ws).sess.DownloadBytes ∧
        (statsCopyLoop dir now st w s ws).sess.DownloadBytes < (2 : Int) ^ 63) := by
    intro dir st
    induction st with
    | nil => intro w s ws hw hu hd; exact ⟨hw, hu, hd⟩
    | cons x rest ih =>
        intro w s ws hw hu hd
        have hw1 : -(2 : Int) ^ 63 ≤ (if x.nw > 0 then addInt64 w x.nw else w) ∧
            (if x.nw > 0 then addInt64 w x.nw else w) < (2 : Int) ^ 63 := by
          split_ifs
          · exact wrapInt64_range _
          · exact hw
        have hs1 : (-(2 : Int) ^ 63 ≤ (if x.nw > 0 then countBytes s dir x.nw now else s).UploadBytes ∧
            (if x.nw > 0 then countBytes s dir x.nw now else s).UploadBytes < (2 : Int) ^ 63) ∧
            (-(2 : Int) ^ 63 ≤ (if x.nw > 0 then countBytes s dir x.nw now else s).DownloadBytes ∧
            (if x.nw > 0 then countBytes s dir x.nw now else s).DownloadBytes < (2 : Int) ^ 63) := by
          split_ifs
          · unfold countBytes
            split_ifs with h1 h2
            · exact ⟨wrapInt64_range _, hd⟩
            · refine ⟨?_, wrapInt64_range _⟩
              simp only [Session.AddDownloadBytes, Session.handleFirstChunk]
              split_ifs <;> exact hu
            · exact ⟨hu, hd⟩
          · exact ⟨hu, hd⟩
        by_cases hnr : x.nr > 0
        · by_cases hew : x.ew ≠ none
          · rw [statsCopyLoop, if_pos hnr, if_pos hew]
            exact ⟨hw1, hs1.1, hs1.2⟩
          · by_cases hsh : x.nr ≠ x.nw
            · rw [statsCopyLoop, if_pos hnr, if_neg hew, if_pos hsh]
              exact ⟨hw1, hs1.1, hs1.2⟩
            · by_cases her : x.er ≠ none
              · rw [statsCopyLoop, if_pos hnr, if_neg hew, if_neg hsh, if_pos her]
                exact ⟨hw1, hs1.1, hs1.2⟩
              · rw [statsCopyLoop, if_pos hnr, if_neg hew, if_neg hsh, if_neg her]
                exact ih _ _ _ hw1 hs1.1 hs1.2
        · by_cases her : x.er ≠ none
          · rw [statsCopyLoop, if_neg hnr, if_pos her]
            exact ⟨hw, hu, hd⟩
          · rw [statsCopyLoop, if_neg hnr, if_neg her]
            exact ih _ _ _ hw hu hd
  have h0 : -(2 : Int) ^ 63 ≤ (0 : Int) ∧ (0 : Int) < (2 : Int) ^ 63 := by norm_num
  have hall : ∀ dir, (statsCopy steps sess dir now).written =
      wrapInt64 (accepted (statsCopy steps sess dir now).writes) ∧
      (dir = dirUplink →
        (statsCopy steps sess dir now).sess.UploadBytes =
          wrapInt64 (sess.UploadBytes + accepted (statsCopy steps sess dir now).writes) ∧
        (statsCopy steps sess dir now).sess.DownloadBytes = sess.DownloadBytes) ∧
      (dir = dirDownlink →
        (statsCopy steps sess dir now).sess.DownloadBytes =
          wrapInt64 (sess.DownloadBytes + accepted (statsCopy steps sess dir now).writes) ∧
        (statsCopy steps sess dir now).sess.UploadBytes = sess.UploadBytes) := by
    intro dir
    obtain ⟨nws, h1, h2, h3, h4⟩ := statsCopyLoop_counts dir now steps 0 sess []
    obtain ⟨r1, r2, r3⟩ := hrange dir steps 0 sess [] h0 hU hD
    have hw : (statsCopy steps sess dir now).writes = nws := by
      simpa [statsCopy] using h1
    rw [hw]
    refine ⟨?_, ?_, ?_⟩
    · rw [zero_add] at h2
      rw [← h2]
      exact (wrapInt64_of_range _ r1.1 r1.2).symm
    · intro hdir
      obtain ⟨h5, h6⟩ := h3 hdir
      exact ⟨by rw [← h5]; exact (wrapInt64_of_range _ r2.1 r2.2).symm, h6⟩
    · intro hdir
      obtain ⟨h5, h6⟩ := h4 hdir
      exact ⟨by rw [← h5]; exact (wrapInt64_of_range _ r3.1 r3.2).symm, h6⟩
  refine ⟨fun dir => (hall dir).1, ?_, ?_, ?_, ?_, ?_, ?_⟩
  · obtain ⟨h1, h2, -⟩ := hall dirUplink
    obtain ⟨h3, h4⟩ := h2 rfl
    refine ⟨?_, h4⟩
    rw [h3, h1, addInt64, wrapInt64_add_wrapInt64_right]
  · obtain ⟨h1, -, h2⟩ := hall dirDownlink
    obtain ⟨h3, h4⟩ := h2 rfl
    refine ⟨?_, h4⟩
    rw [h3, h1, addInt64, wrapInt64_add_wrapInt64_right]
  · intro dir hlt
    rw [(hall dir).1]
    exact wrapInt64_of_range _ (le_trans (by norm_num) (accepted_nonneg _)) hlt
  · intro hlt
    rw [((hall dirUplink).2.1 rfl).1]
    have := accepted_nonneg (statsCopy steps sess dirUplink now).writes
    exact wrapInt64_of_range _ (by omega) hlt
  · intro hlt
    rw [((hall dirDownlink).2.2 rfl).1]
    have := accepted_nonneg (statsCopy steps sess dirDownlink now).writes
    exact wrapInt64_of_range _ (by omega) hlt
  · intro dir h
    exact accepted_of_nonneg _ h

end Socks

/-! ## UDP relay handler (`ReceiveTo`, `Close`, `fetchInput`) -/

namespace V2Ray

open FakeDns

theorem CloseNolog_conns (h : udpHandler) (conn : Nat) :
    (CloseNolog h conn).1.conns = mapDelete h.conns conn ∧
    (CloseNolog h conn).1.fakeDns = h.fakeDns ∧
    (CloseNolog h conn).1.timeout = h.timeout := ⟨rfl, rfl, rfl⟩

theorem Close_absent (h : udpHandler) (conn : Nat) (hno : mapGet h.conns conn = none) :
    Close h conn = (h, [Event.Close conn]) := by
  simp only [Close, hno, Stats.mapDelete_of_mapGet_none h.conns conn hno]

theorem ReceiveTo_synthesized (lib : DnsLib) (io : SocketResults) (h : udpHandler)
    (conn : Nat) (data : List (Fin 256)) (addr : UDPAddr) (f f1 : simpleFakeDns)
    (resp : List (Fin 256)) (hf : h.fakeDns = some f) (hport : addr.Port = COMMON_DNS_PORT)
    (hgen : GenerateFakeResponse lib f data = some (Except.ok resp, f1)) :
    ReceiveTo lib io h conn data addr =
      if io.writeFromFails then
        some (some HandlerError.writeDnsAnswerFailed, { h with fakeDns := some f1 },
          [Event.WriteFrom conn resp addr])
      else
        some (none, (CloseNolog { h with fakeDns := some f1 } conn).1,
          Event.WriteFrom conn resp addr :: (CloseNolog { h with fakeDns := some f1 } conn).2) := by
  simp only [ReceiveTo, hf, hport, if_true, hgen]

/-- C18: with an engine configured, for a datagram to port 53 for which
`GenerateFakeResponse` succeeds and the write to the client succeeds,
`ReceiveTo` returns `nil`; the calls it makes are the write of the
synthesized response to the client with source `addr`, the close of the
virtual flow and, if the flow table has the flow, the close of its upstream
socket, so no write on an upstream socket; afterwards the flow is not in the
table and every other flow is as before. -/
theorem ReceiveTo_fake_dns (lib : DnsLib) (io : SocketResults) (h : udpHandler) (conn : Nat)
    (data : List (Fin 256)) (addr : UDPAddr) (f f1 : simpleFakeDns) (resp : List (Fin 256))
    (hf : h.fakeDns = some f) (hport : addr.Port = COMMON_DNS_PORT)
    (hgen : GenerateFakeResponse lib f data = some (Except.ok resp, f1))
    (hw : io.writeFromFails = false) :
    ∃ h1 evs, ReceiveTo lib io h conn data addr = some (none, h1, evs) ∧
      evs = Event.WriteFrom conn resp addr :: Event.Close conn ::
        (match mapGet h.conns conn with
         | some c => [Event.upstreamClose c.conn]
         | none => []) ∧
      (∀ c d a, Event.upstreamWriteTo c d a ∉ evs) ∧
      mapGet h1.conns conn = none ∧
      (∀ k, k ≠ conn → mapGet h1.conns k = mapGet h.conns k) ∧
      h1.fakeDns = some f1 := by
  refine ⟨(CloseNolog { h with fakeDns := some f1 } conn).1,
    Event.WriteFrom conn resp addr :: (CloseNolog { h with fakeDns := some f1 } conn).2,
    ?_, ?_, ?_, ?_, ?_, rfl⟩
  · rw [ReceiveTo_synthesized lib io h conn data addr f f1 resp hf hport hgen, hw]
    simp
  · simp only [CloseNolog]
  · intro c d a hmem
    simp only [CloseNolog, List.mem_cons] at hmem
    rcases hmem with hmem | hmem | hmem
    · cases hmem
    · cases hmem
    · cases hg : mapGet h.conns conn with
      | none => rw [hg] at hmem; simp at hmem
      | some e => rw [hg] at hmem; simp at hmem
  · simp only [CloseNolog, mapGet_mapDelete, if_true]
  · intro k hk
    simp only [CloseNolog, mapGet_mapDelete, hk, if_false]

/-- Witness of C18: the engine with range `172.30.0.0 .. 172.30.0.2`, no
flow in the table, a query to `8.8.8.8:53`. -/
theorem ReceiveTo_fake_dns_witness :
    ∃ h1 evs,
      ReceiveTo exampleLib ⟨false, 0, false⟩
          ⟨[], 30000000000, some ⟨[], 2887647232, 2887647232, 2887647234, 0, [], []⟩⟩ 1 [1]
          ⟨IPv4 8 8 8 8, 53⟩ = some (none, h1, evs) ∧
        evs = Event.WriteFrom 1 [0] ⟨IPv4 8 8 8 8, 53⟩ :: Event.Close 1 :: [] := by
  obtain ⟨h1, evs, h2, h3, -⟩ := ReceiveTo_fake_dns exampleLib ⟨false, 0, false⟩
    ⟨[], 30000000000, some ⟨[], 2887647232, 2887647232, 2887647234, 0, [], []⟩⟩ 1 [1]
    ⟨IPv4 8 8 8 8, 53⟩ ⟨[], 2887647232, 2887647232, 2887647234, 0, [], []⟩
    ⟨[(2887647232, "example.com".toList)], 2887647233, 2887647232, 2887647234, 0, [], []⟩
    [0] rfl (by decide) rfl rfl
  exact ⟨h1, evs, h2, h3⟩

/-- C19 as stated fails when the fake-DNS branch answers: with an engine
configured and an empty flow table, `ReceiveTo` for the unknown flow `1` and
a query to `8.8.8.8:53` returns `nil`, not the does-not-exist error. -/
theorem ReceiveTo_unknown_flow_answered :
    mapGet (⟨[], 30000000000, some ⟨[], 2887647232, 2887647232, 2887647234, 0, [], []⟩⟩ :
      udpHandler).conns 1 = none ∧
    (ReceiveTo exampleLib ⟨false, 0, false⟩
        ⟨[], 30000000000, some ⟨[], 2887647232, 2887647232, 2887647234, 0, [], []⟩⟩ 1 [1]
        ⟨IPv4 8 8 8 8, 53⟩).map (fun r => r.1) = some none := by
  refine ⟨?_, ?_⟩ <;> decide

/-- C19, amended: for a flow that is not in the flow table.  When no engine
is configured, or the port of `addr` is not 53, or `GenerateFakeResponse`
returns an error, `ReceiveTo` closes the virtual flow, leaves the table as
it is, without the flow, and returns the does-not-exist error.  When the
engine synthesizes a response, `ReceiveTo` does not return that error; the
flow is still not in the table afterwards. -/
theorem ReceiveTo_unknown_flow (lib : DnsLib) (io : SocketResults) (h : udpHandler)
    (conn : Nat) (data : List (Fin 256)) (addr : UDPAddr)
    (hno : mapGet h.conns conn = none) :
    ((h.fakeDns = none ∨ addr.Port ≠ COMMON_DNS_PORT) →
      ReceiveTo lib io h conn data addr =
        some (some HandlerError.doesNotExist, h, [Event.Close conn])) ∧
    (∀ f e f1, h.fakeDns = some f → addr.Port = COMMON_DNS_PORT →
      GenerateFakeResponse lib f data = some (Except.error e, f1) →
      ReceiveTo lib io h conn data addr =
        some (some HandlerError.doesNotExist, { h with fakeDns := some f1 },
          [Event.Close conn])) ∧
    (∀ f resp f1, h.fakeDns = some f → addr.Port = COMMON_DNS_PORT →
      GenerateFakeResponse lib f data = some (Except.ok resp, f1) →
      ∃ e h1 evs, ReceiveTo lib io h conn data addr = some (e, h1, evs) ∧
        e ≠ some HandlerError.doesNotExist ∧ mapGet h1.conns conn = none) := by
  refine ⟨?_, ?_, ?_⟩
  · intro hcase
    have hrelay : ∀ g : udpHandler, g.conns = h.conns →
        (match mapGet g.conns conn with
          | some _ => (none : Option (Option HandlerError × udpHandler × List Event))
          | none => some (some HandlerError.doesNotExist, (Close g conn).1, (Close g conn).2)) =
        some (some HandlerError.doesNotExist, g, [Event.Close conn]) := by
      intro g hg
      have hno' : mapGet g.conns conn = none := by rw [hg]; exact hno
      simp only [hno', Close_absent g conn hno']
    cases hf : h.fakeDns with
    | none =>
        simp only [ReceiveTo, hf, hno, Close_absent h conn hno]
    | some f =>
        rcases hcase with hc | hc
        · rw [hf] at hc; cases hc
        · simp only [ReceiveTo, hf, hc, if_false, hno, Close_absent h conn hno]
  · intro f e f1 hf hport hgen
    have hno' : mapGet ({ h with fakeDns := some f1 } : udpHandler).conns conn = none := hno
    simp only [ReceiveTo, hf, hport, if_true, hgen, hno,
      Close_absent { h with fakeDns := some f1 } conn hno']
  · intro f resp f1 hf hport hgen
    rw [ReceiveTo_synthesized lib io h conn data addr f f1 resp hf hport hgen]
    cases hio : io.writeFromFails with
    | true =>
        exact ⟨some HandlerError.writeDnsAnswerFailed, { h with fakeDns := some f1 },
          [Event.WriteFrom conn resp addr], by simp, by simp, hno⟩
    | false =>
        refine ⟨none, (CloseNolog { h with fakeDns := some f1 } conn).1,
          Event.WriteFrom conn resp addr :: (CloseNolog { h with fakeDns := some f1 } conn).2,
          by simp, by simp, ?_⟩
        simp only [CloseNolog, mapGet_mapDelete, if_true]

/-- Witness of the amended C19: no engine, an empty table, the unknown
flow `1`. -/
theorem ReceiveTo_unknown_flow_witness :
    ReceiveTo exampleLib ⟨false, 0, false⟩ ⟨[], 30000000000, none⟩ 1 [1] ⟨IPv4 8 8 8 8, 53⟩ =
      some (some HandlerError.doesNotExist, ⟨[], 30000000000, none⟩, [Event.Close 1]) :=
  (ReceiveTo_unknown_flow exampleLib ⟨false, 0, false⟩ ⟨[], 30000000000, none⟩ 1 [1]
    ⟨IPv4 8 8 8 8, 53⟩ rfl).1 (Or.inl rfl)

/-- The receive loop never reads the `target` of the entry: two entries
with the same upstream socket give the same calls. -/
theorem fetchLoop_target_irrelevant (resolve : UDPAddr → Option UDPAddr) (conn : Nat)
    (c c2 : udpConnEntry) (hc : c.conn = c2.conn) (reads : List ReadStep) :
    fetchLoop resolve conn c reads = fetchLoop resolve conn c2 reads := by
  induction reads with
  | nil => rfl
  | cons r rest ih => simp only [fetchLoop, hc, ih]

/-- Witness: the targets `8.8.8.8:53` and `9.9.9.9:53` give the same
forwarded datagram. -/
theorem fetchLoop_target_irrelevant_witness :
    fetchLoop exampleResolve 1 ⟨7, ⟨IPv4 8 8 8 8, 53⟩, 0⟩
        [⟨2, [1, 2], some ⟨IPv4 1 1 1 1, 53⟩, false, false⟩] =
      fetchLoop exampleResolve 1 ⟨7, ⟨IPv4 9 9 9 9, 53⟩, 0⟩
        [⟨2, [1, 2], some ⟨IPv4 1 1 1 1, 53⟩, false, false⟩] :=
  fetchLoop_target_irrelevant exampleResolve 1 ⟨7, ⟨IPv4 8 8 8 8, 53⟩, 0⟩
    ⟨7, ⟨IPv4 9 9 9 9, 53⟩, 0⟩ rfl _

/-- C20, at the failing input: the flow `1` is connected with target
`8.8.8.8:53` on upstream socket `7`, and the table records that target; a
read on the socket returns two bytes with peer address `1.1.1.1:53`;
`fetchInput` forwards them to the virtual socket with source `1.1.1.1:53`,
the address the read reported, not the recorded target. -/
theorem fetchInput_uses_read_address :
    (Connect ⟨[], 30000000000, none⟩ 1 (some ⟨IPv4 8 8 8 8, 53⟩) (some 7)).1 = none ∧
    mapGet (Connect ⟨[], 30000000000, none⟩ 1 (some ⟨IPv4 8 8 8 8, 53⟩) (some 7)).2.conns 1 =
      some ⟨7, ⟨IPv4 8 8 8 8, 53⟩, 30000000000⟩ ∧
    (fetchInput exampleResolve
        (Connect ⟨[], 30000000000, none⟩ 1 (some ⟨IPv4 8 8 8 8, 53⟩) (some 7)).2 1
        [⟨2, [1, 2], some ⟨IPv4 1 1 1 1, 53⟩, false, false⟩]).map (fun r => r.2) =
      some [Event.Update 7, Event.WriteFrom 1 [1, 2] ⟨IPv4 1 1 1 1, 53⟩, Event.Close 1,
        Event.upstreamClose 7] := by
  refine ⟨?_, ?_, ?_⟩ <;> decide

end V2Ray

/-! ## The two DNS query validators -/

namespace FakeDns

/-- The verdict of `canHandleDnsQuery` computed from the result of
`ParseDNSQuery`: panic for panic, refusal for an error, and for a parsed
query the absence of an exclusion string in the domain. -/
theorem canHandleDnsQuery_eq_parse (lib : DnsLib) (f : simpleFakeDns) (p : List (Fin 256)) :
    canHandleDnsQuery lib f p =
      (ParseDNSQuery lib p).map (fun r =>
        match r with
        | Except.ok qd => !(f.excludeDomains.any (fun filter => Contains qd.2 filter))
        | Except.error _ => false) := by
  have hAA : ¬ (TypeAAAA = TypeA) := by decide
  unfold canHandleDnsQuery ParseDNSQuery
  cases hu : lib.Unpack p with
  | none => rfl
  | some req =>
    rcases hq : req.Question with _ | ⟨q, _ | ⟨q2, qs⟩⟩
    · simp [hq]
    · by_cases h1 : q.Qtype = TypeA
      · by_cases h2 : q.Qclass = ClassINET
        · by_cases h3 : q.Name = []
          · simp [hq, h1, h2, h3]
          · by_cases h4 : lib.IsDomainName q.Name.dropLast = true
            · by_cases h5 : (f.excludeDomains.any (fun filter => Contains q.Name.dropLast filter)) = true
              · simp [hq, h1, h2, h3, h4, h5]
              · simp [hq, h1, h2, h3, h4, h5]
            · simp [hq, h1, h2, h3, h4]
        · simp [hq, h1, h2]
      · by_cases h1' : q.Qtype = TypeAAAA
        · by_cases h2 : q.Qclass = ClassINET
          · by_cases h3 : q.Name = []
            · simp [hq, h1, h1', hAA, h2, h3]
            · by_cases h4 : lib.IsDomainName q.Name.dropLast = true
              · by_cases h5 : (f.excludeDomains.any (fun filter => Contains q.Name.dropLast filter)) = true
                · simp [hq, h1, h1', hAA, h2, h3, h4, h5]
                · simp [hq, h1, h1', hAA, h2, h3, h4, h5]
              · simp [hq, h1, h1', hAA, h2, h3, h4]
          · simp [hq, h1, h1', hAA, h2]
        · simp [hq, h1, h1']
    · simp [hq]

/-- A parsed query is a message with one question whose name is not empty;
the domain is the name without its last byte. -/
theorem ParseDNSQuery_ok (lib : DnsLib) (p : List (Fin 256)) (qt d : GoString)
    (h : ParseDNSQuery lib p = some (Except.ok (qt, d))) :
    ∃ req q, lib.Unpack p = some req ∧ req.Question = [q] ∧ q.Name ≠ [] ∧
      d = q.Name.dropLast ∧ (q.Qtype = TypeA ∨ q.Qtype = TypeAAAA) := by
  have hAA : ¬ (TypeAAAA = TypeA) := by decide
  unfold ParseDNSQuery at h
  cases hu : lib.Unpack p with
  | none => rw [hu] at h; simp at h
  | some req =>
    rw [hu] at h
    dsimp only at h
    rcases hq : req.Question with _ | ⟨q, _ | ⟨q2, qs⟩⟩
    · rw [hq] at h; simp at h
    · rw [hq] at h
      refine ⟨req, q, rfl, hq, ?_⟩
      by_cases h3 : q.Name = []
      · exfalso
        by_cases h1 : q.Qtype = TypeA
        · by_cases h2 : q.Qclass = ClassINET
          · simp [h1, h2, h3] at h
          · simp [h1, h2] at h
        · by_cases h1' : q.Qtype = TypeAAAA
          · by_cases h2 : q.Qclass = ClassINET
            · simp [h1, h1', hAA, h2, h3] at h
            · simp [h1, h1', hAA, h2] at h
          · simp [h1, h1'] at h
      · refine ⟨h3, ?_⟩
        by_cases h1 : q.Qtype = TypeA
        · by_cases h2 : q.Qclass = ClassINET
          · by_cases h4 : lib.IsDomainName q.Name.dropLast = true
            · simp [h1, h2, h3, h4] at h
              exact ⟨h.2.symm, Or.inl h1⟩
            · simp [h1, h2, h3, h4] at h
          · simp [h1, h2] at h
        · by_cases h1' : q.Qtype = TypeAAAA
          · by_cases h2 : q.Qclass = ClassINET
            · by_cases h4 : lib.IsDomainName q.Name.dropLast = true
              · simp [h1, h1', hAA, h2, h3, h4] at h
                exact ⟨h.2.symm, Or.inr h1'⟩
              · simp [h1, h1', hAA, h2, h3, h4] at h
            · simp [h1, h1', hAA, h2] at h
          · simp [h1, h1'] at h
    · rw [hq] at h; simp at h

/-- An accepted query is a parsed query. -/
theorem canHandleDnsQuery_true_parse (lib : DnsLib) (f : simpleFakeDns) (p : List (Fin 256))
    (h : canHandleDnsQuery lib f p = some true) :
    ∃ qt d, ParseDNSQuery lib p = some (Except.ok (qt, d)) ∧
      (f.excludeDomains.any (fun filter => Contains d filter)) = false := by
  rw [canHandleDnsQuery_eq_parse] at h
  cases hp : ParseDNSQuery lib p with
  | none => rw [hp] at h; simp at h
  | some r =>
    rw [hp] at h
    cases r with
    | error e => simp at h
    | ok qd =>
      refine ⟨qd.1, qd.2, rfl, ?_⟩
      simpa using h

/-- The state after `GenerateFakeResponse` on an accepted query: one
allocation for the domain of the question. -/
theorem GenerateFakeResponse_accepted (lib : DnsLib) (f : simpleFakeDns) (p : List (Fin 256))
    (qt d : GoString) (hp : ParseDNSQuery lib p = some (Except.ok (qt, d)))
    (h : canHandleDnsQuery lib f p = some true) :
    ∃ r, GenerateFakeResponse lib f p = some (r, (allocateIP f d).2) := by
  obtain ⟨req, q, hu, hq, hne, hd, hty⟩ := ParseDNSQuery_ok lib p qt d hp
  unfold GenerateFakeResponse
  rw [h]
  simp only [hu, hq, hne, if_false, ← hd]
  rcases hty with hty | hty
  · rw [if_pos hty]; exact ⟨_, rfl⟩
  · by_cases hA : q.Qtype = TypeA
    · rw [if_pos hA]; exact ⟨_, rfl⟩
    · rw [if_neg hA, if_pos hty]; exact ⟨_, rfl⟩

/-- `GenerateFakeResponse` on a query that does not parse: the refusal, and
the state as before. -/
theorem GenerateFakeResponse_parse_error (lib : DnsLib) (f : simpleFakeDns)
    (p : List (Fin 256)) (e : ParseError) (hp : ParseDNSQuery lib p = some (Except.error e)) :
    GenerateFakeResponse lib f p = some (Except.error Error.cannotHandleDnsRequest, f) := by
  have h : canHandleDnsQuery lib f p = some false := by
    rw [canHandleDnsQuery_eq_parse, hp]; rfl
  unfold GenerateFakeResponse
  rw [h]

/-- C25: a query `canHandleDnsQuery` rejects makes `GenerateFakeResponse`
return the error "cannot handle DNS request" with the state (cursor and
bindings) as before; a query it accepts makes `GenerateFakeResponse` return
with the state of exactly one `allocateIP`, for a type AAAA question as for
a type A question: the cursor slot is bound to the domain of the question,
and the cursor moves one slot on, wrapping to `minCursor` past `maxCursor`. -/
theorem GenerateFakeResponse_allocates_once (lib : DnsLib) (f : simpleFakeDns)
    (p : List (Fin 256)) :
    (canHandleDnsQuery lib f p = some false →
      GenerateFakeResponse lib f p = some (Except.error Error.cannotHandleDnsRequest, f)) ∧
    (canHandleDnsQuery lib f p = some true →
      ∃ req q r f1, lib.Unpack p = some req ∧ req.Question = [q] ∧
        (q.Qtype = TypeA ∨ q.Qtype = TypeAAAA) ∧
        GenerateFakeResponse lib f p = some (r, f1) ∧
        f1 = (allocateIP f q.Name.dropLast).2 ∧
        f1.ip2domain = mapSet f.ip2domain f.cursor q.Name.dropLast ∧
        f1.cursor = (if (f.cursor + 1) % 2 ^ 32 > f.maxCursor then f.minCursor
                     else (f.cursor + 1) % 2 ^ 32)) := by
  constructor
  · intro h
    unfold GenerateFakeResponse
    rw [h]
  · intro h
    obtain ⟨qt, d, hp, -⟩ := canHandleDnsQuery_true_parse lib f p h
    obtain ⟨req, q, hu, hq, -, hd, hty⟩ := ParseDNSQuery_ok lib p qt d hp
    obtain ⟨r, hr⟩ := GenerateFakeResponse_accepted lib f p qt d hp h
    rw [hd] at hr
    exact ⟨req, q, r, _, hu, hq, hty, hr, rfl, rfl, rfl⟩

/-- Witness of C25: the engine with range `172.30.0.0 .. 172.30.0.2` and the
cursor on the first slot answers the query `A example.com.`; the slot is
bound and the cursor is on the second slot. -/
theorem GenerateFakeResponse_allocates_once_witness :
    canHandleDnsQuery exampleLib ⟨[], 2887647232, 2887647232, 2887647234, 0, [], []⟩ [1] =
      some true ∧
    ∃ req q r f1, exampleLib.Unpack [1] = some req ∧ req.Question = [q] ∧
      (q.Qtype = TypeA ∨ q.Qtype = TypeAAAA) ∧
      GenerateFakeResponse exampleLib
        ⟨[], 2887647232, 2887647232, 2887647234, 0, [], []⟩ [1] = some (r, f1) ∧
      f1 = (allocateIP ⟨[], 2887647232, 2887647232, 2887647234, 0, [], []⟩
        q.Name.dropLast).2 ∧
      f1.ip2domain = mapSet [] 2887647232 q.Name.dropLast ∧
      f1.cursor = (if (2887647232 + 1) % 2 ^ 32 > 2887647234 then 2887647232
                   else (2887647232 + 1) % 2 ^ 32) :=
  ⟨by decide,
   (GenerateFakeResponse_allocates_once exampleLib
      ⟨[], 2887647232, 2887647232, 2887647234, 0, [], []⟩ [1]).2 (by decide)⟩

/-- C26: the two address conversions are inverse on `uint32` values, and a
`QueryDomain` made right after `allocateIP d`, on the address it returned,
returns `d`. -/
theorem QueryDomain_after_allocateIP (n : Nat) (f : simpleFakeDns) (d : GoString)
    (hn : n < 2 ^ 32) (hc : f.cursor < 2 ^ 32) :
    ip2uint32 (uint322ip n) = some n ∧
    QueryDomain (allocateIP f d).2 (allocateIP f d).1 = some (d, (allocateIP f d).2) := by
  refine ⟨ip2uint32_uint322ip_of_lt n hn, ?_⟩
  unfold QueryDomain
  rw [allocateIP_fst, ip2uint32_uint322ip_of_lt _ hc]
  simp only [allocateIP_ip2domain, mapGet_mapSet_self]

/-- Witness of C26: the value of `172.30.0.2`, and the state whose cursor is
on that slot, already bound to `a.com`. -/
theorem QueryDomain_after_allocateIP_witness :
    ip2uint32 (uint322ip 2887647234) = some 2887647234 ∧
    QueryDomain
        (allocateIP ⟨[(2887647234, "a.com".toList)], 2887647234, 2887647232, 2887647234, 0,
          [], []⟩ "d.com".toList).2
        (allocateIP ⟨[(2887647234, "a.com".toList)], 2887647234, 2887647232, 2887647234, 0,
          [], []⟩ "d.com".toList).1 =
      some ("d.com".toList,
        (allocateIP ⟨[(2887647234, "a.com".toList)], 2887647234, 2887647232, 2887647234, 0,
          [], []⟩ "d.com".toList).2) :=
  QueryDomain_after_allocateIP 2887647234
    ⟨[(2887647234, "a.com".toList)], 2887647234, 2887647232, 2887647234, 0, [], []⟩
    "d.com".toList (by decide) (by decide)

/-- C27: `canHandleDnsQuery` accepts a message exactly when `ParseDNSQuery`
returns no error for it and the domain it returns contains none of the
exclusion strings; the two panic on the same messages; with an empty
exclusion list `canHandleDnsQuery` accepts exactly the messages
`ParseDNSQuery` parses; and the domain `ParseDNSQuery` returns for an
accepted message is the one `GenerateFakeResponse` binds to the cursor
slot. -/
theorem canHandleDnsQuery_iff_ParseDNSQuery (lib : DnsLib) (f : simpleFakeDns)
    (p : List (Fin 256)) :
    (canHandleDnsQuery lib f p = some true ↔
      ∃ qt d, ParseDNSQuery lib p = some (Except.ok (qt, d)) ∧
        ∀ filter ∈ f.excludeDomains, ¬ List.IsInfix filter d) ∧
    (canHandleDnsQuery lib f p = none ↔ ParseDNSQuery lib p = none) ∧
    (f.excludeDomains = [] →
      (canHandleDnsQuery lib f p = some true ↔
        ∃ qt d, ParseDNSQuery lib p = some (Except.ok (qt, d)))) ∧
    (∀ qt d, ParseDNSQuery lib p = some (Except.ok (qt, d)) →
      canHandleDnsQuery lib f p = some true →
      ∃ r f1, GenerateFakeResponse lib f p = some (r, f1) ∧
        f1.ip2domain = mapSet f.ip2domain f.cursor d) := by
  have key : canHandleDnsQuery lib f p = some true ↔
      ∃ qt d, ParseDNSQuery lib p = some (Except.ok (qt, d)) ∧
        ∀ filter ∈ f.excludeDomains, ¬ List.IsInfix filter d := by
    constructor
    · intro h
      obtain ⟨qt, d, hp, hx⟩ := canHandleDnsQuery_true_parse lib f p h
      exact ⟨qt, d, hp, (any_Contains_eq_false _ _).1 hx⟩
    · rintro ⟨qt, d, hp, hx⟩
      rw [canHandleDnsQuery_eq_parse, hp]
      simp only [Option.map_some']
      rw [(any_Contains_eq_false _ _).2 hx]
      rfl
  refine ⟨key, ?_, ?_, ?_⟩
  · rw [canHandleDnsQuery_eq_parse]
    cases ParseDNSQuery lib p <;> simp
  · intro hx
    rw [key]
    constructor
    · rintro ⟨qt, d, hp, -⟩
      exact ⟨qt, d, hp⟩
    · rintro ⟨qt, d, hp⟩
      refine ⟨qt, d, hp, ?_⟩
      rw [hx]
      intro filter hmem
      cases hmem
  · intro qt d hp h
    obtain ⟨r, hr⟩ := GenerateFakeResponse_accepted lib f p qt d hp h
    exact ⟨r, _, hr, rfl⟩

/-- Witness of C27: the engine that excludes `local` accepts the query
`A example.com.`, which `ParseDNSQuery` parses to the domain `example.com`. -/
theorem canHandleDnsQuery_iff_ParseDNSQuery_witness :
    canHandleDnsQuery exampleLib
        ⟨[], 2887647232, 2887647232, 2887647234, 0, [], ["local".toList]⟩ [1] = some true :=
  (canHandleDnsQuery_iff_ParseDNSQuery exampleLib
    ⟨[], 2887647232, 2887647232, 2887647234, 0, [], ["local".toList]⟩ [1]).1.2
    ⟨"TypeA".toList, "example.com".toList, rfl, by decide⟩

end FakeDns

/-! ## The receive loop and the DNS window of a UDP flow -/

namespace V2Ray

open FakeDns

/-- A read that fails with a count of zero or less ends the loop: the turns
after it are not taken. -/
theorem fetchLoop_read_error (resolve : UDPAddr → Option UDPAddr) (conn : Nat)
    (c : udpConnEntry) (pre : List ReadStep) (r : ReadStep) (rest : List ReadStep)
    (hr : r.readFails = true) (hn : r.n ≤ 0) :
    fetchLoop resolve conn c (pre ++ r :: rest) = fetchLoop resolve conn c pre := by
  induction pre with
  | nil => simp [fetchLoop, hr, hn]
  | cons x xs ih => simp only [List.cons_append, fetchLoop, List.append_eq, ih]

/-- C21, as the code has it: the first read on the upstream socket returns
two bytes together with an error; the loop goes on, forwards the two bytes,
reads again and forwards the byte of the second read, and only then is the
flow closed. -/
theorem fetchInput_read_error_with_data_continues :
    (fetchInput exampleResolve
        (Connect ⟨[], 30000000000, none⟩ 1 (some ⟨IPv4 8 8 8 8, 53⟩) (some 7)).2 1
        [⟨2, [1, 2], some ⟨IPv4 8 8 8 8, 53⟩, true, false⟩,
         ⟨1, [3], some ⟨IPv4 8 8 8 8, 53⟩, false, false⟩]).map (fun r => r.2) =
      some [Event.Update 7, Event.WriteFrom 1 [1, 2] ⟨IPv4 8 8 8 8, 53⟩,
        Event.Update 7, Event.WriteFrom 1 [3] ⟨IPv4 8 8 8 8, 53⟩,
        Event.Close 1, Event.upstreamClose 7] := by
  decide

/-- C21 (amended): for a flow of the table, a read on the upstream socket
that returns an error together with a count of zero or less ends the
receive loop: the turns after it are not taken, so that `fetchInput` makes
the calls of the turns before it and then closes the flow; when it is the
first read, the only calls are the close of the flow and of its upstream
socket; and whenever `fetchInput` returns, the flow is no longer in the
table and every other flow is as before.  A read that returns an error
together with a positive count is handled exactly as the same read without
the error: when its peer address resolves and the forward to the client
succeeds, the timer is updated, the bytes are forwarded and the loop goes
on to the next read. -/
theorem fetchInput_read_error (resolve : UDPAddr → Option UDPAddr) (h : udpHandler)
    (conn : Nat) (c : udpConnEntry) (pre : List ReadStep) (r : ReadStep)
    (rest : List ReadStep) (hget : mapGet h.conns conn = some c)
    (hr : r.readFails = true) (hn : r.n ≤ 0) :
    fetchInput resolve h conn (pre ++ r :: rest) = fetchInput resolve h conn pre ∧
    fetchInput resolve h conn (r :: rest) =
      some ({ h with conns := mapDelete h.conns conn },
        [Event.Close conn, Event.upstreamClose c.conn]) ∧
    (∀ h1 evs, fetchInput resolve h conn (pre ++ r :: rest) = some (h1, evs) →
      mapGet h1.conns conn = none ∧
      (∀ k, k ≠ conn → mapGet h1.conns k = mapGet h.conns k) ∧
      ∃ evs0, fetchLoop resolve conn c pre = some evs0 ∧
        evs = evs0 ++ [Event.Close conn, Event.upstreamClose c.conn]) ∧
    (∀ (r2 : ReadStep) (rest2 : List ReadStep), 0 < r2.n →
      fetchLoop resolve conn c (r2 :: rest2) =
        fetchLoop resolve conn c (⟨r2.n, r2.data, r2.addr, false, r2.writeFromFails⟩ :: rest2) ∧
      fetchInput resolve h conn (r2 :: rest2) =
        fetchInput resolve h conn (⟨r2.n, r2.data, r2.addr, false, r2.writeFromFails⟩ :: rest2) ∧
      (∀ a ra, r2.addr = some a → resolve a = some ra → r2.writeFromFails = false →
        fetchLoop resolve conn c (r2 :: rest2) =
          (fetchLoop resolve conn c rest2).map (fun evs =>
            [Event.Update c.conn, Event.WriteFrom conn (r2.data.take r2.n.toNat) ra] ++ evs))) := by
  have hpos : ∀ (r2 : ReadStep) (rest2 : List ReadStep), 0 < r2.n →
      fetchLoop resolve conn c (r2 :: rest2) =
        fetchLoop resolve conn c
          (⟨r2.n, r2.data, r2.addr, false, r2.writeFromFails⟩ :: rest2) := by
    intro r2 rest2 hpos
    have h1 : ¬ (r2.readFails = true ∧ r2.n ≤ 0) := fun hc => absurd hc.2 (not_le.2 hpos)
    rw [fetchLoop, if_neg h1]
    conv_rhs => rw [fetchLoop]
    simp
  refine ⟨?_, ?_, ?_, ?_⟩
  · simp only [fetchInput, fetchLoop_read_error resolve conn _ pre r rest hr hn]
  · simp [fetchInput, hget, fetchLoop, hr, hn, Close]
  · intro h1 evs hres
    simp only [fetchInput, hget, fetchLoop_read_error resolve conn c pre r rest hr hn] at hres
    cases hl : fetchLoop resolve conn c pre with
    | none => rw [hl] at hres; simp at hres
    | some evs0 =>
      rw [hl] at hres
      simp only [Close, hget, Option.some.injEq, Prod.mk.injEq] at hres
      obtain ⟨h1eq, hevs⟩ := hres
      subst h1eq
      refine ⟨?_, ?_, evs0, rfl, hevs.symm⟩
      · simp only [mapGet_mapDelete, if_true]
      · intro k hk
        simp only [mapGet_mapDelete, hk, if_false]
  · intro r2 rest2 hp
    refine ⟨hpos r2 rest2 hp, ?_, ?_⟩
    · simp only [fetchInput, hget, hpos r2 rest2 hp]
    · intro a ra ha hres hw
      have h1 : ¬ (r2.readFails = true ∧ r2.n ≤ 0) := fun hc => absurd hc.2 (not_le.2 hp)
      have h2 : ¬ (r2.n < 0) := not_lt.2 (le_of_lt hp)
      rw [fetchLoop, if_neg h1]
      simp only [ha, hres, h2, if_false, hw, Bool.false_eq_true]

/-- Witness of C21 (amended): the flow `1` on upstream socket `7`; the first
read forwards two bytes, the second fails with no byte, a third is never
taken. -/
theorem fetchInput_read_error_witness :
    fetchInput exampleResolve ⟨[(1, ⟨7, ⟨IPv4 8 8 8 8, 53⟩, 30000000000⟩)], 30000000000, none⟩ 1
        ([⟨2, [1, 2], some ⟨IPv4 8 8 8 8, 53⟩, false, false⟩] ++
          ⟨0, [], none, true, false⟩ :: [⟨1, [3], some ⟨IPv4 8 8 8 8, 53⟩, false, false⟩]) =
      fetchInput exampleResolve
        ⟨[(1, ⟨7, ⟨IPv4 8 8 8 8, 53⟩, 30000000000⟩)], 30000000000, none⟩ 1
        [⟨2, [1, 2], some ⟨IPv4 8 8 8 8, 53⟩, false, false⟩] :=
  (fetchInput_read_error exampleResolve
    ⟨[(1, ⟨7, ⟨IPv4 8 8 8 8, 53⟩, 30000000000⟩)], 30000000000, none⟩ 1
    ⟨7, ⟨IPv4 8 8 8 8, 53⟩, 30000000000⟩
    [⟨2, [1, 2], some ⟨IPv4 8 8 8 8, 53⟩, false, false⟩] ⟨0, [], none, true, false⟩
    [⟨1, [3], some ⟨IPv4 8 8 8 8, 53⟩, false, false⟩] rfl rfl (by decide)).1

/-- C22, as the code has it: the handler has the baseline timeout of 30
seconds and the flow `1` is connected; a DNS query to `8.8.8.8:53` on the
flow re-arms its timer with 8 seconds, which is shorter than the baseline. -/
theorem ReceiveTo_dns_window_shorter :
    ∃ h1 evs,
      ReceiveTo exampleLib ⟨false, 1, false⟩
        (Connect ⟨[], 30000000000, none⟩ 1 (some ⟨IPv4 8 8 8 8, 53⟩) (some 7)).2 1 [1]
        ⟨IPv4 8 8 8 8, 53⟩ = some (none, h1, evs) ∧
      Event.SetTimeout 7 8000000000 ∈ evs ∧
      mapGet h1.conns 1 = some ⟨7, ⟨IPv4 8 8 8 8, 53⟩, 8000000000⟩ ∧
      h1.timeout = 30000000000 ∧ ¬ (8000000000 > h1.timeout) := by
  refine ⟨_, _, rfl, ?_, ?_, ?_, ?_⟩ <;> decide

end V2Ray

namespace V2Ray

open FakeDns

/-- `ReceiveTo` on a flow of the table when no fake DNS response is
synthesized: the relay part, run on the handler with the engine state
`GenerateFakeResponse` may have left. -/
theorem ReceiveTo_relayed (lib : DnsLib) (io : SocketResults) (h : udpHandler) (conn : Nat)
    (data : List (Fin 256)) (addr : UDPAddr) (c : udpConnEntry)
    (hget : mapGet h.conns conn = some c)
    (hno : addr.Port = COMMON_DNS_PORT → ∀ f, h.fakeDns = some f →
      ∃ e f1, GenerateFakeResponse lib f data = some (Except.error e, f1)) :
    ∃ fd : Option simpleFakeDns,
      ReceiveTo lib io h conn data addr =
        (match (if addr.Port = COMMON_DNS_PORT then
              (match ParseDNSQuery lib data with
               | none => none
               | some (Except.ok _) =>
                   some ((⟨mapSet h.conns conn ⟨c.conn, c.target, dnsTimeout⟩, h.timeout, fd⟩ :
                     udpHandler), [Event.SetTimeout c.conn dnsTimeout])
               | some (Except.error _) => some (⟨h.conns, h.timeout, fd⟩, []))
            else some (⟨h.conns, h.timeout, fd⟩, [])) with
         | none => none
         | some (h1, ev1) =>
             if io.writeToFails then
               some (some HandlerError.writeRemoteFailed, (Close h1 conn).1,
                 (if io.writeToN > 0 then
                    ev1 ++ [Event.upstreamWriteTo c.conn data addr] ++ [Event.Update c.conn]
                  else ev1 ++ [Event.upstreamWriteTo c.conn data addr]) ++ (Close h1 conn).2)
             else
               some (none, h1,
                 if io.writeToN > 0 then
                   ev1 ++ [Event.upstreamWriteTo c.conn data addr] ++ [Event.Update c.conn]
                 else ev1 ++ [Event.upstreamWriteTo c.conn data addr])) := by
  obtain ⟨conns, timeout, fd0⟩ := h
  cases fd0 with
  | none =>
    refine ⟨none, ?_⟩
    simp only [ReceiveTo]
    simp only [hget]
  | some f =>
    by_cases hport : addr.Port = COMMON_DNS_PORT
    · obtain ⟨e, f1, hgen⟩ := hno hport f rfl
      refine ⟨some f1, ?_⟩
      simp only [ReceiveTo, hport, if_true, hgen]
      simp only [hget]
    · refine ⟨some f, ?_⟩
      simp only [ReceiveTo, hport, if_false]
      simp only [hget]

end V2Ray

namespace V2Ray

open FakeDns

/-- C22 (amended): on a flow of the table, a datagram to port 53 whose
payload `ParseDNSQuery` parses, and for which no fake DNS response is
synthesized, makes `ReceiveTo` re-arm the timer of the flow with the fixed
window of 8 seconds, whatever the baseline timeout of the handler is, and
the flow keeps that window when the upstream write succeeds; a datagram to
another port, or one `ParseDNSQuery` returns an error for, arms no timer and
leaves the timeout of the flow as it was; the baseline timeout of the
handler is never changed. -/
theorem ReceiveTo_timeout (lib : DnsLib) (io : SocketResults) (h : udpHandler) (conn : Nat)
    (data : List (Fin 256)) (addr : UDPAddr) (c : udpConnEntry)
    (hget : mapGet h.conns conn = some c) :
    (addr.Port = COMMON_DNS_PORT → (∃ q, ParseDNSQuery lib data = some (Except.ok q)) →
      (∀ f, h.fakeDns = some f →
        ∃ e f1, GenerateFakeResponse lib f data = some (Except.error e, f1)) →
      ∃ r h1 evs, ReceiveTo lib io h conn data addr = some (r, h1, evs) ∧
        Event.SetTimeout c.conn dnsTimeout ∈ evs ∧ dnsTimeout = 8000000000 ∧
        (io.writeToFails = false →
          mapGet h1.conns conn = some ⟨c.conn, c.target, dnsTimeout⟩) ∧
        h1.timeout = h.timeout) ∧
    ((addr.Port ≠ COMMON_DNS_PORT ∨ ∃ e, ParseDNSQuery lib data = some (Except.error e)) →
      ∃ r h1 evs, ReceiveTo lib io h conn data addr = some (r, h1, evs) ∧
        (∀ k d, Event.SetTimeout k d ∉ evs) ∧
        (io.writeToFails = false → mapGet h1.conns conn = some c) ∧
        (∀ c1, mapGet h1.conns conn = some c1 → c1 = c) ∧
        h1.timeout = h.timeout) := by
  constructor
  · rintro hport ⟨q, hparse⟩ hno
    obtain ⟨fd, hrec⟩ := ReceiveTo_relayed lib io h conn data addr c hget (fun _ => hno)
    rw [hrec]
    simp only [hport, if_true, hparse]
    by_cases hw : io.writeToFails = true
    · rw [if_pos hw]
      refine ⟨_, _, _, rfl, ?_, rfl, ?_, rfl⟩
      · split_ifs <;> simp
      · intro hw'; rw [hw] at hw'; cases hw'
    · rw [if_neg hw]
      refine ⟨_, _, _, rfl, ?_, rfl, ?_, rfl⟩
      · split_ifs <;> simp
      · intro _
        exact mapGet_mapSet_self _ _ _
  · intro hother
    have hno : addr.Port = COMMON_DNS_PORT → ∀ f, h.fakeDns = some f →
        ∃ e f1, GenerateFakeResponse lib f data = some (Except.error e, f1) := by
      intro hport f _
      rcases hother with hne | ⟨e, he⟩
      · exact absurd hport hne
      · exact ⟨_, _, GenerateFakeResponse_parse_error lib f data e he⟩
    obtain ⟨fd, hrec⟩ := ReceiveTo_relayed lib io h conn data addr c hget hno
    rw [hrec]
    have hpar : (if addr.Port = COMMON_DNS_PORT then
          (match ParseDNSQuery lib data with
           | none => none
           | some (Except.ok _) =>
               some ((⟨mapSet h.conns conn ⟨c.conn, c.target, dnsTimeout⟩, h.timeout, fd⟩ :
                 udpHandler), [Event.SetTimeout c.conn dnsTimeout])
           | some (Except.error _) => some (⟨h.conns, h.timeout, fd⟩, []))
        else some (⟨h.conns, h.timeout, fd⟩, [])) =
        some ((⟨h.conns, h.timeout, fd⟩ : udpHandler), []) := by
      rcases hother with hne | ⟨e, he⟩
      · rw [if_neg hne]
      · rw [he]; simp
    rw [hpar]
    by_cases hw : io.writeToFails = true
    · simp only [if_pos hw]
      refine ⟨_, _, _, rfl, ?_, ?_, ?_, rfl⟩
      · intro k d hmem
        simp only [Close, hget] at hmem
        split_ifs at hmem <;> simp at hmem
      · intro hw'; rw [hw] at hw'; cases hw'
      · intro c1 hc1
        simp only [Close, mapGet_mapDelete, if_true] at hc1
        cases hc1
    · simp only [if_neg hw]
      refine ⟨_, _, _, rfl, ?_, ?_, ?_, rfl⟩
      · intro k d hmem
        split_ifs at hmem <;> simp at hmem
      · intro _; exact hget
      · intro c1 hc1
        rw [hget] at hc1
        exact (Option.some.inj hc1).symm

/-- Witness of C22 (amended): the handler with the baseline timeout of 30
seconds, the flow `1` on upstream socket `7`, and a DNS query to
`8.8.8.8:53`. -/
theorem ReceiveTo_timeout_witness :
    ∃ r h1 evs,
      ReceiveTo exampleLib ⟨false, 1, false⟩
        ⟨[(1, ⟨7, ⟨IPv4 8 8 8 8, 53⟩, 30000000000⟩)], 30000000000, none⟩ 1 [1]
        ⟨IPv4 8 8 8 8, 53⟩ = some (r, h1, evs) ∧
      Event.SetTimeout 7 dnsTimeout ∈ evs ∧ dnsTimeout = 8000000000 ∧
      (false = false → mapGet h1.conns 1 = some ⟨7, ⟨IPv4 8 8 8 8, 53⟩, dnsTimeout⟩) ∧
      h1.timeout = 30000000000 :=
  (ReceiveTo_timeout exampleLib ⟨false, 1, false⟩
    ⟨[(1, ⟨7, ⟨IPv4 8 8 8 8, 53⟩, 30000000000⟩)], 30000000000, none⟩ 1 [1]
    ⟨IPv4 8 8 8 8, 53⟩ ⟨7, ⟨IPv4 8 8 8 8, 53⟩, 30000000000⟩ rfl).1 rfl
    ⟨("TypeA".toList, "example.com".toList), rfl⟩ (fun f hf => by cases hf)

end V2Ray

/-! ## The error `statsCopy` returns -/

namespace Socks

open Stats

/-- The turns that continue are passed: the loop reaches the turns after
them, with some value of `written`, of the session and of the trace. -/
theorem statsCopyLoop_skip (dir : direction) (now : Int) (pre tail : List CopyStep)
    (hpre : ∀ x ∈ pre, turnContinues x) (written : Int) (sess : Session) (writes : List Int) :
    ∃ w s ws, statsCopyLoop dir now (pre ++ tail) written sess writes =
      statsCopyLoop dir now tail w s ws := by
  induction pre generalizing written sess writes with
  | nil => exact ⟨written, sess, writes, rfl⟩
  | cons x xs ih =>
    obtain ⟨hw, he⟩ := hpre x (List.mem_cons_self _ _)
    have hxs : ∀ y ∈ xs, turnContinues y := fun y hy => hpre y (List.mem_cons_of_mem _ hy)
    by_cases hnr : x.nr > 0
    · obtain ⟨hew, hnw⟩ := hw hnr
      rw [List.cons_append, statsCopyLoop, if_pos hnr]
      simp only [hew, he, hnw, ne_eq, not_true_eq_false, if_false]
      exact ih hxs _ _ _
    · rw [List.cons_append, statsCopyLoop, if_neg hnr]
      simp only [he, ne_eq, not_true_eq_false, if_false]
      exact ih hxs _ _ _

/-- The error of the turn at which the loop ends. -/
theorem statsCopyLoop_head (dir : direction) (now : Int) (st : CopyStep) (rest : List CopyStep)
    (written : Int) (sess : Session) (writes : List Int) :
    (st.nr > 0 → ∀ e, st.ew = some e →
      (statsCopyLoop dir now (st :: rest) written sess writes).err = some e) ∧
    (st.nr > 0 → st.ew = none → st.nr ≠ st.nw →
      (statsCopyLoop dir now (st :: rest) written sess writes).err =
        some IOError.ErrShortWrite) ∧
    (writeAccepted st → ∀ e, st.er = some e → e ≠ IOError.EOF →
      (statsCopyLoop dir now (st :: rest) written sess writes).err = some e) ∧
    (writeAccepted st → st.er = some IOError.EOF →
      (statsCopyLoop dir now (st :: rest) written sess writes).err = none) := by
  refine ⟨?_, ?_, ?_, ?_⟩
  · intro hnr e hew
    rw [statsCopyLoop, if_pos hnr]
    simp [hew]
  · intro hnr hew hne
    rw [statsCopyLoop, if_pos hnr]
    simp [hew, hne]
  · intro hw e he hne
    by_cases hnr : st.nr > 0
    · obtain ⟨hew, hnw⟩ := hw hnr
      rw [statsCopyLoop, if_pos hnr]
      simp [hew, hnw, he, hne]
    · rw [statsCopyLoop, if_neg hnr]
      simp [he, hne]
  · intro hw he
    by_cases hnr : st.nr > 0
    · obtain ⟨hew, hnw⟩ := hw hnr
      rw [statsCopyLoop, if_pos hnr]
      simp [hew, hnw, he]
    · rw [statsCopyLoop, if_neg hnr]
      simp [he]

end Socks

namespace Socks

open Stats

/-- A copy that returns no error has passed every turn, or has ended at a
turn whose read reported `io.EOF` and whose write, if any, was accepted. -/
theorem statsCopyLoop_err_none (dir : direction) (now : Int) (steps : List CopyStep)
    (written : Int) (sess : Session) (writes : List Int)
    (h : (statsCopyLoop dir now steps written sess writes).err = none) :
    (∀ x ∈ steps, turnContinues x) ∨
      ∃ pre st rest, steps = pre ++ st :: rest ∧ (∀ x ∈ pre, turnContinues x) ∧
        writeAccepted st ∧ st.er = some IOError.EOF := by
  induction steps generalizing written sess writes with
  | nil => left; intro x hx; cases hx
  | cons st rest ih =>
    obtain ⟨h1, h2, h3, -⟩ := statsCopyLoop_head dir now st rest written sess writes
    by_cases hw : writeAccepted st
    · cases her : st.er with
      | some e =>
        by_cases heof : e = IOError.EOF
        · right
          refine ⟨[], st, rest, rfl, ?_, hw, by rw [her, heof]⟩
          intro x hx; cases hx
        · rw [h3 hw e her heof] at h
          cases h
      | none =>
        have hc : turnContinues st := ⟨hw, her⟩
        obtain ⟨w, s, ws, hskip⟩ := statsCopyLoop_skip dir now [st] rest
          (by intro x hx; rw [List.mem_singleton.1 hx]; exact hc) written sess writes
        rw [List.singleton_append] at hskip
        rw [hskip] at h
        rcases ih w s ws h with hall | ⟨pre, st', rest', hsteps, hpre, hw', he'⟩
        · left
          intro x hx
          rcases List.mem_cons.1 hx with hx | hx
          · rw [hx]; exact hc
          · exact hall x hx
        · right
          refine ⟨st :: pre, st', rest', by rw [hsteps, List.cons_append], ?_, hw', he'⟩
          intro x hx
          rcases List.mem_cons.1 hx with hx | hx
          · rw [hx]; exact hc
          · exact hpre x hx
    · exfalso
      unfold writeAccepted at hw
      push_neg at hw
      obtain ⟨hnr, hbad⟩ := hw
      cases hew : st.ew with
      | some e =>
        rw [h1 hnr e hew] at h
        cases h
      | none =>
        rw [h2 hnr hew (hbad hew)] at h
        cases h

/-- C28, as the code has it: the read of the only turn returns 5 bytes
together with an error that is not `io.EOF`, and the write accepts 3 of them
without error; `statsCopy` returns `io.ErrShortWrite`, not the read error. -/
theorem statsCopy_read_error_masked :
    (statsCopy [⟨5, some (IOError.other 1), 3, none⟩] (exampleSession 0) dirUplink 9).err =
      some IOError.ErrShortWrite ∧
    (statsCopy [⟨5, some (IOError.other 1), 5, some (IOError.other 2)⟩] (exampleSession 0)
      dirUplink 9).err = some (IOError.other 2) := by
  constructor <;> decide

/-- C28 (amended): a reader that has given all its results reporting
`io.EOF`, `statsCopy` returns a `nil` error exactly when every turn taken
before the end had its write, if any, accepted in full without error and the
copy ended by a read that reported `io.EOF` and whose bytes, if any, were
written in full without error.  At the turn where the copy ends it returns
the write error when the write fails, `io.ErrShortWrite` when the write
reports no error and accepts fewer bytes than were read, and the read error
when the read reports an error other than `io.EOF` and the write of that
turn, if any, was accepted in full without error. -/
theorem statsCopy_error (steps : List CopyStep) (sess : Session) (dir : direction)
    (now : Int) :
    ((statsCopy steps sess dir now).err = none ↔
      ((∀ x ∈ steps, turnContinues x) ∨
        ∃ pre st rest, steps = pre ++ st :: rest ∧ (∀ x ∈ pre, turnContinues x) ∧
          writeAccepted st ∧ st.er = some IOError.EOF)) ∧
    (∀ pre st rest, steps = pre ++ st :: rest → (∀ x ∈ pre, turnContinues x) →
      (st.nr > 0 → ∀ e, st.ew = some e → (statsCopy steps sess dir now).err = some e) ∧
      (st.nr > 0 → st.ew = none → st.nw < st.nr →
        (statsCopy steps sess dir now).err = some IOError.ErrShortWrite) ∧
      (writeAccepted st → ∀ e, st.er = some e → e ≠ IOError.EOF →
        (statsCopy steps sess dir now).err = some e)) := by
  constructor
  · constructor
    · exact statsCopyLoop_err_none dir now steps 0 sess []
    · rintro (hall | ⟨pre, st, rest, hsteps, hpre, hw, he⟩)
      · obtain ⟨w, s, ws, hskip⟩ := statsCopyLoop_skip dir now steps [] hall 0 sess []
        rw [List.append_nil] at hskip
        rw [statsCopy, hskip]
        rfl
      · obtain ⟨w, s, ws, hskip⟩ := statsCopyLoop_skip dir now pre (st :: rest) hpre 0 sess []
        rw [statsCopy, hsteps, hskip]
        exact (statsCopyLoop_head dir now st rest w s ws).2.2.2 hw he
  · intro pre st rest hsteps hpre
    obtain ⟨w, s, ws, hskip⟩ := statsCopyLoop_skip dir now pre (st :: rest) hpre 0 sess []
    obtain ⟨h1, h2, h3, -⟩ := statsCopyLoop_head dir now st rest w s ws
    rw [statsCopy, hsteps, hskip]
    exact ⟨h1, fun hnr hew hlt => h2 hnr hew (ne_of_gt hlt), h3⟩

/-- Witness of C28 (amended): after a turn of 5 bytes written in full, a
read of 3 bytes fails with an error that is not `io.EOF`; the 3 bytes are
written in full and the read error is returned. -/
theorem statsCopy_error_witness :
    (statsCopy ([⟨5, none, 5, none⟩] ++ ⟨3, some (IOError.other 1), 3, none⟩ :: [])
      (exampleSession 0) dirUplink 9).err = some (IOError.other 1) :=
  ((statsCopy_error ([⟨5, none, 5, none⟩] ++ ⟨3, some (IOError.other 1), 3, none⟩ :: [])
    (exampleSession 0) dirUplink 9).2 [⟨5, none, 5, none⟩] ⟨3, some (IOError.other 1), 3, none⟩
    [] rfl (by decide)).2.2 (by decide) (IOError.other 1) rfl (by decide)

end Socks

/-! ## Fallback resolver -/

namespace Resolver

open FakeDns IPCache

theorem attempts_cons (s : GoString) (ss : List GoString) :
    attempts (s :: ss) = (s, TypeA) :: (s, TypeAAAA) :: attempts ss := rfl

/-- A usable attempt: the exchange succeeds, the reply has the success
`Rcode` and at least one record of the queried type. -/
theorem attempt_ok_iff (exchange : GoString → Nat → Except Nat Reply) (s : GoString) (t : Nat)
    (ips : List IP) :
    attempt exchange s t = Except.ok ips ↔
      ∃ r, exchange s t = Except.ok r ∧ r.Rcode = RcodeSuccess ∧
        ips = eligible t r.Answer ∧ 0 < ips.length := by
  unfold attempt
  cases hx : exchange s t with
  | error err => simp
  | ok r =>
    by_cases hr : r.Rcode = RcodeSuccess
    · by_cases hl : (eligible t r.Answer).length > 0
      · simp only [hr, ne_eq, not_true_eq_false, if_false, hl, if_true, Except.ok.injEq,
          true_and, exists_eq_left']
        constructor
        · intro h; rw [← h]; exact ⟨rfl, hl⟩
        · rintro ⟨h, -⟩; exact h.symm
      · simp only [hr, ne_eq, not_true_eq_false, if_false, hl, Except.ok.injEq, true_and,
          exists_eq_left']
        constructor
        · intro h; cases h
        · rintro ⟨h, hpos⟩
          rw [h] at hpos
          exact absurd hpos hl
    · simp [hr]

/-- The loop at a usable attempt returns its addresses and makes no further
attempt. -/
theorem resolveLoop_ok (exchange : GoString → Nat → Except Nat Reply) (s : GoString) (t : Nat)
    (rest : List (GoString × Nat)) (lastErr : Option ResolveError)
    (made : List (GoString × Nat)) (ips : List IP)
    (h : attempt exchange s t = Except.ok ips) :
    resolveLoop exchange ((s, t) :: rest) lastErr made = (Except.ok ips, made ++ [(s, t)]) := by
  unfold attempt at h
  unfold resolveLoop
  cases hx : exchange s t with
  | error err => rw [hx] at h; cases h
  | ok r =>
    rw [hx] at h
    by_cases hr : r.Rcode = RcodeSuccess
    · by_cases hl : (eligible t r.Answer).length > 0
      · simp only [hr, ne_eq, not_true_eq_false, if_false, hl, if_true, Except.ok.injEq] at h
        subst h
        simp only [hr, ne_eq, not_true_eq_false, if_false, hl, if_true]
      · simp [hr, hl] at h
    · simp [hr] at h

/-- The loop at an attempt that is not usable records its error and goes
on to the next attempt. -/
theorem resolveLoop_error (exchange : GoString → Nat → Except Nat Reply) (s : GoString)
    (t : Nat) (rest : List (GoString × Nat)) (lastErr : Option ResolveError)
    (made : List (GoString × Nat)) (e : ResolveError)
    (h : attempt exchange s t = Except.error e) :
    resolveLoop exchange ((s, t) :: rest) lastErr made =
      resolveLoop exchange rest (some e) (made ++ [(s, t)]) := by
  unfold attempt at h
  conv_lhs => unfold resolveLoop
  cases hx : exchange s t with
  | error err =>
    rw [hx] at h
    simp only [Except.error.injEq] at h
    simp only [h]
  | ok r =>
    rw [hx] at h
    by_cases hr : r.Rcode = RcodeSuccess
    · by_cases hl : (eligible t r.Answer).length > 0
      · simp [hr, hl] at h
      · simp only [hr, ne_eq, not_true_eq_false, if_false, hl, Except.error.injEq] at h
        simp only [hr, ne_eq, not_true_eq_false, if_false, hl, h]
    · simp only [ne_eq, hr, not_false_eq_true, if_true, Except.error.injEq] at h
      simp only [ne_eq, hr, not_false_eq_true, if_true, h]

/-- The attempts that are not usable are passed in order. -/
theorem resolveLoop_skip (exchange : GoString → Nat → Except Nat Reply)
    (pre tail : List (GoString × Nat))
    (hpre : ∀ a ∈ pre, ∃ e, attempt exchange a.1 a.2 = Except.error e)
    (lastErr : Option ResolveError) (made : List (GoString × Nat)) :
    ∃ le, resolveLoop exchange (pre ++ tail) lastErr made =
      resolveLoop exchange tail le (made ++ pre) := by
  induction pre generalizing lastErr made with
  | nil => exact ⟨lastErr, by simp⟩
  | cons a xs ih =>
    obtain ⟨e, he⟩ := hpre a (List.mem_cons_self _ _)
    obtain ⟨le, hle⟩ := ih (fun y hy => hpre y (List.mem_cons_of_mem _ hy)) (some e)
      (made ++ [a])
    refine ⟨le, ?_⟩
    rw [List.cons_append, resolveLoop_error exchange a.1 a.2 _ lastErr made e he, hle,
      List.append_assoc, List.singleton_append]

/-- The addresses the loop returns are at least one. -/
theorem resolveLoop_ok_length (exchange : GoString → Nat → Except Nat Reply)
    (xs : List (GoString × Nat)) (lastErr : Option ResolveError)
    (made : List (GoString × Nat)) (ips : List IP)
    (h : (resolveLoop exchange xs lastErr made).1 = Except.ok ips) : 0 < ips.length := by
  induction xs generalizing lastErr made with
  | nil =>
    unfold resolveLoop at h
    cases lastErr <;> cases h
  | cons a xs ih =>
    cases ha : attempt exchange a.1 a.2 with
    | error e =>
      rw [resolveLoop_error exchange a.1 a.2 xs lastErr made e ha] at h
      exact ih _ _ h
    | ok ips' =>
      rw [resolveLoop_ok exchange a.1 a.2 xs lastErr made ips' ha] at h
      simp only [Except.ok.injEq] at h
      rw [← h]
      exact ((attempt_ok_iff exchange a.1 a.2 ips').1 ha).choose_spec.2.2.2

end Resolver

namespace Resolver

open FakeDns IPCache

/-- `Resolve` when the cache gives no address: the loops, started with no
error and no attempt made. -/
theorem Resolve_miss (exchange : GoString → Nat → Except Nat Reply) (cache : simpleIPCache)
    (dnsServers : List GoString) (domain : GoString) (now : Int)
    (hmiss : (Query cache domain now).1 = none ∨ (Query cache domain now).1 = some []) :
    (Resolve exchange cache dnsServers domain now).1 =
      resolveLoop exchange (attempts dnsServers) none [] := by
  unfold Resolve
  rcases hmiss with h | h <;> simp [h]

/-- C23: when the cache returns a non-empty list for the domain, `Resolve`
returns that list and makes no exchange.  When the cache returns nothing,
the attempts are made in the order of the server list, type A and then type
AAAA for each server; `Resolve` returns the addresses of the first attempt
that is usable (the exchange succeeds with the success `Rcode` and at least
one record of the queried type) and makes no attempt after it; when no
attempt is usable it returns the error of the last attempt, having made all
of them; with no server it returns the error "no eligible result found." -/
theorem Resolve_contract (exchange : GoString → Nat → Except Nat Reply)
    (cache : simpleIPCache) (dnsServers : List GoString) (domain : GoString) (now : Int) :
    (∀ ips, (Query cache domain now).1 = some ips → 0 < ips.length →
      Resolve exchange cache dnsServers domain now =
        ((Except.ok ips, []), (Query cache domain now).2)) ∧
    (((Query cache domain now).1 = none ∨ (Query cache domain now).1 = some []) →
      (∀ pre s t rest ips, attempts dnsServers = pre ++ (s, t) :: rest →
        (∀ a ∈ pre, ∃ e, attempt exchange a.1 a.2 = Except.error e) →
        attempt exchange s t = Except.ok ips →
        (Resolve exchange cache dnsServers domain now).1 =
          (Except.ok ips, pre ++ [(s, t)])) ∧
      (∀ pre s t e, attempts dnsServers = pre ++ [(s, t)] →
        (∀ a ∈ pre, ∃ e, attempt exchange a.1 a.2 = Except.error e) →
        attempt exchange s t = Except.error e →
        (Resolve exchange cache dnsServers domain now).1 =
          (Except.error e, attempts dnsServers)) ∧
      (dnsServers = [] →
        (Resolve exchange cache dnsServers domain now).1 =
          (Except.error ResolveError.noEligibleResult, []))) ∧
    (∀ s ss, attempts (s :: ss) = (s, TypeA) :: (s, TypeAAAA) :: attempts ss) ∧
    (∀ s t ips, attempt exchange s t = Except.ok ips ↔
      ∃ r, exchange s t = Except.ok r ∧ r.Rcode = RcodeSuccess ∧
        ips = eligible t r.Answer ∧ 0 < ips.length) := by
  refine ⟨?_, ?_, fun _ _ => rfl, attempt_ok_iff exchange⟩
  · intro ips hq hlen
    unfold Resolve
    simp [hq, hlen]
  · intro hmiss
    have hR := Resolve_miss exchange cache dnsServers domain now hmiss
    refine ⟨?_, ?_, ?_⟩
    · intro pre s t rest ips hatt hpre hok
      obtain ⟨le, hle⟩ := resolveLoop_skip exchange pre ((s, t) :: rest) hpre none []
      rw [hR, hatt, hle, resolveLoop_ok exchange s t rest le _ ips hok, List.nil_append]
    · intro pre s t e hatt hpre herr
      obtain ⟨le, hle⟩ := resolveLoop_skip exchange pre [(s, t)] hpre none []
      rw [hR, hatt, hle, resolveLoop_error exchange s t [] le _ e herr, List.nil_append]
      rfl
    · intro hs
      rw [hR, hs]
      rfl

/-- Witness of C23: an empty cache and the servers `9.9.9.9`, which does not
answer, and `1.1.1.1`, which answers type A: two attempts fail, the third
returns `93.184.216.34`, and the fourth is not made. -/
theorem Resolve_contract_witness :
    (Resolve exampleExchange (NewSimpleIPCache 0) ["9.9.9.9".toList, "1.1.1.1".toList]
        "example.com".toList 5).1 =
      (Except.ok [IPv4 93 184 216 34],
        [("9.9.9.9".toList, TypeA), ("9.9.9.9".toList, TypeAAAA)] ++
          [("1.1.1.1".toList, TypeA)]) :=
  ((Resolve_contract exampleExchange (NewSimpleIPCache 0)
      ["9.9.9.9".toList, "1.1.1.1".toList] "example.com".toList 5).2.1 (Or.inl rfl)).1
    [("9.9.9.9".toList, TypeA), ("9.9.9.9".toList, TypeAAAA)] "1.1.1.1".toList TypeA
    [("1.1.1.1".toList, TypeAAAA)] [IPv4 93 184 216 34] rfl
    (by
      intro a ha
      simp only [List.mem_cons, List.mem_singleton, List.not_mem_nil, or_false] at ha
      rcases ha with ha | ha <;> rw [ha] <;> exact ⟨_, rfl⟩)
    rfl

/-- C30: a list `Resolve` returns with a `nil` error has at least one
address, so that the index `ResolverDialer.Dial` draws for it, the dice
giving a number below its positive argument, is within the list and the
address is taken without a panic. -/
theorem Resolve_ok_nonempty (exchange : GoString → Nat → Except Nat Reply)
    (cache : simpleIPCache) (dnsServers : List GoString) (domain : GoString) (now : Int)
    (roll : Nat → Nat) (ips : List IP) (hroll : ∀ n, 0 < n → roll n < n)
    (h : (Resolve exchange cache dnsServers domain now).1.1 = Except.ok ips) :
    0 < ips.length ∧ roll ips.length < ips.length ∧ ∃ ip, dialAddress roll ips = some ip := by
  have hlen : 0 < ips.length := by
    unfold Resolve at h
    simp only at h
    split_ifs at h with hc
    · simp only [Except.ok.injEq] at h
      rw [← h]
      exact hc
    · exact resolveLoop_ok_length exchange _ _ _ ips h
  refine ⟨hlen, hroll _ hlen, ?_⟩
  unfold dialAddress
  exact ⟨ips.get ⟨roll ips.length, hroll _ hlen⟩, List.getElem?_eq_getElem (hroll _ hlen)⟩

/-- Witness of C30: the resolution of the witness of C23, and a dice that
always gives 0. -/
theorem Resolve_ok_nonempty_witness :
    0 < [IPv4 93 184 216 34].length ∧ (fun _ => 0) [IPv4 93 184 216 34].length <
      [IPv4 93 184 216 34].length ∧
      ∃ ip, dialAddress (fun _ => 0) [IPv4 93 184 216 34] = some ip :=
  Resolve_ok_nonempty exampleExchange (NewSimpleIPCache 0)
    ["9.9.9.9".toList, "1.1.1.1".toList] "example.com".toList 5 (fun _ => 0)
    [IPv4 93 184 216 34] (fun _ hn => hn) rfl

end Resolver

/-! ## Process lookup -/

namespace Proc

open FakeDns

theorem skipField_append (a rest : List Char) (h : ' ' ∉ a) :
    skipField (a ++ ' ' :: rest) = rest := by
  induction a with
  | nil => simp [skipField]
  | cons c cs ih =>
    have hc : c ≠ ' ' := fun hc => h (by rw [hc]; exact List.mem_cons_self _ _)
    have hcs : ' ' ∉ cs := fun hm => h (List.mem_cons_of_mem _ hm)
    rw [List.cons_append, skipField, if_neg hc, ih hcs]

/-- Inside the parentheses every rune other than `)` is added to the
name. -/
theorem scanComm_name (comm acc rest : List Char) (h : ')' ∉ comm) :
    scanComm true acc (comm ++ ')' :: rest) = scanComm false (acc ++ comm) rest := by
  induction comm generalizing acc with
  | nil => simp [scanComm]
  | cons c cs ih =>
    have hc : c ≠ ')' := fun hc => h (by rw [hc]; exact List.mem_cons_self _ _)
    have hcs : ')' ∉ cs := fun hm => h (List.mem_cons_of_mem _ hm)
    rw [List.cons_append, scanComm]
    simp only [Bool.true_eq_false, false_and, if_false, hc, if_true]
    rw [ih _ hcs, List.append_assoc, List.singleton_append]

theorem scanPpid_digits (ds acc tail : List Char) (h : ' ' ∉ ds)
    (htail : tail = [] ∨ ∃ t, tail = ' ' :: t) :
    scanPpid acc (ds ++ tail) = acc ++ ds := by
  induction ds generalizing acc with
  | nil =>
    rcases htail with ht | ⟨t, ht⟩ <;> rw [ht] <;> simp [scanPpid]
  | cons c cs ih =>
    have hc : c ≠ ' ' := fun hc => h (by rw [hc]; exact List.mem_cons_self _ _)
    have hcs : ' ' ∉ cs := fun hm => h (List.mem_cons_of_mem _ hm)
    rw [List.cons_append, scanPpid, if_neg hc, ih _ hcs, List.append_assoc,
      List.singleton_append]

theorem space_not_mem_formatUint (n : Nat) : ' ' ∉ formatUint n := by
  intro h
  have := (mem_formatUint n ' ' h).1
  exact absurd this (by decide)

/-- C24, at the failing input: the content `555 (a)b) S 2 0 0 0` has the
claimed form, with the command name `a)b` and the parent pid 2; the scan of
the name stops adding at the first closing parenthesis and
`GetPpidAndCommand` returns the name `a`, not `a)b`.  In the same way the
name `(sd-pam)` is returned as `(sd-pam`. -/
theorem GetPpidAndCommand_paren_in_name :
    GetPpidAndCommand (some "555 (a)b) S 2 0 0 0".toList) = Except.ok (2, "a".toList) ∧
    ("555 (a)b) S 2 0 0 0".toList =
      "555".toList ++ [' ', '('] ++ "a)b".toList ++ [')', ' '] ++ "S".toList ++ [' '] ++
        formatUint 2 ++ " 0 0 0".toList) ∧
    "a".toList ≠ "a)b".toList ∧
    GetPpidAndCommand (some "1234 ((sd-pam)) S 1233 0 0".toList) =
      Except.ok (1233, "(sd-pam".toList) := by
  refine ⟨rfl, ?_, ?_, rfl⟩
  · decide
  · decide

/-- The contents `GetPpidAndCommand` parses in full: for a content
`<pid> (<comm>) <state> <ppid>`, followed by
nothing or by a space and further fields, where the pid and the state hold
no space, the command name is not empty and holds no closing parenthesis,
and the parent pid is a decimal number below `2 ^ 63`, `GetPpidAndCommand`
returns the parent pid and the command name, with no error. -/
theorem GetPpidAndCommand_parses (pid comm state tail : List Char) (ppid : Nat)
    (hpid : ' ' ∉ pid) (hcomm : comm ≠ []) (hparen : ')' ∉ comm) (hstate : ' ' ∉ state)
    (hppid : ppid < 2 ^ 63) (htail : tail = [] ∨ ∃ t, tail = ' ' :: t) :
    GetPpidAndCommand
        (some (pid ++ [' ', '('] ++ comm ++ [')', ' '] ++ state ++ [' '] ++ formatUint ppid ++
          tail)) =
      Except.ok ((ppid : Int), comm) := by
  have hform : pid ++ [' ', '('] ++ comm ++ [')', ' '] ++ state ++ [' '] ++ formatUint ppid ++
      tail = pid ++ ' ' :: '(' :: (comm ++ ')' :: ' ' :: (state ++ ' ' ::
        (formatUint ppid ++ tail))) := by
    simp [List.append_assoc]
  have h1 : skipField (pid ++ ' ' :: '(' :: (comm ++ ')' :: ' ' :: (state ++ ' ' ::
      (formatUint ppid ++ tail)))) =
      '(' :: (comm ++ ')' :: ' ' :: (state ++ ' ' :: (formatUint ppid ++ tail))) :=
    skipField_append _ _ hpid
  have h2 : scanComm false [] ('(' :: (comm ++ ')' :: ' ' :: (state ++ ' ' ::
      (formatUint ppid ++ tail)))) = (comm, state ++ ' ' :: (formatUint ppid ++ tail)) := by
    rw [scanComm]
    simp only [true_and, show ¬ ('(' = ' ') by decide, show ¬ ('(' = ')') by decide, if_false,
      Bool.false_eq_true, if_true]
    rw [scanComm_name _ _ _ hparen, scanComm]
    simp
  have h3 : skipField (state ++ ' ' :: (formatUint ppid ++ tail)) = formatUint ppid ++ tail :=
    skipField_append _ _ hstate
  have h4 : scanPpid [] (formatUint ppid ++ tail) = formatUint ppid := by
    rw [scanPpid_digits _ _ _ (space_not_mem_formatUint ppid) htail, List.nil_append]
  have hlen : comm.length ≠ 0 := fun h => hcomm (List.length_eq_zero.1 h)
  rw [hform]
  simp only [GetPpidAndCommand, h1, h2, h3, h4, hlen, if_false, Atoi_formatUint ppid hppid]

/-- The example of the source comment is parsed in full. -/
theorem GetPpidAndCommand_parses_witness :
    GetPpidAndCommand
        (some ("555".toList ++ [' ', '('] ++ "UVM global queu".toList ++ [')', ' '] ++
          "S".toList ++ [' '] ++ formatUint 2 ++ " 0 0 0 -1 2129984".toList)) =
      Except.ok (((2 : Nat) : Int), "UVM global queu".toList) :=
  GetPpidAndCommand_parses "555".toList "UVM global queu".toList "S".toList
    " 0 0 0 -1 2129984".toList 2 (by decide) (by decide) (by decide) (by decide) (by decide)
    (Or.inr ⟨"0 0 0 -1 2129984".toList, rfl⟩)

end Proc

namespace Proc

open FakeDns

/-- The loop of `GetProcessesBySocket` ends within `rank pid + 1` turns when
every parent it goes on to has a lower rank than its child. -/
theorem processChain_returns (getPpidAndCommand : Int → Except ProcError (Int × GoString))
    (rank : Int → Nat)
    (hrank : ∀ pid ppid comm, getPpidAndCommand pid = Except.ok (ppid, comm) →
      ppid ≠ InitProcessID → rank ppid < rank pid)
    (fuel : Nat) (pid : Int) (processes : List GoString) (hfuel : rank pid < fuel) :
    ∃ result, processChain getPpidAndCommand fuel pid processes = some result := by
  induction fuel generalizing pid processes with
  | zero => omega
  | succ n ih =>
    unfold processChain
    cases hg : getPpidAndCommand pid with
    | error e => exact ⟨_, rfl⟩
    | ok pc =>
      obtain ⟨ppid, comm⟩ := pc
      simp only
      by_cases hinit : ppid = InitProcessID
      · rw [if_pos hinit]; exact ⟨_, rfl⟩
      · rw [if_neg hinit]
        have := hrank pid ppid comm hg hinit
        exact ih ppid _ (by omega)

/-- C29: whatever `GetPidBySocket` and `GetPpidAndCommand` return, a list
`GetProcessesBySocket` returns with a `nil` error is not empty, and the list
the V2Ray handlers then use (the sentinel when the lookup failed, the
returned list when it succeeded) has an element at index 0; and the lookup
does return when every parent the loop goes on to has a lower rank than its
child and the number of turns allowed exceeds the rank of the first pid. -/
theorem GetProcessesBySocket_nonempty (getPidBySocket : Except ProcError Int)
    (getPpidAndCommand : Int → Except ProcError (Int × GoString)) (fuel : Nat) :
    (∀ r, GetProcessesBySocket getPidBySocket getPpidAndCommand fuel = some r →
      (∀ list, r = Except.ok list → 0 < list.length) ∧
      ∃ p, (handlerProcesses r)[0]? = some p) ∧
    (∀ rank : Int → Nat,
      (∀ pid ppid comm, getPpidAndCommand pid = Except.ok (ppid, comm) →
        ppid ≠ InitProcessID → rank ppid < rank pid) →
      (∀ pid, getPidBySocket = Except.ok pid → rank pid < fuel) →
      ∃ r, GetProcessesBySocket getPidBySocket getPpidAndCommand fuel = some r) := by
  constructor
  · intro r hr
    have hne : ∀ list, r = Except.ok list → 0 < list.length := by
      intro list hlist
      subst hlist
      unfold GetProcessesBySocket at hr
      cases hp : getPidBySocket with
      | error e => rw [hp] at hr; cases hr
      | ok pid =>
        rw [hp] at hr
        simp only at hr
        cases hc : processChain getPpidAndCommand fuel pid [] with
        | none => rw [hc] at hr; cases hr
        | some processes =>
          rw [hc] at hr
          simp only at hr
          split_ifs at hr with hz
          · cases hr
          · simp only [Option.some.injEq, Except.ok.injEq] at hr
            rw [← hr]
            omega
    refine ⟨hne, ?_⟩
    cases r with
    | error e => exact ⟨_, rfl⟩
    | ok list =>
      have := hne list rfl
      cases list with
      | nil => simp at this
      | cons p ps => exact ⟨p, by simp [handlerProcesses]⟩
  · intro rank hrank hfuel
    unfold GetProcessesBySocket
    cases hp : getPidBySocket with
    | error e => exact ⟨_, rfl⟩
    | ok pid =>
      obtain ⟨result, hres⟩ := processChain_returns getPpidAndCommand rank hrank fuel pid []
        (hfuel pid hp)
      simp only [hres]
      split_ifs
      · exact ⟨_, rfl⟩
      · exact ⟨_, rfl⟩

/-- Witness of C29: the socket belongs to `curl` (pid 300), a child of
`bash` (pid 200), a child of `init`; the lookup returns `curl`, `bash`. -/
theorem GetProcessesBySocket_nonempty_witness :
    GetProcessesBySocket (Except.ok 300) exampleTable 5 =
      some (Except.ok ["curl".toList, "bash".toList]) ∧
    0 < ["curl".toList, "bash".toList].length ∧
    ∃ p, (handlerProcesses (Except.ok ["curl".toList, "bash".toList] :
      Except ProcError (List GoString)))[0]? = some p :=
  ⟨rfl,
   ((GetProcessesBySocket_nonempty (Except.ok 300) exampleTable 5).1
      (Except.ok ["curl".toList, "bash".toList]) rfl).1 _ rfl,
   ((GetProcessesBySocket_nonempty (Except.ok 300) exampleTable 5).1
      (Except.ok ["curl".toList, "bash".toList]) rfl).2⟩

end Proc

/-! ## The calls of `Write` made by `statsCopy` -/

namespace Socks

open Stats

theorem writeResults_append (xs ys : List CopyStep) :
    writeResults (xs ++ ys) = writeResults xs ++ writeResults ys := by
  simp [writeResults, List.filter_append, List.map_append]

/-- The turns that continue are passed, each with its call of `Write` if its
read returned a positive count. -/
theorem statsCopyLoop_skip_writes (dir : direction) (now : Int) (pre tail : List CopyStep)
    (hpre : ∀ x ∈ pre, turnContinues x) (written : Int) (sess : Session) (writes : List Int) :
    ∃ w s, statsCopyLoop dir now (pre ++ tail) written sess writes =
      statsCopyLoop dir now tail w s (writes ++ writeResults pre) := by
  induction pre generalizing written sess writes with
  | nil => exact ⟨written, sess, by simp [writeResults]⟩
  | cons x xs ih =>
    obtain ⟨hw, he⟩ := hpre x (List.mem_cons_self _ _)
    have hxs : ∀ y ∈ xs, turnContinues y := fun y hy => hpre y (List.mem_cons_of_mem _ hy)
    have happ : writeResults (x :: xs) = writeResults [x] ++ writeResults xs :=
      writeResults_append [x] xs
    by_cases hnr : x.nr > 0
    · obtain ⟨hew, hnw⟩ := hw hnr
      have hx : writeResults [x] = [x.nw] := by simp [writeResults, hnr]
      rw [List.cons_append, statsCopyLoop, if_pos hnr]
      simp only [hew, he, hnw, ne_eq, not_true_eq_false, if_false]
      obtain ⟨w, s, h⟩ := ih hxs (if x.nw > 0 then addInt64 written x.nw else written)
        (if x.nw > 0 then countBytes sess dir x.nw now else sess) (writes ++ [x.nw])
      refine ⟨w, s, ?_⟩
      rw [h, happ, hx, List.append_assoc]
    · have hx : writeResults [x] = [] := by simp [writeResults, hnr]
      rw [List.cons_append, statsCopyLoop, if_neg hnr]
      simp only [he, ne_eq, not_true_eq_false, if_false]
      obtain ⟨w, s, h⟩ := ih hxs written sess writes
      refine ⟨w, s, ?_⟩
      rw [h, happ, hx, List.nil_append]

/-- The turn at which the loop ends adds its call of `Write`, if its read
returned a positive count, and no turn after it is taken. -/
theorem statsCopyLoop_end_writes (dir : direction) (now : Int) (st : CopyStep)
    (rest : List CopyStep) (written : Int) (sess : Session) (writes : List Int)
    (hend : ¬ turnContinues st) :
    (statsCopyLoop dir now (st :: rest) written sess writes).writes =
      writes ++ writeResults [st] := by
  by_cases hnr : st.nr > 0
  · have hx : writeResults [st] = [st.nw] := by simp [writeResults, hnr]
    rw [statsCopyLoop, if_pos hnr, hx]
    by_cases hew : st.ew = none
    · by_cases hnw : st.nr = st.nw
      · by_cases her : st.er = none
        · exact absurd ⟨fun _ => ⟨hew, hnw⟩, her⟩ hend
        · simp [hew, hnw, her]
      · simp [hew, hnw]
    · simp [hew]
  · have hx : writeResults [st] = [] := by simp [writeResults, hnr]
    rw [statsCopyLoop, if_neg hnr, hx]
    by_cases her : st.er = none
    · exact absurd ⟨fun h => absurd h hnr, her⟩ hend
    · simp [her]

end Socks

namespace Socks

open FakeDns Stats

/-- C17: `statsCopy` run against any finite sequence of read and write
results, on a session whose counters are `int64` values.  The calls of
`dst.Write` it makes are those of the turns whose read returned a positive
count, up to and including the turn at which the copy ends (all the turns
when every turn continues), and no other.  The value `written` is the sum of
the byte counts those calls accepted (in `int64` arithmetic), the counter of
the own direction has grown by `written` (in `int64` arithmetic) and the
counter of the other direction is unchanged.  When the sums stay below
`2 ^ 63` the equalities hold without wrap-around, and for a writer that
never returns a negative count the sum accepted is the sum of all counts
returned. -/
theorem statsCopy_counts (steps : List CopyStep) (sess : Session) (now : Int)
    (hU : -(2 : Int) ^ 63 ≤ sess.UploadBytes ∧ sess.UploadBytes < (2 : Int) ^ 63)
    (hD : -(2 : Int) ^ 63 ≤ sess.DownloadBytes ∧ sess.DownloadBytes < (2 : Int) ^ 63) :
    (∀ dir, (∀ x ∈ steps, turnContinues x) →
      (statsCopy steps sess dir now).writes = writeResults steps) ∧
    (∀ dir pre st rest, steps = pre ++ st :: rest → (∀ x ∈ pre, turnContinues x) →
      ¬ turnContinues st →
      (statsCopy steps sess dir now).writes = writeResults (pre ++ [st])) ∧
    (∀ dir, (statsCopy steps sess dir now).written =
      wrapInt64 (accepted (statsCopy steps sess dir now).writes)) ∧
    ((statsCopy steps sess dirUplink now).sess.UploadBytes =
        addInt64 sess.UploadBytes (statsCopy steps sess dirUplink now).written ∧
      (statsCopy steps sess dirUplink now).sess.DownloadBytes = sess.DownloadBytes) ∧
    ((statsCopy steps sess dirDownlink now).sess.DownloadBytes =
        addInt64 sess.DownloadBytes (statsCopy steps sess dirDownlink now).written ∧
      (statsCopy steps sess dirDownlink now).sess.UploadBytes = sess.UploadBytes) ∧
    (∀ dir, accepted (statsCopy steps sess dir now).writes < (2 : Int) ^ 63 →
      (statsCopy steps sess dir now).written =
        accepted (statsCopy steps sess dir now).writes) ∧
    (sess.UploadBytes + accepted (statsCopy steps sess dirUplink now).writes < (2 : Int) ^ 63 →
      (statsCopy steps sess dirUplink now).sess.UploadBytes =
        sess.UploadBytes + accepted (statsCopy steps sess dirUplink now).writes) ∧
    (sess.DownloadBytes + accepted (statsCopy steps sess dirDownlink now).writes
        < (2 : Int) ^ 63 →
      (statsCopy steps sess dirDownlink now).sess.DownloadBytes =
        sess.DownloadBytes + accepted (statsCopy steps sess dirDownlink now).writes) ∧
    (∀ dir, (∀ nw ∈ (statsCopy steps sess dir now).writes, 0 ≤ nw) →
      accepted (statsCopy steps sess dir now).writes =
        (statsCopy steps sess dir now).writes.sum) := by
  obtain ⟨h1, h2, h3, h4, h5, h6, h7⟩ := statsCopy_counts_of_trace steps sess now hU hD
  refine ⟨?_, ?_, h1, h2, h3, h4, h5, h6, h7⟩
  · intro dir hall
    obtain ⟨w, s, h⟩ := statsCopyLoop_skip_writes dir now steps [] hall 0 sess []
    rw [List.append_nil] at h
    rw [statsCopy, h, List.nil_append]
    rfl
  · intro dir pre st rest hsteps hpre hend
    obtain ⟨w, s, h⟩ := statsCopyLoop_skip_writes dir now pre (st :: rest) hpre 0 sess []
    rw [statsCopy, hsteps, h, statsCopyLoop_end_writes dir now st rest w s _ hend,
      List.nil_append, writeResults_append]

/-- Witness of C17: a downlink copy of 5 and then 3 bytes, ended by
`io.EOF`, on a session that had downloaded 10 bytes: two calls of `Write`,
8 bytes written, 18 bytes downloaded. -/
theorem statsCopy_counts_witness :
    (statsCopy ([⟨5, none, 5, none⟩] ++ ⟨3, some IOError.EOF, 3, none⟩ :: [])
        { exampleSession 0 with DownloadBytes := 10 } dirDownlink 9).writes = [5, 3] ∧
    (statsCopy ([⟨5, none, 5, none⟩] ++ ⟨3, some IOError.EOF, 3, none⟩ :: [])
        { exampleSession 0 with DownloadBytes := 10 } dirDownlink 9).written = 8 ∧
    (statsCopy ([⟨5, none, 5, none⟩] ++ ⟨3, some IOError.EOF, 3, none⟩ :: [])
        { exampleSession 0 with DownloadBytes := 10 } dirDownlink 9).sess.DownloadBytes = 18 :=
  ⟨(statsCopy_counts ([⟨5, none, 5, none⟩] ++ ⟨3, some IOError.EOF, 3, none⟩ :: [])
      { exampleSession 0 with DownloadBytes := 10 } 9 (by decide) (by decide)).2.1
      dirDownlink [⟨5, none, 5, none⟩] ⟨3, some IOError.EOF, 3, none⟩ [] rfl (by decide)
      (by decide),
   ((statsCopy_counts ([⟨5, none, 5, none⟩] ++ ⟨3, some IOError.EOF, 3, none⟩ :: [])
      { exampleSession 0 with DownloadBytes := 10 } 9 (by decide) (by decide)).2.2.2.2.2.1
      dirDownlink (by decide)).trans (by decide),
   ((statsCopy_counts ([⟨5, none, 5, none⟩] ++ ⟨3, some IOError.EOF, 3, none⟩ :: [])
      { exampleSession 0 with DownloadBytes := 10 } 9 (by decide) (by decide)).2.2.2.2.2.2.2.1
      (by decide)).trans (by decide)⟩

end Socks
